import Mathlib

/-!
Verification of the starchart graph validation / canonical serialization engine.

This file is a shallow embedding of the engine's final sources:
* `AnalysisUtils` (format validators),
* `shapes/types` (node model),
* `SemanticVisitor` (semantic rules, with in-place field defaulting),
* `GraphAnalyzer` (two-pass traversal engine and diagnostic grouping),
* `SerializationVisitor` (canonical document construction),
* `Serialization` (analysis / refusal / serialization pipeline),
* the deserializer (`deserializeGraph`, `performGraphDeserialization`, `layoutGraph`).

Modelling conventions, used throughout:
* TypeScript `string | undefined` fields become `Option String`; the JavaScript
  truthiness test `if (x)` on a string becomes `strTruthy` (`none` and `some ""`
  are both falsy).  Booleans become `Option Bool` with `getD false` truthiness.
* JavaScript `Map` objects become association lists whose `set` replaces the
  first (unique) occurrence of a key in place, so lookup order is preserved.
* YAML emission and parsing (`js-yaml`'s pure `dump`/`load`) are treated as the
  identity on structured documents; a mapping key assigned the value
  `undefined` does not survive a dump/load cycle, so document fields are
  represented as `Option` at the post-YAML level.
* In-place node mutation by the semantic visitor is modelled by `visitNode`
  returning the updated node; the engine threads the updated graph into the
  edge pass, exactly as the shared object references do in the source.
* A JavaScript `TypeError` escaping the serialization visitor (pushing a link
  onto a node object that has no `links` key) is modelled by `Option`: the
  visitor's `visitEdge` returns `none` and the run produces no result.
-/

/-! ## Character classes and format validators (`AnalysisUtils`) -/

/-- JavaScript's `\s` character class, restricted to the characters that can
appear in this code base (ASCII whitespace and no-break space). -/
def isJsWhitespace (c : Char) : Bool :=
  c == ' ' || c == '\t' || c == '\n' || c == '\r' || c == '\x0b' || c == '\x0c' || c == '\u00A0'

/-- Regex `^[a-zA-Z0-9\\s]+$` (`AnalysisUtils.isAlphanumeric`).  String
operations are carried out on the character list so that every definition
evaluates by kernel reduction. -/
def isAlphanumeric (s : String) : Bool :=
  !s.toList.isEmpty && s.toList.all (fun c => c.isAlphanum || isJsWhitespace c)

/-- Character class `[a-zA-Z0-9_\\-\\/\\.]` used by the path and image regexes. -/
def isPathChar (c : Char) : Bool :=
  c.isAlphanum || c == '_' || c == '-' || c == '/' || c == '.'

/-- Regex `^[a-zA-Z0-9_\\-\\/\\.]+$` (`AnalysisUtils.checkPathFormat`). -/
def checkPathFormat (s : String) : Bool :=
  !s.toList.isEmpty && s.toList.all isPathChar

/-- Regex `^[a-zA-Z0-9_\\-\\/\\.]+:\\/\\/[a-zA-Z0-9_\\-\\/\\.]+$`
(`AnalysisUtils.checkImageFormat`).  Since `:` is not in the character class, a
string matches exactly when it has a single `:`, immediately followed by `//`,
with a nonempty all-path-character part on the left and (after the `//`) on the
right. -/
def checkImageFormat (s : String) : Bool :=
  match s.toList.splitOn ':' with
  | [a, b2] =>
    match b2 with
    | '/' :: '/' :: b => !a.isEmpty && a.all isPathChar && !b.isEmpty && b.all isPathChar
    | _ => false
  | _ => false

/-- JavaScript regex word character (`\\w`), used for `\\b` boundaries. -/
def isWordChar (c : Char) : Bool :=
  c.isAlphanum || c == '_'

/-- A `\\b` word boundary holds between two positions when exactly one side is a
word character (a missing side counts as a non-word character). -/
def boundaryOk (prev next : Option Char) : Bool :=
  (match prev with | some c => isWordChar c | none => false) !=
  (match next with | some c => isWordChar c | none => false)

/-- All ways of consuming one number token
`(25[0-5]|(2[0-4]|1\\d|[1-9]|)\\d)` from the head of the input, returned as
(last consumed character, rest) pairs, in regex alternation order. -/
def ipTokenSplits (cs : List Char) : List (Char × List Char) :=
  (match cs with
   | '2' :: '5' :: c :: rest => if '0' ≤ c && c ≤ '5' then [(c, rest)] else []
   | _ => []) ++
  (match cs with
   | '2' :: c :: d :: rest => if ('0' ≤ c && c ≤ '4') && d.isDigit then [(d, rest)] else []
   | _ => []) ++
  (match cs with
   | '1' :: c :: d :: rest => if c.isDigit && d.isDigit then [(d, rest)] else []
   | _ => []) ++
  (match cs with
   | c :: d :: rest => if ('1' ≤ c && c ≤ '9') && d.isDigit then [(d, rest)] else []
   | _ => []) ++
  (match cs with
   | c :: rest => if c.isDigit then [(c, rest)] else []
   | _ => [])

/-- Backtracking matcher for `((25[0-5]|(2[0-4]|1\\d|[1-9]|)\\d)\\.?\\b){4}`
followed by end of input. -/
def ipGroupsMatch : Nat → List Char → Bool
  | 0, cs => cs.isEmpty
  | k + 1, cs =>
    (ipTokenSplits cs).any (fun p =>
      (boundaryOk (some p.1) p.2.head? && ipGroupsMatch k p.2) ||
      (match p.2 with
       | '.' :: rest2 => boundaryOk (some '.') rest2.head? && ipGroupsMatch k rest2
       | _ => false))

/-- The `ip_regex` of `AnalysisUtils.checkNetworkFormat`:
`^((25[0-5]|(2[0-4]|1\\d|[1-9]|)\\d)\\.?\\b){4}$`. -/
def matchIpRegex (cs : List Char) : Bool :=
  ipGroupsMatch 4 cs

/-- The `mask_regex` `^(?:[0-9]|[12][0-9]|3[0-2])$`. -/
def matchMaskRegex (cs : List Char) : Bool :=
  match cs with
  | [c] => c.isDigit
  | [a, b] => ((a == '1' || a == '2') && b.isDigit) || (a == '3' && ('0' ≤ b && b ≤ '2'))
  | _ => false

/-- The `network_regex` `^[A-Za-z0-9._-]+$`. -/
def matchNetworkRegex (cs : List Char) : Bool :=
  !cs.isEmpty && cs.all (fun c => c.isAlphanum || c == '.' || c == '_' || c == '-')

/-- One hostname label `[A-Za-z0-9](?:[A-Za-z0-9-]{0,61}[A-Za-z0-9])`: between
2 and 63 characters, first and last alphanumeric, interior alphanumeric or
hyphen (the inner group is not optional, so one-character labels fail). -/
def hostLabelOk (cs : List Char) : Bool :=
  match cs with
  | [] => false
  | c :: rest =>
    c.isAlphanum &&
    (match rest.getLast? with
     | none => false
     | some lastc =>
       lastc.isAlphanum && rest.length ≤ 62 &&
       rest.dropLast.all (fun m => m.isAlphanum || m == '-'))

/-- The `hostName_regex`: dot-separated labels, each matching `hostLabelOk`. -/
def matchHostNameRegex (cs : List Char) : Bool :=
  (cs.splitOn '.').all hostLabelOk

/-- `AnalysisUtils.checkNetworkFormat`: colon-separated
`network[:ip[/mask][:gateway[:dns0[:dns1[:hostname[:domain]]]]]]`; each present
field is checked independently, absent trailing fields are not checked.  Note
that only the first `/`-part after the IP is checked as a mask, exactly as in
the source. -/
def checkNetworkFormat (s : String) : Bool :=
  match s.toList.splitOn ':' with
  | [] => false
  | network :: rest =>
    matchNetworkRegex network &&
    (match rest[0]? with
     | none => true
     | some ipAndMask =>
       match ipAndMask.splitOn '/' with
       | [] => false
       | ip :: msk =>
         matchIpRegex ip &&
         (match msk[0]? with
          | none => true
          | some m => matchMaskRegex m)) &&
    (match rest[1]? with | none => true | some gw => matchIpRegex gw) &&
    (match rest[2]? with | none => true | some d0 => matchIpRegex d0) &&
    (match rest[3]? with | none => true | some d1 => matchIpRegex d1) &&
    (match rest[4]? with | none => true | some hn => matchHostNameRegex hn) &&
    (match rest[5]? with | none => true | some dm => matchHostNameRegex dm)

/-- Decimal value of a digit string (used in place of JavaScript's implicit
numeric comparison of the port regex alternatives). -/
def digitsVal (cs : List Char) : Nat :=
  cs.foldl (fun a c => a * 10 + (c.toNat - '0'.toNat)) 0

/-- `AnalysisUtils.checkPortNumberFormat`, the regex
`^((6553[0-5])|(655[0-2][0-9])|(65[0-4][0-9]{2})|(6[0-4][0-9]{3})|([1-5][0-9]{4})|([0-9]{1,4}))$`:
a digit string of length at most four, or a five-digit string (necessarily
without a leading zero, hence decimal value at least 10000) of value at most
65535. -/
def checkPortNumberFormat (cs : List Char) : Bool :=
  cs.length ≥ 1 && cs.all Char.isDigit &&
    (cs.length ≤ 4 || (cs.length == 5 && 10000 ≤ digitsVal cs && digitsVal cs ≤ 65535))

/-- `AnalysisUtils.checkPortMappingFormat`: `hostPort:containerPort`. -/
def checkPortMappingFormat (s : String) : Bool :=
  match s.toList.splitOn ':' with
  | [hostPort, uniKernelPort] =>
    checkPortNumberFormat hostPort && checkPortNumberFormat uniKernelPort
  | _ => false

/-- `AnalysisUtils.checkVolumeFormat`: `hostPath:containerPath`. -/
def checkVolumeFormat (s : String) : Bool :=
  match s.toList.splitOn ':' with
  | [hostPath, uniKernelPath] =>
    checkPathFormat hostPath.asString && checkPathFormat uniKernelPath.asString
  | _ => false

/-- `AnalysisUtils.checkTargetFormat`: `platform/architecture` with platform in
qemu/xen/firecracker and architecture in x86_64/arm64. -/
def checkTargetFormat (s : String) : Bool :=
  match s.toList.splitOn '/' with
  | [platform, architecture] =>
    (platform == "qemu".toList || platform == "xen".toList ||
     platform == "firecracker".toList) &&
    (architecture == "x86_64".toList || architecture == "arm64".toList)
  | _ => false

/-- `AnalysisUtils.checkEnvironmentVariableFormat`, the regex
`^[a-zA-Z_][a-zA-Z0-9_]*(=.+)?$`.  The key character class excludes `=`, so the
key is everything before the first `=`; the value, when an `=` is present, must
be nonempty and (since `.` does not match line terminators) free of them. -/
def checkEnvironmentVariableFormat (s : String) : Bool :=
  let p := s.toList.span (fun c => c != '=')
  let keyOk :=
    match p.1 with
    | [] => false
    | c :: rest => (c.isAlpha || c == '_') && rest.all (fun d => d.isAlphanum || d == '_')
  match p.2 with
  | [] => keyOk
  | _ :: value =>
    keyOk && !value.isEmpty &&
    value.all (fun c => c != '\n' && c != '\r' && c != '\u2028' && c != '\u2029')

/-- `AnalysisUtils.checkMemoryFormat`, the regex `^([1-9][0-9]*)([KMG]i?)$`. -/
def checkMemoryFormat (s : String) : Bool :=
  let cs := s.toList
  let csUnit := if cs.getLast? == some 'i' then cs.dropLast else cs
  match csUnit.getLast? with
  | some u =>
    (u == 'K' || u == 'M' || u == 'G') &&
    (match csUnit.dropLast with
     | [] => false
     | d :: ds => ('1' ≤ d && d ≤ '9') && ds.all Char.isDigit)
  | none => false

/-- JavaScript string comparison `a < b` (lexicographic), evaluated on
character lists so it reduces in the kernel. -/
def charListLt : List Char → List Char → Bool
  | [], [] => false
  | [], _ :: _ => true
  | _ :: _, [] => false
  | a :: as, b :: bs => a < b || (a == b && charListLt as bs)

/-- JavaScript string comparison on `String`. -/
def jsStrLt (a b : String) : Bool :=
  charListLt a.toList b.toList

/-- JavaScript `String.prototype.trim`. -/
def jsTrim (s : String) : String :=
  (((s.toList.dropWhile isJsWhitespace).reverse.dropWhile isJsWhitespace).reverse).asString

/-! ## Graph model (`shapes/types`) -/

/-- `EShapeType`: the four node type tags. -/
inductive EShapeType where
  | dataSource
  | storedProcedure
  | eventTrigger
  | event
deriving DecidableEq, Repr

/-- The string value of an `EShapeType` member, used to build the keys of the
`allowedConnections` table. -/
def shapeTypeStr : EShapeType → String
  | .dataSource => "data_source"
  | .storedProcedure => "stored_procedure"
  | .eventTrigger => "event_trigger"
  | .event => "event"

/-- `ELineType`: hard, soft and event links. -/
inductive ELineType where
  | hard
  | soft
  | event
deriving DecidableEq, Repr

/-- A graph node (`IShape` together with the structural `IDataSource` /
`IUniKernel` payload fields; TypeScript uses structural subtyping, so a single
flat record is the faithful value-level picture).  `wlPrefix` models the
workload `prefix` field.  Optional string fields are `Option String`;
adjacency lists are optional arrays whose entries may themselves be undefined
(unresolved destinations produced by the deserializer). -/
structure NodeData where
  id : String
  type : EShapeType
  x : Int := 0
  y : Int := 0
  isSelected : Bool := false
  name : String
  path : Option String := none
  resourceName : Option String := none
  dataType : Option String := none
  description : Option String := none
  image : Option String := none
  args : Option (List String) := none
  wlPrefix : Option String := none
  disableVirt : Option Bool := none
  runDetached : Option Bool := none
  removeOnStop : Option Bool := none
  memory : Option String := none
  kernelArgs : Option String := none
  networks : Option (List String) := none
  ports : Option (List String) := none
  volumes : Option (List String) := none
  targets : Option (List String) := none
  envVars : Option (List String) := none
  topic : Option String := none
  connectedTo : Option (List (Option String)) := none
  softConnectedTo : Option (List (Option String)) := none
  eventConnectedTo : Option (List (Option String)) := none
deriving DecidableEq, Repr

/-- A graph is the ordered array of its nodes. -/
abbrev Graph := List NodeData

/-- JavaScript truthiness of a `string | undefined` value. -/
def strTruthy : Option String → Bool
  | none => false
  | some s => !s.isEmpty

/-- JavaScript truthiness of a `boolean | undefined` value. -/
def boolTruthy : Option Bool → Bool
  | none => false
  | some b => b

/-- Truthiness-and-nonempty test `xs && xs.length > 0` for optional arrays. -/
def listNonempty : Option (List String) → Bool
  | none => false
  | some l => !l.isEmpty

/-! ## Diagnostics (`DiagnosticReporter`) -/

/-- `ESeverity`. -/
inductive ESeverity where
  | error
  | warning
  | info
deriving DecidableEq, Repr

/-- The report sites of the semantic visitor, one constructor per `report`
call, carrying the data interpolated into the message / `details` payload.
The source's fresh `uuidv4()` diagnostic id is omitted (it is never read). -/
inductive DiagMessage where
  | invalidName (name : String)
  | duplicateName (name : String)
  | invalidPath (path : Option String)
  | invalidResourceName (resourceName : Option String)
  | invalidDataType (dataType : Option String)
  | invalidDescription (description : Option String)
  | invalidImage (image : Option String)
  | invalidArgs (args : Option (List String))
  | invalidPrefixField (p : Option String)
  | invalidDisableVirt (b : Option Bool)
  | invalidRunDetached (b : Option Bool)
  | invalidRemoveOnStop (b : Option Bool)
  | invalidNetworks (entries : List String)
  | invalidPorts (entries : List String)
  | invalidVolumes (entries : List String)
  | invalidTargets (entries : List String)
  | invalidEnvVars (entries : List String)
  | invalidMemory (memory : Option String)
  | invalidTopic (topic : Option String)
  | selfLoop
  | duplicateEdge (toName : String) (toType : EShapeType)
  | invalidConnection (toName : String) (toType : EShapeType) (edgeType : ELineType)
  | multipleHardLinks
deriving DecidableEq, Repr

/-- A diagnostic: report-site message, origin node id, severity. -/
structure Diagnostic where
  message : DiagMessage
  nodeId : Option String
  severity : ESeverity
deriving DecidableEq, Repr

/-! ## JavaScript `Map` model: association lists with replace-in-place `set` -/

/-- Lookup in a string-keyed map (first match; `set` keeps keys unique). -/
def mapGetStr (m : List (String × α)) (k : String) : Option α :=
  (m.find? (fun p => p.1 == k)).map (·.2)

/-- `Map.prototype.set`: replace the value of an existing key in place, or
append a new binding.  (Keys in a `Map` are unique, so replacing the first
occurrence is the map update.) -/
def mapSetStr : List (String × α) → String → α → List (String × α)
  | [], k, v => [(k, v)]
  | p :: m, k, v => if p.1 == k then (k, v) :: m else p :: mapSetStr m k v

/-! ## Semantic rule visitor (`SemanticVisitor`) -/

/-- The per-run state of the semantic visitor: name-seen set, seen-edge set
(keys are sorted endpoint-id pairs) and the hard-link counter per data source
id.  All three are reset in `enterGraph`. -/
structure SemState where
  nodeNames : List String := []
  seenEdges : List String := []
  hardLinkCounts : List (String × Nat) := []
deriving DecidableEq, Repr

/-- `SemanticVisitor.checkNodeName`: name nonempty and alphanumeric. -/
def checkNodeName (node : NodeData) : Bool :=
  if node.name.toList.isEmpty || !isAlphanumeric node.name then false else true

/-- `SemanticVisitor.checkDataSourcePath`. -/
def checkDataSourcePath (node : NodeData) : Bool :=
  if !strTruthy node.path || !checkPathFormat ((node.path).getD "") then false else true

/-- `SemanticVisitor.checkDataSourceResourceName`. -/
def checkDataSourceResourceName (node : NodeData) : Bool :=
  if !strTruthy node.resourceName || !isAlphanumeric ((node.resourceName).getD "") then false
  else true

/-- `SemanticVisitor.checkDataSourceDataType`: defaults an absent (falsy)
`dataType` to `"file"` by mutating the node, otherwise requires `file` or
`folder`.  Returns the check result together with the (possibly updated)
node. -/
def checkDataSourceDataType (node : NodeData) : Bool × NodeData :=
  if !strTruthy node.dataType then (true, { node with dataType := some "file" })
  else if node.dataType != some "file" && node.dataType != some "folder" then (false, node)
  else (true, node)

/-- `SemanticVisitor.checkDataSourceDescription`: no restrictions. -/
def checkDataSourceDescription (_node : NodeData) : Bool :=
  true

/-- `SemanticVisitor.checkUniKernelImage`. -/
def checkUniKernelImage (node : NodeData) : Bool :=
  if !strTruthy node.image || !checkImageFormat ((node.image).getD "") then false else true

/-- `SemanticVisitor.checkUniKernelArgs`: no restrictions. -/
def checkUniKernelArgs (_node : NodeData) : Bool :=
  true

/-- `SemanticVisitor.checkUniKernelPrefix`: optional, alphanumeric when
present. -/
def checkUniKernelPrefixField (node : NodeData) : Bool :=
  if !strTruthy node.wlPrefix then true
  else if !isAlphanumeric ((node.wlPrefix).getD "") then false
  else true

/-- `SemanticVisitor.checkUniKernelDisableVirt`: defaults a falsy field to
`false` by mutating the node; never fails. -/
def checkUniKernelDisableVirt (node : NodeData) : Bool × NodeData :=
  if !boolTruthy node.disableVirt then (true, { node with disableVirt := some false })
  else (true, node)

/-- `SemanticVisitor.checkUniKernelRunDetached`. -/
def checkUniKernelRunDetached (node : NodeData) : Bool × NodeData :=
  if !boolTruthy node.runDetached then (true, { node with runDetached := some false })
  else (true, node)

/-- `SemanticVisitor.checkUniKernelRemoveOnStop`. -/
def checkUniKernelRemoveOnStop (node : NodeData) : Bool × NodeData :=
  if !boolTruthy node.removeOnStop then (true, { node with removeOnStop := some false })
  else (true, node)

/-- `SemanticVisitor.checkUniKernelNetworks`: collect the invalid entries. -/
def checkUniKernelNetworks (node : NodeData) : List String :=
  if !listNonempty node.networks then []
  else ((node.networks).getD []).filter (fun network => !checkNetworkFormat network)

/-- `SemanticVisitor.checkUniKernelPorts`. -/
def checkUniKernelPorts (node : NodeData) : List String :=
  if !listNonempty node.ports then []
  else ((node.ports).getD []).filter (fun portMapping => !checkPortMappingFormat portMapping)

/-- `SemanticVisitor.checkUniKernelVolumes`. -/
def checkUniKernelVolumes (node : NodeData) : List String :=
  if !listNonempty node.volumes then []
  else ((node.volumes).getD []).filter (fun volume => !checkVolumeFormat volume)

/-- `SemanticVisitor.checkUniKernelTargets`. -/
def checkUniKernelTargets (node : NodeData) : List String :=
  if !listNonempty node.targets then []
  else ((node.targets).getD []).filter (fun target => !checkTargetFormat target)

/-- `SemanticVisitor.checkUniKernelEnvVars`. -/
def checkUniKernelEnvVars (node : NodeData) : List String :=
  if !listNonempty node.envVars then []
  else ((node.envVars).getD []).filter (fun envVar => !checkEnvironmentVariableFormat envVar)

/-- `SemanticVisitor.checkUniKernelMemory`: optional, format-checked when
present. -/
def checkUniKernelMemory (node : NodeData) : Bool :=
  if !strTruthy node.memory then true
  else if !checkMemoryFormat ((node.memory).getD "") then false
  else true

/-- `SemanticVisitor.checkEventTopic`: nonempty and alphanumeric. -/
def checkEventTopic (node : NodeData) : Bool :=
  if !strTruthy node.topic || !isAlphanumeric ((node.topic).getD "") then false else true

/-- A diagnostic list for a failed boolean check. -/
def diagIf (failed : Bool) (d : Diagnostic) : List Diagnostic :=
  if failed then [d] else []

/-- `SemanticVisitor.visitNode`: the common name checks followed by the
DataSource or workload specific field checks, reporting one diagnostic per
failed check in source order and applying the documented in-place defaults
(dataType, the three booleans).  Returns the updated node, the successor
state and the reported diagnostics in order. -/
def semVisitNode (node : NodeData) (st : SemState) :
    NodeData × SemState × List Diagnostic :=
  let dName := diagIf (!checkNodeName node)
    ⟨.invalidName node.name, some node.id, .error⟩
  let dupSeen := st.nodeNames.contains node.name
  let dDup := diagIf dupSeen ⟨.duplicateName node.name, some node.id, .warning⟩
  let st := if dupSeen then st else { st with nodeNames := st.nodeNames ++ [node.name] }
  if node.type = .dataSource then
    let dPath := diagIf (!checkDataSourcePath node)
      ⟨.invalidPath node.path, some node.id, .error⟩
    let dRes := diagIf (!checkDataSourceResourceName node)
      ⟨.invalidResourceName node.resourceName, some node.id, .error⟩
    let r := checkDataSourceDataType node
    let node := r.2
    let dType := diagIf (!r.1) ⟨.invalidDataType node.dataType, some node.id, .error⟩
    let dDesc := diagIf (!checkDataSourceDescription node)
      ⟨.invalidDescription node.description, some node.id, .error⟩
    (node, st, dName ++ dDup ++ dPath ++ dRes ++ dType ++ dDesc)
  else
    let dImage := diagIf (!checkUniKernelImage node)
      ⟨.invalidImage node.image, some node.id, .error⟩
    let dArgs := diagIf (!checkUniKernelArgs node)
      ⟨.invalidArgs node.args, some node.id, .error⟩
    let dPrefix := diagIf (!checkUniKernelPrefixField node)
      ⟨.invalidPrefixField node.wlPrefix, some node.id, .error⟩
    let r1 := checkUniKernelDisableVirt node
    let node := r1.2
    let dVirt := diagIf (!r1.1) ⟨.invalidDisableVirt node.disableVirt, some node.id, .error⟩
    let r2 := checkUniKernelRunDetached node
    let node := r2.2
    let dDet := diagIf (!r2.1) ⟨.invalidRunDetached node.runDetached, some node.id, .error⟩
    let r3 := checkUniKernelRemoveOnStop node
    let node := r3.2
    let dStop := diagIf (!r3.1) ⟨.invalidRemoveOnStop node.removeOnStop, some node.id, .error⟩
    let badNetworks := checkUniKernelNetworks node
    let dNet := diagIf (!badNetworks.isEmpty)
      ⟨.invalidNetworks badNetworks, some node.id, .error⟩
    let badPorts := checkUniKernelPorts node
    let dPorts := diagIf (!badPorts.isEmpty) ⟨.invalidPorts badPorts, some node.id, .error⟩
    let badVolumes := checkUniKernelVolumes node
    let dVol := diagIf (!badVolumes.isEmpty)
      ⟨.invalidVolumes badVolumes, some node.id, .error⟩
    let badTargets := checkUniKernelTargets node
    let dTgt := diagIf (!badTargets.isEmpty)
      ⟨.invalidTargets badTargets, some node.id, .error⟩
    let badEnvVars := checkUniKernelEnvVars node
    let dEnv := diagIf (!badEnvVars.isEmpty)
      ⟨.invalidEnvVars badEnvVars, some node.id, .error⟩
    let dMem := diagIf (!checkUniKernelMemory node)
      ⟨.invalidMemory node.memory, some node.id, .error⟩
    let dTopic :=
      if node.type = .event then
        diagIf (!checkEventTopic node) ⟨.invalidTopic node.topic, some node.id, .error⟩
      else []
    (node, st,
      dName ++ dDup ++ dImage ++ dArgs ++ dPrefix ++ dVirt ++ dDet ++ dStop ++
        dNet ++ dPorts ++ dVol ++ dTgt ++ dEnv ++ dMem ++ dTopic)

/-- The `allowedConnections` table from `constants.tsx`, keyed by
`fromType + "-" + toType` exactly as in the source. -/
def allowedConnections (combo : String) : Option (List ELineType) :=
  if combo == "stored_procedure-data_source" then some [.soft, .hard]
  else if combo == "data_source-stored_procedure" then some [.soft, .hard]
  else if combo == "data_source-event_trigger" then some [.soft, .hard]
  else if combo == "event_trigger-data_source" then some [.soft, .hard]
  else if combo == "event_trigger-event" then some [.event]
  else none

/-- The duplicate-edge key `[from.id, to.id].sort().join("-")`: the sorted
concatenation of the endpoint ids. -/
def edgeKey (fromId toId : String) : String :=
  if jsStrLt toId fromId then toId ++ "-" ++ fromId else fromId ++ "-" ++ toId

/-- `SemanticVisitor.visitEdge`: in order, the self-loop rule, the duplicate
unordered-pair rule, the connection allow-table rule, and the
one-hard-link-per-data-source rule (destination endpoint first, then source
endpoint). -/
def semVisitEdge (edgeType : ELineType) (fromNode toNode : NodeData) (st : SemState) :
    SemState × List Diagnostic :=
  let dLoop := diagIf (fromNode.id == toNode.id) ⟨.selfLoop, some fromNode.id, .error⟩
  let key := edgeKey fromNode.id toNode.id
  let dupSeen := st.seenEdges.contains key
  let dDup := diagIf dupSeen
    ⟨.duplicateEdge toNode.name toNode.type, some fromNode.id, .error⟩
  let st := if dupSeen then st else { st with seenEdges := st.seenEdges ++ [key] }
  let combo := shapeTypeStr fromNode.type ++ "-" ++ shapeTypeStr toNode.type
  let allowed := (allowedConnections combo).getD []
  let dConn := diagIf (!allowed.contains edgeType)
    ⟨.invalidConnection toNode.name toNode.type edgeType, some fromNode.id, .error⟩
  if edgeType = .hard then
    let countTo := (mapGetStr st.hardLinkCounts toNode.id).getD 0
    let toIsDS := toNode.type = .dataSource
    let dTo := diagIf (toIsDS && countTo ≥ 1) ⟨.multipleHardLinks, some toNode.id, .error⟩
    let st := if toIsDS && !(countTo ≥ 1) then
        { st with hardLinkCounts := mapSetStr st.hardLinkCounts toNode.id (countTo + 1) }
      else st
    let countFrom := (mapGetStr st.hardLinkCounts fromNode.id).getD 0
    let fromIsDS := fromNode.type = .dataSource
    let dFrom := diagIf (fromIsDS && countFrom ≥ 1)
      ⟨.multipleHardLinks, some fromNode.id, .error⟩
    let st := if fromIsDS && !(countFrom ≥ 1) then
        { st with hardLinkCounts := mapSetStr st.hardLinkCounts fromNode.id (countFrom + 1) }
      else st
    (st, dLoop ++ dDup ++ dConn ++ dTo ++ dFrom)
  else
    (st, dLoop ++ dDup ++ dConn)

/-- `SemanticVisitor.enterGraph`: reset all per-run state. -/
def semEnterGraph (_st : SemState) : SemState :=
  {}

/-! ## Graph traversal engine (`GraphAnalyzer`) -/

/-- A graph visitor, as consumed by the engine: `visitNode` may mutate the
visited node (returned as the first component) and report diagnostics;
`visitEdge` may fail (`none` models a JavaScript `TypeError` escaping the
visitor); `enterGraph` / `exitGraph` transform the per-run state. -/
structure VisitorImpl (σ : Type) where
  enterGraph : σ → σ
  visitNode : NodeData → σ → NodeData × σ × List Diagnostic
  visitEdge : ELineType → NodeData → NodeData → σ → Option (σ × List Diagnostic)
  exitGraph : σ → σ

/-- The analyzer's node map `new Map(graph.map(n => [n.id, n]))`: on duplicate
ids the later entry overwrites the earlier one, so lookup returns the last
node with the given id. -/
def nodeMapGet (g : Graph) (i : String) : Option NodeData :=
  g.foldl (fun acc n => if n.id == i then some n else acc) none

/-- Pass 1 of `GraphAnalyzer.run`: visit every node in stored order,
collecting the (possibly mutated) nodes, the final visitor state and the
reported diagnostics. -/
def runNodePass (V : VisitorImpl σ) : Graph → σ → Graph × σ × List Diagnostic
  | [], st => ([], st, [])
  | n :: ns, st =>
    let r := V.visitNode n st
    let rest := runNodePass V ns r.2.1
    (r.1 :: rest.1, rest.2.1, r.2.2 ++ rest.2.2)

/-- The destinations of one adjacency list that resolve in the node map
(`?? []` for an absent list; entries that are `undefined` or do not resolve
are skipped silently). -/
def resolveTargets (g : Graph) (adj : Option (List (Option String))) : List NodeData :=
  (adj.getD []).filterMap (fun o => o.bind (nodeMapGet g))

/-- The edge visits generated by one node, in the fixed adjacency-list order
hard, soft, event of `GraphAnalyzer.run`'s second pass. -/
def nodeEdgeOccs (g : Graph) (n : NodeData) :
    List (ELineType × NodeData × NodeData) :=
  (resolveTargets g n.connectedTo).map (fun t => (.hard, n, t)) ++
  (resolveTargets g n.softConnectedTo).map (fun t => (.soft, n, t)) ++
  (resolveTargets g n.eventConnectedTo).map (fun t => (.event, n, t))

/-- All edge visits of a run, in traversal order.  The source's doubly nested
loop resolves each destination just before visiting it; since resolution is
pure and the edge pass never mutates nodes, flattening the loop into this list
is behaviour-preserving. -/
def edgeOccs (g : Graph) : List (ELineType × NodeData × NodeData) :=
  g.flatMap (nodeEdgeOccs g)

/-- Pass 2 of `GraphAnalyzer.run`: visit every resolved edge in order;
propagate a visitor failure. -/
def runEdgePass (V : VisitorImpl σ) :
    List (ELineType × NodeData × NodeData) → σ → Option (σ × List Diagnostic)
  | [], st => some (st, [])
  | (k, a, b) :: es, st =>
    match V.visitEdge k a b st with
    | none => none
    | some r =>
      match runEdgePass V es r.1 with
      | none => none
      | some r2 => some (r2.1, r.2 ++ r2.2)

/-- The diagnostic-grouping step at the end of `GraphAnalyzer.run`: bucket the
diagnostics by origin node, in report order, keyed through the node map with
the fallback key `"global"` for an absent origin id; diagnostics whose key does
not resolve are skipped. -/
def groupStep (g : Graph) (acc : List (NodeData × List Diagnostic)) (d : Diagnostic) :
    List (NodeData × List Diagnostic) :=
  let nodeId := d.nodeId.getD "global"
  match nodeMapGet g nodeId with
  | none => acc
  | some key =>
    if acc.any (fun b => b.1 == key) then
      acc.map (fun b => if b.1 == key then (b.1, b.2 ++ [d]) else b)
    else
      acc ++ [(key, [d])]

def groupDiagnostics (g : Graph) (diags : List Diagnostic) :
    List (NodeData × List Diagnostic) :=
  diags.foldl (groupStep g) []

/-- The result of one engine run: the post-run (possibly mutated) graph, the
final visitor state, the flat diagnostics list and the grouped map. -/
structure RunResult (σ : Type) where
  graph : Graph
  state : σ
  diagnostics : List Diagnostic
  grouped : List (NodeData × List Diagnostic)

/-- `GraphAnalyzer.run`: reset via `enterGraph`, visit all nodes, then all
resolved edges (hard, soft, event per node), `exitGraph`, and group the
diagnostics by origin node.  The node map used by the edge pass and by the
grouping sees the nodes as mutated by pass 1 (the source mutates the shared
objects in place). -/
def analyzerRun (V : VisitorImpl σ) (g : Graph) (st0 : σ) : Option (RunResult σ) :=
  let st1 := V.enterGraph st0
  let p1 := runNodePass V g st1
  match runEdgePass V (edgeOccs p1.1) p1.2.1 with
  | none => none
  | some p2 =>
    let st3 := V.exitGraph p2.1
    let diags := p1.2.2 ++ p2.2
    some ⟨p1.1, st3, diags, groupDiagnostics p1.1 diags⟩

/-- The semantic visitor, packaged for the engine. -/
def semanticVisitor : VisitorImpl SemState where
  enterGraph := semEnterGraph
  visitNode := semVisitNode
  visitEdge := fun k a b st => some (semVisitEdge k a b st)
  exitGraph := fun st => st

/-- The semantic edge pass never fails. -/
theorem runEdgePass_semantic_isSome (es : List (ELineType × NodeData × NodeData))
    (st : SemState) : (runEdgePass semanticVisitor es st).isSome := by
  induction es generalizing st with
  | nil => simp [runEdgePass]
  | cons e es ih =>
    obtain ⟨k, a, b⟩ := e
    simp only [runEdgePass, semanticVisitor]
    have h := ih (semVisitEdge k a b st).1
    match hm : runEdgePass semanticVisitor es (semVisitEdge k a b st).1 with
    | none => rw [hm] at h; simp at h
    | some r2 => simp

/-- A semantic analysis run always produces a result. -/
theorem analyzerRun_semantic_isSome (g : Graph) (st0 : SemState) :
    (analyzerRun semanticVisitor g st0).isSome := by
  unfold analyzerRun
  have h := runEdgePass_semantic_isSome
    (edgeOccs (runNodePass semanticVisitor g (semanticVisitor.enterGraph st0)).1)
    (runNodePass semanticVisitor g (semanticVisitor.enterGraph st0)).2.1
  match hm : runEdgePass semanticVisitor
      (edgeOccs (runNodePass semanticVisitor g (semanticVisitor.enterGraph st0)).1)
      (runNodePass semanticVisitor g (semanticVisitor.enterGraph st0)).2.1 with
  | none => rw [hm] at h; simp at h
  | some p2 => simp [hm]

/-- `performGraphSemanticAnalysis` (`Serialization.tsx`): run the engine with a
fresh semantic visitor and return the grouped diagnostics (together with the
post-run graph and flat diagnostics, which the source exposes through the
mutated shared objects). -/
def performGraphSemanticAnalysis (g : Graph) : RunResult SemState :=
  (analyzerRun semanticVisitor g {}).getD ⟨[], {}, [], []⟩

/-- `checkSemanticAnalysisSuccess`: true iff no bucket of the grouped map
contains an error-severity diagnostic. -/
def checkSemanticAnalysisSuccess (grouped : List (NodeData × List Diagnostic)) : Bool :=
  !(grouped.any (fun b => b.2.any (fun d => d.severity == .error)))

/-! ## Canonical document model

Documents are represented at the post-YAML level: a mapping key whose value is
`undefined` is dropped by a `yaml.dump` / `yaml.load` cycle, so every
conditionally written field is an `Option`.  The `metadata` / `control` /
`features` groupings of workload entries are stored flattened: the serializer
always writes `metadata` and `control`, and the deserializer reads every
grouped field through optional chaining (`sp.control?.memory`), so group-key
presence is semantically inert and only field presence matters. -/

/-- The three per-entry link buckets.  Each bucket holds the pushed
`{destination: name}` objects (the name itself may be `undefined` when the
serializer's name map misses); a bucket is `none` when deleted by the
`exitGraph` cleanup. -/
structure LinksDoc where
  hardLinks : Option (List (Option String)) := none
  softLinks : Option (List (Option String)) := none
  eventLinks : Option (List (Option String)) := none
deriving DecidableEq, Repr

/-- One chart entry (a data source, stored procedure, event trigger or event
object of the document).  JavaScript objects are untyped, so one record covers
all four shapes; the serializer only populates the fields of the matching
shape. -/
structure EntryDoc where
  id : Option String := none
  name : Option String := none
  dsType : Option String := none
  path : Option String := none
  resourceName : Option String := none
  description : Option String := none
  image : Option String := none
  wlPrefix : Option String := none
  topic : Option String := none
  disableVirtualization : Option Bool := none
  runDetached : Option Bool := none
  removeOnStop : Option Bool := none
  memory : Option String := none
  kernelArgs : Option String := none
  networks : Option (List String) := none
  ports : Option (List String) := none
  volumes : Option (List String) := none
  targets : Option (List String) := none
  envVars : Option (List String) := none
  links : Option LinksDoc := none
deriving DecidableEq, Repr

/-- The `chart` section: one insertion-ordered map per node type. -/
structure ChartDoc where
  dataSources : List (String × EntryDoc) := []
  storedProcedures : List (String × EntryDoc) := []
  eventTriggers : List (String × EntryDoc) := []
  events : List (String × EntryDoc) := []
deriving DecidableEq, Repr

/-- The document `metadata` object. -/
structure MetaDoc where
  name : Option String := none
  maintainer : Option String := none
  description : Option String := none
  visibility : Option String := none
  engine : Option String := none
  labels : Option (List (String × String)) := none
deriving DecidableEq, Repr

/-- The assembled canonical document. -/
structure Document where
  apiVersion : String
  schemaVersion : String
  kind : String
  metadata : Option MetaDoc := none
  chart : Option ChartDoc := none
deriving DecidableEq, Repr

/-- `ISettings`: the schema/metadata settings handed to the serialization
visitor's constructor. -/
structure Settings where
  apiVersion : String
  schemaVersion : String
  kind : String
  name : String
  maintainer : String
  description : String
  labels : List String
  engine : String
  visibility : String
deriving DecidableEq, Repr

/-- The parsed chart metadata kept by the visitor. -/
structure ChartMetadata where
  name : String
  maintainer : String
  description : String
  visibility : String
  engine : String
  labels : List (String × String)
deriving DecidableEq, Repr

/-- The serialization visitor's per-instance state. -/
structure SerState where
  shapeCounters : List (String × Nat) := []
  nameMap : List (String × String) := []
  apiVersion : String
  schemaVersion : String
  kind : String
  chartMetadata : ChartMetadata
  dataSources : List (String × EntryDoc) := []
  storedProcedures : List (String × EntryDoc) := []
  eventTriggers : List (String × EntryDoc) := []
  events : List (String × EntryDoc) := []
  output : Option Document := none
deriving DecidableEq, Repr

/-- The `SerializationVisitor` constructor: record the schema descriptors and
parse the `key=value` label strings into pairs (entries without exactly one
`=` are dropped; keys and values are trimmed; a repeated key overwrites). -/
def serializationVisitorNew (sd : Settings) : SerState :=
  let labelPairs := sd.labels.foldl
    (fun m label =>
      match label.toList.splitOn '=' with
      | [k, v] => mapSetStr m (jsTrim k.asString) (jsTrim v.asString)
      | _ => m)
    []
  { apiVersion := sd.apiVersion
    schemaVersion := sd.schemaVersion
    kind := sd.kind
    chartMetadata :=
      { name := sd.name
        maintainer := sd.maintainer
        description := sd.description
        visibility := sd.visibility
        engine := sd.engine
        labels := labelPairs } }

/-- `getDeterministicName`: the per-type name template applied to the running
index (`datasource_${index + 1}` and so on; JavaScript renders the number in
decimal, which is `Nat.repr`). -/
def getDeterministicName (kind : EShapeType) (index : Nat) : String :=
  match kind with
  | .dataSource => "datasource_" ++ Nat.repr (index + 1)
  | .storedProcedure => "procedure_" ++ Nat.repr (index + 1)
  | .eventTrigger => "trigger_" ++ Nat.repr (index + 1)
  | .event => "event_" ++ Nat.repr (index + 1)

/-- Read one of the four chart sections of the visitor state. -/
def sectionOf (st : SerState) : EShapeType → List (String × EntryDoc)
  | .dataSource => st.dataSources
  | .storedProcedure => st.storedProcedures
  | .eventTrigger => st.eventTriggers
  | .event => st.events

/-- Write one of the four chart sections of the visitor state. -/
def sectionSet (st : SerState) : EShapeType → List (String × EntryDoc) → SerState
  | .dataSource, v => { st with dataSources := v }
  | .storedProcedure, v => { st with storedProcedures := v }
  | .eventTrigger, v => { st with eventTriggers := v }
  | .event, v => { st with events := v }

/-- The data-source entry built by `visitNode`: `id`, `name` and `type` are
written unconditionally; `path`, `resourceName` and `description` only when
truthy. -/
def dsEntryOf (n : NodeData) : EntryDoc :=
  { id := some n.id
    name := some n.name
    dsType := n.dataType
    path := if strTruthy n.path then n.path else none
    resourceName := if strTruthy n.resourceName then n.resourceName else none
    description := if strTruthy n.description then n.description else none }

/-- The workload entry built by `visitNode` for stored procedures and event
triggers: metadata (`id`, `name` always; `image`, `prefix` when truthy),
control (the three booleans always; `memory`, `kernelArgs` when truthy),
features (each list when nonempty) and the three pre-allocated empty link
buckets. -/
def wlEntryOf (n : NodeData) : EntryDoc :=
  { id := some n.id
    name := some n.name
    image := if strTruthy n.image then n.image else none
    wlPrefix := if strTruthy n.wlPrefix then n.wlPrefix else none
    disableVirtualization := n.disableVirt
    runDetached := n.runDetached
    removeOnStop := n.removeOnStop
    memory := if strTruthy n.memory then n.memory else none
    kernelArgs := if strTruthy n.kernelArgs then n.kernelArgs else none
    networks := if listNonempty n.networks then n.networks else none
    ports := if listNonempty n.ports then n.ports else none
    volumes := if listNonempty n.volumes then n.volumes else none
    targets := if listNonempty n.targets then n.targets else none
    envVars := if listNonempty n.envVars then n.envVars else none
    links := some { hardLinks := some [], softLinks := some [], eventLinks := some [] } }

/-- The event entry: like a workload entry but with `topic` in the metadata
(when truthy) and no `links` object at all. -/
def evEntryOf (n : NodeData) : EntryDoc :=
  { wlEntryOf n with
    topic := if strTruthy n.topic then n.topic else none
    links := none }

/-- The entry built for a node of the given type. -/
def entryOf (t : EShapeType) (n : NodeData) : EntryDoc :=
  match t with
  | .dataSource => dsEntryOf n
  | .storedProcedure => wlEntryOf n
  | .eventTrigger => wlEntryOf n
  | .event => evEntryOf n

/-- `SerializationVisitor.visitNode`: assign the deterministic name from the
per-type counter, record it in the name map, and store the type-specific entry
object under that name in the matching section. -/
def serVisitNode (node : NodeData) (st : SerState) :
    NodeData × SerState × List Diagnostic :=
  let kind := node.type
  let idx := (mapGetStr st.shapeCounters (shapeTypeStr kind)).getD 0
  let st := { st with
    shapeCounters := mapSetStr st.shapeCounters (shapeTypeStr kind) (idx + 1) }
  let name := getDeterministicName kind idx
  let st := { st with nameMap := mapSetStr st.nameMap node.id name }
  let st := sectionSet st kind (mapSetStr (sectionOf st kind) name (entryOf kind node))
  (node, st, [])

/-- Append a `{destination: name}` object to the bucket of the given kind.
Fails (JavaScript `TypeError`) when the entry has no `links` object or the
bucket has been deleted. -/
def pushLink (e : EntryDoc) (k : ELineType) (dest : Option String) : Option EntryDoc :=
  match e.links with
  | none => none
  | some l =>
    match k with
    | .hard =>
      match l.hardLinks with
      | none => none
      | some xs => some { e with links := some { l with hardLinks := some (xs ++ [dest]) } }
    | .soft =>
      match l.softLinks with
      | none => none
      | some xs => some { e with links := some { l with softLinks := some (xs ++ [dest]) } }
    | .event =>
      match l.eventLinks with
      | none => none
      | some xs => some { e with links := some { l with eventLinks := some (xs ++ [dest]) } }

/-- `SerializationVisitor.visitEdge`: canonicalize the direction (a hard or
soft link whose raw source is a data source is recorded from the other side),
look the source entry up by its deterministic name, and append the destination
name to the bucket of the edge kind.  A missing entry aborts silently; a found
entry without links (a data source or event entry) raises a `TypeError`,
modelled as `none`. -/
def serVisitEdge (edgeType : ELineType) (fromNode toNode : NodeData) (st : SerState) :
    Option (SerState × List Diagnostic) :=
  let source :=
    if (edgeType == .hard || edgeType == .soft) && fromNode.type == .dataSource
    then toNode else fromNode
  let destination :=
    if (edgeType == .hard || edgeType == .soft) && fromNode.type == .dataSource
    then fromNode else toNode
  let nodeName := (mapGetStr st.nameMap source.id).getD "unknown"
  match mapGetStr (sectionOf st source.type) nodeName with
  | none => some (st, [])
  | some entry =>
    match pushLink entry edgeType (mapGetStr st.nameMap destination.id) with
    | none => none
    | some entry2 =>
      some (sectionSet st source.type (mapSetStr (sectionOf st source.type) nodeName entry2), [])

/-- `SerializationVisitor.enterGraph`: reset the name map and the four
per-type counters (the document sections are not reset). -/
def serEnterGraph (st : SerState) : SerState :=
  { st with
    nameMap := []
    shapeCounters :=
      [(shapeTypeStr .dataSource, 0), (shapeTypeStr .storedProcedure, 0),
       (shapeTypeStr .eventTrigger, 0), (shapeTypeStr .event, 0)] }

/-- The `exitGraph` cleanup of one links object: delete each empty bucket,
then delete the whole object when no bucket remains. -/
def cleanLinks (l : LinksDoc) : Option LinksDoc :=
  let h := match l.hardLinks with | some [] => none | x => x
  let so := match l.softLinks with | some [] => none | x => x
  let e := match l.eventLinks with | some [] => none | x => x
  if h.isNone && so.isNone && e.isNone then none else some ⟨h, so, e⟩

/-- Apply the links cleanup to one workload entry. -/
def cleanEntry (e : EntryDoc) : EntryDoc :=
  match e.links with
  | none => e
  | some l => { e with links := cleanLinks l }

/-- `assembleOutput`: schema descriptors, the metadata object (each field when
truthy, labels when nonempty, the whole object when nonempty), the cleanup of
empty link buckets over stored procedures and event triggers, and the chart
object holding only nonempty sections (omitted entirely when all four are
empty). -/
def assembleOutput (st : SerState) : Document :=
  let metadata : MetaDoc :=
    { name := if !st.chartMetadata.name.toList.isEmpty then some st.chartMetadata.name else none
      maintainer :=
        if !st.chartMetadata.maintainer.toList.isEmpty then some st.chartMetadata.maintainer
        else none
      description :=
        if !st.chartMetadata.description.toList.isEmpty then some st.chartMetadata.description
        else none
      visibility :=
        if !st.chartMetadata.visibility.toList.isEmpty then some st.chartMetadata.visibility
        else none
      engine :=
        if !st.chartMetadata.engine.toList.isEmpty then some st.chartMetadata.engine else none
      labels :=
        if !st.chartMetadata.labels.isEmpty then some st.chartMetadata.labels else none }
  let metaNonempty := metadata.name.isSome || metadata.maintainer.isSome ||
    metadata.description.isSome || metadata.visibility.isSome || metadata.engine.isSome ||
    metadata.labels.isSome
  let sps := st.storedProcedures.map (fun p => (p.1, cleanEntry p.2))
  let ets := st.eventTriggers.map (fun p => (p.1, cleanEntry p.2))
  let chart : ChartDoc :=
    { dataSources := st.dataSources
      storedProcedures := sps
      eventTriggers := ets
      events := st.events }
  let chartNonempty := !st.dataSources.isEmpty || !sps.isEmpty || !ets.isEmpty ||
    !st.events.isEmpty
  { apiVersion := st.apiVersion
    schemaVersion := st.schemaVersion
    kind := st.kind
    metadata := if metaNonempty then some metadata else none
    chart := if chartNonempty then some chart else none }

/-- `SerializationVisitor.exitGraph`: assemble the output document (the YAML
string is `yaml.dump` of it, a pure function, so the document is the
byte-level output up to the fixed dump). -/
def serExitGraph (st : SerState) : SerState :=
  { st with output := some (assembleOutput st) }

/-- The serialization visitor, packaged for the engine. -/
def serializationVisitor : VisitorImpl SerState where
  enterGraph := serEnterGraph
  visitNode := serVisitNode
  visitEdge := serVisitEdge
  exitGraph := serExitGraph

/-- The outcome of `performGraphSerialization`: `refused` models the early
`return false` (no output), `produced d` models `return true` after
downloading the YAML rendering of `d`. -/
inductive SerializationOutcome where
  | refused
  | produced (d : Option Document)
deriving DecidableEq, Repr

/-- `performGraphSerialization` (`Serialization.tsx`): re-run the semantic
analysis (this mutates the graph: defaults are applied), refuse when it
reports any error, otherwise run the serialization visitor over the mutated
graph and emit its output.  The `none` result models a `TypeError` escaping
the serializer (no catch in the source).  The settings are the constructor
argument of the serialization visitor. -/
def performGraphSerialization (sd : Settings) (g : Graph) :
    Option SerializationOutcome :=
  let analysis := performGraphSemanticAnalysis g
  if !checkSemanticAnalysisSuccess analysis.grouped then
    some .refused
  else
    match analyzerRun serializationVisitor analysis.graph (serializationVisitorNew sd) with
    | none => none
    | some r => some (.produced r.state.output)

/-! ## Deserialization and layout (`deserializeGraph`, `layoutGraph`) -/

/-- `checkID`: keep a saved id that is truthy and nonempty after trimming,
otherwise draw a fresh id from the uuid supply (`uuidv4()` is modelled by an
ambient supply function indexed by a running counter). -/
def checkID (uuid : Nat → String) (k : Nat) (id : Option String) : String × Nat :=
  match id with
  | some i =>
    if !i.toList.isEmpty && !(jsTrim i).toList.isEmpty then (i, k) else (uuid k, k + 1)
  | none => (uuid k, k + 1)

/-- Pass 1 of `deserializeGraph` over one section: ensure every entry has an
id (mutating the parsed entry) and record the `internalName → id` pairs in
encounter order. -/
def resolveSectionIds (uuid : Nat → String) (k : Nat) :
    List (String × EntryDoc) → List (String × EntryDoc) × List (String × String) × Nat
  | [] => ([], [], k)
  | (nm, e) :: rest =>
    let r := checkID uuid k e.id
    let rec2 := resolveSectionIds uuid r.2 rest
    ((nm, { e with id := some r.1 }) :: rec2.1, (nm, r.1) :: rec2.2.1, rec2.2.2)

/-- Lookup in the name-to-id map.  `Map.set` lets a later binding overwrite an
earlier one, so the last binding wins. -/
def nameToIdGet (m : List (String × String)) (k : String) : Option String :=
  m.foldl (fun acc p => if p.1 == k then some p.2 else acc) none

/-- Resolve one serialized link bucket to adjacency-list entries:
`links?.bucket?.map(l => nameToIdMap.get(l.destination)) ?? []`.  An absent
links object or bucket yields `[]`; an unresolved or absent destination name
yields an `undefined` entry. -/
def resolveLinkList (m : List (String × String)) (links : Option LinksDoc)
    (pick : LinksDoc → Option (List (Option String))) : List (Option String) :=
  match links with
  | none => []
  | some l =>
    match pick l with
    | none => []
    | some entries => entries.map (fun e => e.bind (nameToIdGet m))

/-- Pass 2, data sources: rebuild one `IDataSource` node from its entry. -/
def nodeOfDsEntry (m : List (String × String)) (nm : String) (e : EntryDoc) : NodeData :=
  { id := e.id.getD ""
    type := .dataSource
    x := 0
    y := 0
    isSelected := false
    name := e.name.getD nm
    path := e.path
    resourceName := e.resourceName
    dataType := e.dsType
    description := e.description
    connectedTo := some (resolveLinkList m e.links (·.hardLinks))
    softConnectedTo := some (resolveLinkList m e.links (·.softLinks))
    eventConnectedTo := some (resolveLinkList m e.links (·.eventLinks)) }

/-- Pass 2, workloads: rebuild one `IUniKernel` node (stored procedure or
event trigger) from its entry. -/
def nodeOfWlEntry (t : EShapeType) (m : List (String × String)) (nm : String)
    (e : EntryDoc) : NodeData :=
  { id := e.id.getD ""
    type := t
    x := 0
    y := 0
    isSelected := false
    name := e.name.getD nm
    image := e.image
    wlPrefix := e.wlPrefix
    disableVirt := e.disableVirtualization
    runDetached := e.runDetached
    removeOnStop := e.removeOnStop
    memory := e.memory
    kernelArgs := e.kernelArgs
    networks := e.networks
    ports := e.ports
    volumes := e.volumes
    targets := e.targets
    envVars := e.envVars
    connectedTo := some (resolveLinkList m e.links (·.hardLinks))
    softConnectedTo := some (resolveLinkList m e.links (·.softLinks))
    eventConnectedTo := some (resolveLinkList m e.links (·.eventLinks)) }

/-- Pass 2, events: a workload node that additionally reads `topic`. -/
def nodeOfEvEntry (m : List (String × String)) (nm : String) (e : EntryDoc) : NodeData :=
  { nodeOfWlEntry .event m nm e with topic := e.topic }

/-- `deserializeGraph` applied to an already parsed chart object: pass 1
resolves the ids of all entries of all four sections (in document order,
threading the uuid counter); pass 2 rebuilds the nodes section by section,
resolving each link destination through the completed name-to-id map. -/
def deserializeChart (uuid : Nat → String) (c : ChartDoc) : Graph :=
  let rds := resolveSectionIds uuid 0 c.dataSources
  let rsp := resolveSectionIds uuid rds.2.2 c.storedProcedures
  let ret := resolveSectionIds uuid rsp.2.2 c.eventTriggers
  let rev := resolveSectionIds uuid ret.2.2 c.events
  let m := rds.2.1 ++ rsp.2.1 ++ ret.2.1 ++ rev.2.1
  (rds.1.map (fun p => nodeOfDsEntry m p.1 p.2)) ++
  (rsp.1.map (fun p => nodeOfWlEntry .storedProcedure m p.1 p.2)) ++
  (ret.1.map (fun p => nodeOfWlEntry .eventTrigger m p.1 p.2)) ++
  (rev.1.map (fun p => nodeOfEvEntry m p.1 p.2))

/-- The possible results of `yaml.load` on the input text, as far as
`deserializeGraph` inspects them: a parse exception, a falsy or non-object
root, or an object root shaped like a document. -/
inductive ParsedYaml where
  | unparseable
  | nonObject
  | objectRoot (d : Document)

/-- `deserializeGraph`: throws (models `Error("Invalid YAML file.")` or the
`yaml.load` exception) on unparseable input or a non-object root; otherwise
deserializes `parsed.chart ?? {}`. -/
def deserializeGraphFrom (uuid : Nat → String) (p : ParsedYaml) : Except Unit Graph :=
  match p with
  | .unparseable => .error ()
  | .nonObject => .error ()
  | .objectRoot d => .ok (deserializeChart uuid (d.chart.getD {}))

/-- A per-type running count, bumped at one type. -/
def bumpCount (c : EShapeType → Nat) (t : EShapeType) : EShapeType → Nat :=
  fun u => if u = t then c u + 1 else c u

/-- The column of a node type in `layoutGraph`'s fixed type order
(stored procedures, data sources, event triggers, events). -/
def layoutColumn : EShapeType → Nat
  | .storedProcedure => 0
  | .dataSource => 1
  | .eventTrigger => 2
  | .event => 3

/-- The recursion of `layoutGraph`: each node is placed in its type's column
(`startX = 100`, `xGap = 250`) at the row given by the number of same-type
nodes already placed (`startY = 70`, `yGap = 150`).  Grouping by type and
assigning coordinates group by group, as the source does, updates each node
exactly this way. -/
def layoutGo (c : EShapeType → Nat) : Graph → Graph
  | [] => []
  | n :: ns =>
    { n with
      x := 100 + 250 * (layoutColumn n.type : Int),
      y := 70 + 150 * (c n.type : Int) } :: layoutGo (bumpCount c n.type) ns

/-- `layoutGraph`: cosmetic grid placement; only `x` and `y` change. -/
def layoutGraph (g : Graph) : Graph :=
  layoutGo (fun _ => 0) g

/-- `performGraphDeserialization`: call `deserializeGraph` and lay the result
out; any exception is caught and an empty graph returned as the failure
sentinel (no diagnostic is produced — the return type carries none). -/
def performGraphDeserialization (uuid : Nat → String) (p : ParsedYaml) : Graph :=
  match deserializeGraphFrom uuid p with
  | .error _ => []
  | .ok g => layoutGraph g

/-! ## Basic lemmas about the map model and the engine -/

theorem mapGetStr_set_self (m : List (String × α)) (k : String) (v : α) :
    mapGetStr (mapSetStr m k v) k = some v := by
  induction m with
  | nil => simp [mapSetStr, mapGetStr, List.find?]
  | cons p m ih =>
    by_cases hp : p.1 == k
    · simp [mapSetStr, mapGetStr, List.find?, hp]
    · simp only [mapSetStr, hp, Bool.false_eq_true, if_false]
      simpa [mapGetStr, List.find?, hp] using ih

theorem mapGetStr_set_other (m : List (String × α)) (k k2 : String) (v : α)
    (h : k2 ≠ k) : mapGetStr (mapSetStr m k v) k2 = mapGetStr m k2 := by
  have hkk : (k == k2) = false := by simpa using fun hh => h hh.symm
  induction m with
  | nil => simp [mapSetStr, mapGetStr, List.find?, hkk]
  | cons p m ih =>
    by_cases hp : p.1 == k
    · have hpk2 : (p.1 == k2) = false := by
        have : p.1 = k := by simpa using hp
        simpa [this] using fun hh => h hh.symm
      simp [mapSetStr, mapGetStr, List.find?, hp, hkk, hpk2]
    · by_cases hq : p.1 == k2
      · simp [mapSetStr, mapGetStr, List.find?, hp, hq]
      · simp only [mapSetStr, hp, Bool.false_eq_true, if_false]
        simpa [mapGetStr, List.find?, hp, hq] using ih

/-- `nodeMapGet` over an extension on the right. -/
theorem nodeMapGet_append (g : Graph) (n : NodeData) (i : String) :
    nodeMapGet (g ++ [n]) i = if n.id == i then some n else nodeMapGet g i := by
  unfold nodeMapGet
  rw [List.foldl_append]
  rfl

/-- A resolved node map lookup yields a member with the looked-up id. -/
theorem nodeMapGet_mem {g : Graph} {i : String} {n : NodeData}
    (h : nodeMapGet g i = some n) : n ∈ g ∧ n.id = i := by
  induction g using List.reverseRecOn with
  | nil => simp [nodeMapGet] at h
  | append_singleton g m ih =>
    rw [nodeMapGet_append] at h
    by_cases hm : m.id == i
    · simp only [hm, if_true] at h
      cases h
      exact ⟨by simp, by simpa using hm⟩
    · simp only [hm, Bool.false_eq_true, if_false] at h
      obtain ⟨h1, h2⟩ := ih h
      exact ⟨by simp [h1], h2⟩

/-- With pairwise distinct ids, looking up a member's id returns the member. -/
theorem nodeMapGet_of_mem {g : Graph} {n : NodeData}
    (hnodup : (g.map (fun m => m.id)).Nodup) (hn : n ∈ g) :
    nodeMapGet g n.id = some n := by
  induction g using List.reverseRecOn with
  | nil => simp at hn
  | append_singleton g m ih =>
    rw [nodeMapGet_append]
    rcases List.mem_append.mp hn with hmem | hlast
    · have hne : (m.id == n.id) = false := by
        simp only [List.map_append, List.map_cons, List.map_nil] at hnodup
        have := List.disjoint_of_nodup_append hnodup
        simp only [beq_eq_false_iff_ne, ne_eq]
        intro he
        exact this (by simpa using List.mem_map_of_mem (fun m => m.id) hmem) (by simp [he])
      rw [hne]
      · simp only [Bool.false_eq_true, if_false]
        exact ih (List.Nodup.of_append_left (by simpa using hnodup)) hmem
    · simp only [List.mem_singleton] at hlast
      subst hlast
      simp

/-- An unresolved node map lookup means no member has the id. -/
theorem nodeMapGet_eq_none_iff {g : Graph} {i : String} :
    nodeMapGet g i = none ↔ ∀ n ∈ g, n.id ≠ i := by
  induction g using List.reverseRecOn with
  | nil => simp [nodeMapGet]
  | append_singleton g m ih =>
    rw [nodeMapGet_append]
    by_cases hm : m.id == i
    · simp only [hm, if_true]
      constructor
      · intro h; cases h
      · intro h
        exact absurd (by simpa using hm) (h m (by simp))
    · simp only [hm, Bool.false_eq_true, if_false]
      rw [ih]
      constructor
      · intro h n hn
        rcases List.mem_append.mp hn with h1 | h2
        · exact h n h1
        · simp only [List.mem_singleton] at h2
          subst h2
          simpa using hm
      · intro h n hn
        exact h n (by simp [hn])

/-! ## Decomposition of the semantic run -/

/-- The node mutation applied by `semVisitNode`, which is independent of the
visitor state: data sources get the `dataType` default, workloads get the
three boolean defaults. -/
def normalizeNode (n : NodeData) : NodeData :=
  if n.type = .dataSource then (checkDataSourceDataType n).2
  else (checkUniKernelRemoveOnStop (checkUniKernelRunDetached
    (checkUniKernelDisableVirt n).2).2).2

theorem semVisitNode_fst (n : NodeData) (st : SemState) :
    (semVisitNode n st).1 = normalizeNode n := by
  unfold semVisitNode normalizeNode
  split <;> simp

/-- The semantic node pass in isolation: final state. -/
def semNodeState : Graph → SemState → SemState
  | [], st => st
  | n :: ns, st => semNodeState ns (semVisitNode n st).2.1

/-- The semantic node pass in isolation: diagnostics in report order. -/
def semNodeDiags : Graph → SemState → List Diagnostic
  | [], _ => []
  | n :: ns, st => (semVisitNode n st).2.2 ++ semNodeDiags ns (semVisitNode n st).2.1

theorem runNodePass_semantic (g : Graph) (st : SemState) :
    runNodePass semanticVisitor g st =
      (g.map normalizeNode, semNodeState g st, semNodeDiags g st) := by
  induction g generalizing st with
  | nil => rfl
  | cons n ns ih =>
    simp only [runNodePass, semNodeState, semNodeDiags, List.map_cons]
    rw [show (semanticVisitor.visitNode n st) = semVisitNode n st from rfl]
    rw [ih]
    simp [semVisitNode_fst]

/-- The semantic edge pass in isolation: final state. -/
def semEdgeState (es : List (ELineType × NodeData × NodeData)) (st : SemState) : SemState :=
  es.foldl (fun s e => (semVisitEdge e.1 e.2.1 e.2.2 s).1) st

/-- The semantic edge pass in isolation: diagnostics in report order. -/
def semEdgeDiags : List (ELineType × NodeData × NodeData) → SemState → List Diagnostic
  | [], _ => []
  | e :: es, st =>
    (semVisitEdge e.1 e.2.1 e.2.2 st).2 ++ semEdgeDiags es (semVisitEdge e.1 e.2.1 e.2.2 st).1

theorem semanticVisitor_visitEdge :
    semanticVisitor.visitEdge = fun k a b st => some (semVisitEdge k a b st) :=
  rfl

theorem semanticVisitor_enterGraph (st : SemState) : semanticVisitor.enterGraph st = {} :=
  rfl

theorem semanticVisitor_exitGraph (st : SemState) : semanticVisitor.exitGraph st = st :=
  rfl

theorem runEdgePass_semantic (es : List (ELineType × NodeData × NodeData)) (st : SemState) :
    runEdgePass semanticVisitor es st = some (semEdgeState es st, semEdgeDiags es st) := by
  induction es generalizing st with
  | nil => rfl
  | cons e es ih =>
    obtain ⟨k, a, b⟩ := e
    simp only [runEdgePass, semanticVisitor_visitEdge]
    rw [ih]
    rfl

/-- The full characterization of one semantic analysis run: the node pass
normalizes the graph and reports its diagnostics, the edge pass runs over the
normalized graph, and the grouped map groups all diagnostics over the
normalized graph. -/
theorem performGraphSemanticAnalysis_eq (g : Graph) :
    performGraphSemanticAnalysis g =
      { graph := g.map normalizeNode
        state := semEdgeState (edgeOccs (g.map normalizeNode)) (semNodeState g {})
        diagnostics :=
          semNodeDiags g {} ++ semEdgeDiags (edgeOccs (g.map normalizeNode)) (semNodeState g {})
        grouped :=
          groupDiagnostics (g.map normalizeNode)
            (semNodeDiags g {} ++
              semEdgeDiags (edgeOccs (g.map normalizeNode)) (semNodeState g {})) } := by
  simp only [performGraphSemanticAnalysis, analyzerRun, runNodePass_semantic,
    runEdgePass_semantic, Option.getD_some, semanticVisitor_enterGraph,
    semanticVisitor_exitGraph]

/-! ## Characterization of diagnostic grouping -/

theorem groupStep_mem_iff (g : Graph) (acc : List (NodeData × List Diagnostic))
    (d0 d : Diagnostic) (n : NodeData) :
    (∃ dl, (n, dl) ∈ groupStep g acc d0 ∧ d ∈ dl) ↔
      ((∃ dl, (n, dl) ∈ acc ∧ d ∈ dl) ∨
        (d = d0 ∧ nodeMapGet g (d0.nodeId.getD "global") = some n)) := by
  simp only [groupStep]
  cases hl : nodeMapGet g (d0.nodeId.getD "global") with
  | none => simp
  | some key =>
    by_cases hex : acc.any (fun b => b.1 == key)
    · simp only [hex, if_true, Option.some.injEq]
      constructor
      · rintro ⟨dl, hmem, hd⟩
        obtain ⟨⟨m, dl0⟩, hb, hfb⟩ := List.mem_map.mp hmem
        by_cases hbk : m = key
        · subst hbk
          simp only [beq_self_eq_true, if_true, Prod.mk.injEq] at hfb
          obtain ⟨rfl, rfl⟩ := hfb
          rcases List.mem_append.mp hd with hd1 | hd2
          · exact Or.inl ⟨dl0, hb, hd1⟩
          · simp only [List.mem_singleton] at hd2
            exact Or.inr ⟨hd2, rfl⟩
        · have hbk2 : ((m == key) = false) := by simpa using hbk
          simp only [hbk2, Bool.false_eq_true, if_false] at hfb
          exact Or.inl ⟨dl, hfb ▸ hb, hd⟩
      · rintro (⟨dl, hmem, hd⟩ | ⟨rfl, hkey⟩)
        · by_cases hnk : n = key
          · exact ⟨dl ++ [d0], List.mem_map.mpr ⟨(n, dl), hmem, by simp [hnk]⟩,
              by simp [hd]⟩
          · have hnk2 : ((n == key) = false) := by simpa using hnk
            exact ⟨dl, List.mem_map.mpr ⟨(n, dl), hmem, by simp [hnk2]⟩, hd⟩
        · have hkeyn : key = n := by simpa using hkey
          subst hkeyn
          obtain ⟨⟨m, dl0⟩, hb, hbk⟩ := List.any_eq_true.mp hex
          have hbk2 : m = key := by simpa using hbk
          subst hbk2
          exact ⟨dl0 ++ [d], List.mem_map.mpr ⟨(m, dl0), hb, by simp⟩, by simp⟩
    · simp only [hex, Bool.false_eq_true, if_false, Option.some.injEq]
      constructor
      · rintro ⟨dl, hmem, hd⟩
        rcases List.mem_append.mp hmem with h1 | h2
        · exact Or.inl ⟨dl, h1, hd⟩
        · simp only [List.mem_singleton, Prod.mk.injEq] at h2
          obtain ⟨rfl, rfl⟩ := h2
          simp only [List.mem_singleton] at hd
          exact Or.inr ⟨hd, rfl⟩
      · rintro (⟨dl, hmem, hd⟩ | ⟨rfl, hkey⟩)
        · exact ⟨dl, by simp [hmem], hd⟩
        · have hkeyn : key = n := by simpa using hkey
          subst hkeyn
          exact ⟨[d], by simp, by simp⟩

theorem groupDiagnostics_foldl_mem_iff (g : Graph) (diags : List Diagnostic)
    (acc : List (NodeData × List Diagnostic)) (d : Diagnostic) (n : NodeData) :
    (∃ dl, (n, dl) ∈ diags.foldl (groupStep g) acc ∧ d ∈ dl) ↔
      ((∃ dl, (n, dl) ∈ acc ∧ d ∈ dl) ∨
        (d ∈ diags ∧ nodeMapGet g (d.nodeId.getD "global") = some n)) := by
  induction diags generalizing acc with
  | nil => simp
  | cons d0 ds ih =>
    simp only [List.foldl_cons]
    rw [ih, groupStep_mem_iff]
    constructor
    · rintro ((h | ⟨rfl, h⟩) | h)
      · exact Or.inl h
      · exact Or.inr ⟨by simp, h⟩
      · exact Or.inr ⟨by simp [h.1], h.2⟩
    · rintro (h | ⟨hmem, h⟩)
      · exact Or.inl (Or.inl h)
      · rcases List.mem_cons.mp hmem with rfl | hmem2
        · exact Or.inl (Or.inr ⟨rfl, h⟩)
        · exact Or.inr ⟨hmem2, h⟩

/-- The full characterization of the engine's diagnostic grouping: a
diagnostic is in the bucket of node `n` exactly when it was reported and its
origin key (the origin id, or the fallback key `"global"` when absent)
resolves to `n` in the node map. -/
theorem groupDiagnostics_mem_iff (g : Graph) (diags : List Diagnostic)
    (d : Diagnostic) (n : NodeData) :
    (∃ dl, (n, dl) ∈ groupDiagnostics g diags ∧ d ∈ dl) ↔
      (d ∈ diags ∧ nodeMapGet g (d.nodeId.getD "global") = some n) := by
  unfold groupDiagnostics
  rw [groupDiagnostics_foldl_mem_iff]
  simp

/-- `checkSemanticAnalysisSuccess` succeeds exactly when no bucket holds an
error-severity diagnostic. -/
theorem checkSemanticAnalysisSuccess_iff (grouped : List (NodeData × List Diagnostic)) :
    checkSemanticAnalysisSuccess grouped = true ↔
      ∀ b ∈ grouped, ∀ d ∈ b.2, d.severity ≠ ESeverity.error := by
  simp [checkSemanticAnalysisSuccess, List.any_eq_true]

/-! ## Claim C7: deserialization failure sentinel -/

/-- C7.  For every input text, deserialization returns an empty graph as a
terminal failure sentinel — not a diagnostic (the return type carries none)
and not an exception to the caller (`performGraphDeserialization` catches the
throw of `deserializeGraph`) — when the text fails to parse or its parsed root
is not an object. -/
theorem deserialization_failure_sentinel (uuid : Nat → String) (p : ParsedYaml)
    (h : p = ParsedYaml.unparseable ∨ p = ParsedYaml.nonObject) :
    performGraphDeserialization uuid p = [] ∧
      deserializeGraphFrom uuid p = Except.error () := by
  rcases h with rfl | rfl <;> exact ⟨rfl, rfl⟩

/-- Witness for C7 at a concrete input. -/
theorem deserialization_failure_sentinel_witness :
    performGraphDeserialization (fun _ => "fresh") ParsedYaml.unparseable = [] ∧
      deserializeGraphFrom (fun _ => "fresh") ParsedYaml.unparseable = Except.error () :=
  deserialization_failure_sentinel (fun _ => "fresh") ParsedYaml.unparseable (Or.inl rfl)

/-! ## Claim C9: grouping of diagnostics by origin node -/

/-- C9 (amended).  A diagnostic of the run is present in the bucket of exactly
the node that its grouping key resolves to, where the key is the origin node
id, or the literal fallback string `"global"` when the origin id is absent;
diagnostics whose key does not resolve in the node map are silently dropped.
(The claim as frozen says a diagnostic with an absent origin id is always
dropped; it in fact lands in the bucket of a node whose id is the string
`"global"` when one exists — see the counterexample.) -/
theorem grouping_buckets_by_resolved_origin (g : Graph) (diags : List Diagnostic)
    (d : Diagnostic) (n : NodeData) :
    (∃ dl, (n, dl) ∈ groupDiagnostics g diags ∧ d ∈ dl) ↔
      (d ∈ diags ∧ nodeMapGet g (d.nodeId.getD "global") = some n) :=
  groupDiagnostics_mem_iff g diags d n

/-- A node whose id is the literal string `"global"`. -/
def globalIdNode : NodeData :=
  { id := "global"
    type := .dataSource
    name := "g" }

/-- A diagnostic with no origin node id. -/
def noOriginDiag : Diagnostic :=
  ⟨.selfLoop, none, .error⟩

/-- Counterexample to C9 as frozen: a diagnostic with an absent origin id is
not dropped when the graph contains a node whose id is the string `"global"`
(the grouping looks the fallback key up in the node map); it lands in that
node's bucket. -/
theorem grouping_drops_absent_origin_cex :
    noOriginDiag.nodeId = none ∧
      groupDiagnostics [globalIdNode] [noOriginDiag] = [(globalIdNode, [noOriginDiag])] := by
  exact ⟨rfl, rfl⟩

/-- Witness for C9 (amended) at a concrete input: a resolving origin id lands
in that node's bucket. -/
theorem grouping_buckets_by_resolved_origin_witness :
    (let n : NodeData := { id := "n1", type := .event, name := "e" }
     let d : Diagnostic := ⟨.invalidTopic none, some "n1", .error⟩
     (∃ dl, (n, dl) ∈ groupDiagnostics [n] [d] ∧ d ∈ dl)) := by
  exact (grouping_buckets_by_resolved_origin _ _ _ _).mpr ⟨by simp, by rfl⟩

/-! ## Claim C10: a hard self-loop on a data source triggers the
multiple-hard-links rule -/

/-- The C10 scenario: a data source whose hard-link adjacency list contains
its own id. -/
def selfLoopDS : NodeData :=
  { id := "A"
    type := .dataSource
    name := "dsA"
    path := some "p"
    resourceName := some "rn"
    dataType := some "file"
    connectedTo := some [some "A"] }

/-- C10.  With a single hard edge (the self-loop), one validation run reports
the multiple-hard-links error for the data source — the destination-endpoint
check increments the counter, the source-endpoint check of the same edge then
sees a count of one — in addition to the self-loop error. -/
theorem self_loop_hard_link_counts_twice :
    (edgeOccs ([selfLoopDS].map normalizeNode)).length = 1 ∧
      Diagnostic.mk .multipleHardLinks (some "A") .error ∈
        (performGraphSemanticAnalysis [selfLoopDS]).diagnostics ∧
      Diagnostic.mk .selfLoop (some "A") .error ∈
        (performGraphSemanticAnalysis [selfLoopDS]).diagnostics := by
  refine ⟨rfl, ?_, ?_⟩ <;> decide

/-! ## Claim C3: the duplicate unordered endpoint pair rule -/

theorem charListLt_asymm {a b : List Char} (h : charListLt a b = true) :
    charListLt b a = false := by
  induction a generalizing b with
  | nil =>
    cases b with
    | nil => simp [charListLt] at h
    | cons y ys => simp [charListLt]
  | cons x xs ih =>
    cases b with
    | nil => simp [charListLt] at h
    | cons y ys =>
      simp only [charListLt, Bool.or_eq_true, Bool.and_eq_true, beq_iff_eq,
        decide_eq_true_eq] at h
      by_cases hxy : x < y
      · have h1 : ¬ y < x := lt_asymm hxy
        have h2 : y ≠ x := ne_of_gt hxy
        simp [charListLt, h1, h2]
      · rcases h with h | ⟨rfl, hrec⟩
        · exact absurd h hxy
        · simp [charListLt, lt_irrefl, ih hrec]

theorem charListLt_total {a b : List Char} (h1 : charListLt a b = false)
    (h2 : charListLt b a = false) : a = b := by
  induction a generalizing b with
  | nil =>
    cases b with
    | nil => rfl
    | cons y ys => simp [charListLt] at h1
  | cons x xs ih =>
    cases b with
    | nil => simp [charListLt] at h2
    | cons y ys =>
      simp only [charListLt, Bool.or_eq_false_iff, Bool.and_eq_false_iff] at h1 h2
      have hxy : ¬ x < y := by simpa using h1.1
      have hyx : ¬ y < x := by simpa using h2.1
      have hx : x = y := le_antisymm (not_lt.mp hyx) (not_lt.mp hxy)
      subst hx
      rcases h1.2 with hc | hrest
      · simp at hc
      · rcases h2.2 with hc | hrest2
        · simp at hc
        · rw [ih hrest hrest2]

theorem jsStrLt_total {a b : String} (h1 : jsStrLt a b = false)
    (h2 : jsStrLt b a = false) : a = b := by
  have := charListLt_total h1 h2
  exact String.ext this

/-- The duplicate-edge key is symmetric in the endpoints. -/
theorem edgeKey_comm (a b : String) : edgeKey a b = edgeKey b a := by
  unfold edgeKey
  cases h1 : jsStrLt b a with
  | true =>
    rw [show jsStrLt a b = false from charListLt_asymm h1]
    simp
  | false =>
    cases h2 : jsStrLt a b with
    | true => simp
    | false => rw [jsStrLt_total h2 h1]

/-- `semVisitEdge` mutates `seenEdges` by adding the unseen edge key. -/
theorem semVisitEdge_seenEdges (k : ELineType) (a b : NodeData) (st : SemState) :
    (semVisitEdge k a b st).1.seenEdges =
      (if st.seenEdges.contains (edgeKey a.id b.id) then st.seenEdges
       else st.seenEdges ++ [edgeKey a.id b.id]) := by
  unfold semVisitEdge
  by_cases hdup : st.seenEdges.contains (edgeKey a.id b.id) <;>
    simp only [hdup, if_true, if_false, Bool.false_eq_true] <;>
    split <;>
    simp only [] <;>
    split <;> split <;> rfl

/-- `semVisitNode` leaves the edge-pass state untouched. -/
theorem semVisitNode_edge_state (n : NodeData) (st : SemState) :
    (semVisitNode n st).2.1.seenEdges = st.seenEdges ∧
      (semVisitNode n st).2.1.hardLinkCounts = st.hardLinkCounts := by
  simp only [semVisitNode]
  constructor <;> split <;> split <;> rfl

/-- The node pass leaves the edge-pass state untouched. -/
theorem semNodeState_edge_state (g : Graph) (st : SemState) :
    (semNodeState g st).seenEdges = st.seenEdges ∧
      (semNodeState g st).hardLinkCounts = st.hardLinkCounts := by
  induction g generalizing st with
  | nil => exact ⟨rfl, rfl⟩
  | cons n ns ih =>
    simp only [semNodeState]
    obtain ⟨h1, h2⟩ := semVisitNode_edge_state n st
    obtain ⟨h3, h4⟩ := ih (semVisitNode n st).2.1
    exact ⟨h3.trans h1, h4.trans h2⟩

/-- The seen-edge set after a prefix of the edge pass contains exactly the
initially seen keys and the keys of the processed edges. -/
theorem semEdgeState_seenEdges_mem (es : List (ELineType × NodeData × NodeData))
    (st : SemState) (key : String) :
    key ∈ (semEdgeState es st).seenEdges ↔
      key ∈ st.seenEdges ∨
        ∃ k2 a2 b2, (k2, a2, b2) ∈ es ∧ edgeKey a2.id b2.id = key := by
  induction es generalizing st with
  | nil => simp [semEdgeState]
  | cons e es ih =>
    obtain ⟨k, a, b⟩ := e
    show key ∈ (semEdgeState es (semVisitEdge k a b st).1).seenEdges ↔ _
    rw [ih, semVisitEdge_seenEdges]
    constructor
    · rintro (h | ⟨k2, a2, b2, hmem, hkey⟩)
      · by_cases hdup : st.seenEdges.contains (edgeKey a.id b.id)
        · rw [if_pos hdup] at h
          exact Or.inl h
        · rw [if_neg (by simpa using hdup)] at h
          rcases List.mem_append.mp h with h1 | h2
          · exact Or.inl h1
          · exact Or.inr ⟨k, a, b, by simp, (List.mem_singleton.mp h2).symm⟩
      · exact Or.inr ⟨k2, a2, b2, by simp [hmem], hkey⟩
    · rintro (h | ⟨k2, a2, b2, hmem, hkey⟩)
      · split
        · exact Or.inl h
        · exact Or.inl (List.mem_append.mpr (Or.inl h))
      · rcases List.mem_cons.mp hmem with heq | hmem2
        · cases heq
          split
          · rename_i hdup
            exact Or.inl (by rw [← hkey]; simpa using hdup)
          · exact Or.inl (List.mem_append.mpr (Or.inr (by simp [hkey])))
        · exact Or.inr ⟨k2, a2, b2, hmem2, hkey⟩

/-- The diagnostics of the j-th edge visit are among the edge-pass
diagnostics. -/
theorem semEdgeDiags_step_subset (es : List (ELineType × NodeData × NodeData))
    (st : SemState) (j : Nat) (hj : j < es.length) (d : Diagnostic)
    (hd : d ∈ (semVisitEdge (es.get ⟨j, hj⟩).1 (es.get ⟨j, hj⟩).2.1 (es.get ⟨j, hj⟩).2.2
      (semEdgeState (es.take j) st)).2) :
    d ∈ semEdgeDiags es st := by
  induction es generalizing st j with
  | nil => simp at hj
  | cons e es ih =>
    obtain ⟨k, a, b⟩ := e
    cases j with
    | zero =>
      simp only [List.get] at hd
      simp only [semEdgeDiags, List.mem_append]
      exact Or.inl (by simpa [semEdgeState] using hd)
    | succ j =>
      simp only [semEdgeDiags, List.mem_append]
      refine Or.inr (ih (semVisitEdge k a b st).1 j (by simpa using hj) ?_)
      simpa [semEdgeState] using hd

/-- The duplicate-edge diagnostic reported by one edge visit whose key has
been seen. -/
theorem semVisitEdge_dup_diag (k : ELineType) (a b : NodeData) (st : SemState)
    (h : st.seenEdges.contains (edgeKey a.id b.id) = true) :
    Diagnostic.mk (.duplicateEdge b.name b.type) (some a.id) .error ∈
      (semVisitEdge k a b st).2 := by
  unfold semVisitEdge
  simp only [h, diagIf, if_true]
  split <;> simp

/-- The edge visits of a semantic analysis run over `g`, in traversal order
(over the normalized graph, as the edge pass sees the nodes mutated by the
node pass). -/
def semRunEdgeList (g : Graph) : List (ELineType × NodeData × NodeData) :=
  edgeOccs (g.map normalizeNode)

/-- The semantic visitor state just before the j-th edge visit of a run. -/
def semRunStateBefore (g : Graph) (j : Nat) : SemState :=
  semEdgeState ((semRunEdgeList g).take j) (semNodeState g {})

/-- Edge-pass diagnostics belong to the run's diagnostics. -/
theorem edge_diag_mem_run (g : Graph) (d : Diagnostic)
    (h : d ∈ semEdgeDiags (semRunEdgeList g) (semNodeState g {})) :
    d ∈ (performGraphSemanticAnalysis g).diagnostics := by
  rw [performGraphSemanticAnalysis_eq]
  exact List.mem_append.mpr (Or.inr h)

/-- C3.  During one validation run, the second and every later visited edge
whose unordered endpoint-id pair has already been seen — regardless of the
edge's direction or of its kind — produces a duplicate-edge error diagnostic,
reported at that visit and present in the run's diagnostics.  (`i` and `j`
index the run's edge visits; the hypothesis says the `j`-th visit repeats the
unordered endpoint pair of the earlier `i`-th visit.) -/
theorem duplicate_pair_second_edge_error (g : Graph) (i j : Nat) (hij : i < j)
    (hj : j < (semRunEdgeList g).length)
    (hpair :
      (((semRunEdgeList g).get ⟨i, lt_trans hij hj⟩).2.1.id =
          ((semRunEdgeList g).get ⟨j, hj⟩).2.1.id ∧
        ((semRunEdgeList g).get ⟨i, lt_trans hij hj⟩).2.2.id =
          ((semRunEdgeList g).get ⟨j, hj⟩).2.2.id) ∨
      (((semRunEdgeList g).get ⟨i, lt_trans hij hj⟩).2.1.id =
          ((semRunEdgeList g).get ⟨j, hj⟩).2.2.id ∧
        ((semRunEdgeList g).get ⟨i, lt_trans hij hj⟩).2.2.id =
          ((semRunEdgeList g).get ⟨j, hj⟩).2.1.id)) :
    Diagnostic.mk
        (.duplicateEdge ((semRunEdgeList g).get ⟨j, hj⟩).2.2.name
          ((semRunEdgeList g).get ⟨j, hj⟩).2.2.type)
        (some ((semRunEdgeList g).get ⟨j, hj⟩).2.1.id) .error ∈
      (semVisitEdge ((semRunEdgeList g).get ⟨j, hj⟩).1
        ((semRunEdgeList g).get ⟨j, hj⟩).2.1 ((semRunEdgeList g).get ⟨j, hj⟩).2.2
        (semRunStateBefore g j)).2 ∧
    Diagnostic.mk
        (.duplicateEdge ((semRunEdgeList g).get ⟨j, hj⟩).2.2.name
          ((semRunEdgeList g).get ⟨j, hj⟩).2.2.type)
        (some ((semRunEdgeList g).get ⟨j, hj⟩).2.1.id) .error ∈
      (performGraphSemanticAnalysis g).diagnostics := by
  set es := semRunEdgeList g with hes
  set ei := es.get ⟨i, lt_trans hij hj⟩ with hei
  set ej := es.get ⟨j, hj⟩ with hej
  have hkey : edgeKey ei.2.1.id ei.2.2.id = edgeKey ej.2.1.id ej.2.2.id := by
    rcases hpair with ⟨h1, h2⟩ | ⟨h1, h2⟩
    · rw [h1, h2]
    · rw [h1, h2, edgeKey_comm]
  have hmemtake : ei ∈ es.take j := by
    have hjt : i < (es.take j).length := by
      simp [List.length_take]
      omega
    have : (es.take j).get ⟨i, hjt⟩ = es.get ⟨i, lt_trans hij hj⟩ := by
      simp [List.get_take]
    rw [hei, ← this]
    exact List.get_mem _ _ _
  have hseen : (semRunStateBefore g j).seenEdges.contains (edgeKey ej.2.1.id ej.2.2.id)
      = true := by
    have hm : edgeKey ej.2.1.id ej.2.2.id ∈ (semRunStateBefore g j).seenEdges := by
      unfold semRunStateBefore
      rw [semEdgeState_seenEdges_mem]
      exact Or.inr ⟨ei.1, ei.2.1, ei.2.2, by simpa using hmemtake, hkey⟩
    simpa using hm
  refine ⟨semVisitEdge_dup_diag ej.1 ej.2.1 ej.2.2 _ hseen, ?_⟩
  apply edge_diag_mem_run
  have := semEdgeDiags_step_subset es (semNodeState g {}) j hj _
    (semVisitEdge_dup_diag ej.1 ej.2.1 ej.2.2 (semEdgeState (es.take j) (semNodeState g {}))
      hseen)
  exact this

/-- The C3 witness scenario: `A —hard→ B` stored on the data source, then
`B —soft→ A` stored on the stored procedure. -/
def c3ds : NodeData :=
  { id := "A"
    type := .dataSource
    name := "dsA"
    path := some "p"
    resourceName := some "rn"
    dataType := some "file"
    connectedTo := some [some "B"] }

/-- The stored procedure of the C3 witness scenario. -/
def c3sp : NodeData :=
  { id := "B"
    type := .storedProcedure
    name := "spB"
    image := some "docker://img"
    softConnectedTo := some [some "A"] }

/-- Witness for C3: in the `A —hard→ B`, `B —soft→ A` graph the second
visited edge yields the duplicate-edge error despite differing direction and
kind. -/
theorem duplicate_pair_second_edge_error_witness :
    Diagnostic.mk (.duplicateEdge "dsA" .dataSource) (some "B") .error ∈
      (performGraphSemanticAnalysis [c3ds, c3sp]).diagnostics := by
  have h := duplicate_pair_second_edge_error [c3ds, c3sp] 0 1 (by decide) (by decide)
    (by decide)
  exact h.2

/-! ## Claim C4: the one-hard-link-per-data-source rule -/

/-- Membership in a conditional singleton diagnostic list. -/
theorem mem_diagIf {d x : Diagnostic} {c : Bool} : d ∈ diagIf c x ↔ (c = true ∧ d = x) := by
  unfold diagIf
  split <;> simp_all

/-- The data-source endpoint touches of one edge visit, in check order: for a
hard edge, the destination endpoint when it is a data source, then the source
endpoint when it is a data source.  Each touch is one read-and-bump of the
hard-link counter of that node id. -/
def touchesOfEdge (e : ELineType × NodeData × NodeData) : List String :=
  if e.1 = .hard then
    (if e.2.2.type = .dataSource then [e.2.2.id] else []) ++
      (if e.2.1.type = .dataSource then [e.2.1.id] else [])
  else []

/-- All data-source endpoint touches of an edge-visit list. -/
def hardTouches (es : List (ELineType × NodeData × NodeData)) : List String :=
  es.flatMap touchesOfEdge

/-- One read-and-bump of the hard-link counter at one id: a stored count of
at least one leaves the map unchanged (the visitor reports instead), otherwise
the incremented count is stored. -/
def touchCounts (counts : List (String × Nat)) (i : String) : List (String × Nat) :=
  if (mapGetStr counts i).getD 0 ≥ 1 then counts
  else mapSetStr counts i ((mapGetStr counts i).getD 0 + 1)

/-- The hard-link counter map after one edge visit: for a hard edge, the
destination endpoint is touched first (when a data source), then the source
endpoint. -/
def hardCountsAfter (k : ELineType) (a b : NodeData)
    (counts : List (String × Nat)) : List (String × Nat) :=
  if k = .hard then
    let c1 := if b.type = .dataSource then touchCounts counts b.id else counts
    if a.type = .dataSource then touchCounts c1 a.id else c1
  else counts

theorem semVisitEdge_hardLinkCounts (k : ELineType) (a b : NodeData) (st : SemState) :
    (semVisitEdge k a b st).1.hardLinkCounts = hardCountsAfter k a b st.hardLinkCounts := by
  simp only [semVisitEdge]
  set stD := (if st.seenEdges.contains (edgeKey a.id b.id) = true then st
    else { st with seenEdges := st.seenEdges ++ [edgeKey a.id b.id] }) with hstD
  have hD : stD.hardLinkCounts = st.hardLinkCounts := by
    rw [hstD]
    split <;> rfl
  by_cases hk : k = ELineType.hard
  · simp only [hk, if_true, apply_ite SemState.hardLinkCounts, hD]
    by_cases hb : b.type = EShapeType.dataSource
    · by_cases h1 : (mapGetStr st.hardLinkCounts b.id).getD 0 ≥ 1
      · by_cases ha : a.type = EShapeType.dataSource
        · by_cases h2 : (mapGetStr st.hardLinkCounts a.id).getD 0 ≥ 1 <;>
            simp [hardCountsAfter, touchCounts, hb, ha, h1, h2]
        · simp [hardCountsAfter, touchCounts, hb, ha, h1]
      · by_cases ha : a.type = EShapeType.dataSource
        · by_cases hab : a.id = b.id
          · have hset : mapGetStr (mapSetStr st.hardLinkCounts b.id
                ((mapGetStr st.hardLinkCounts b.id).getD 0 + 1)) a.id =
                some ((mapGetStr st.hardLinkCounts b.id).getD 0 + 1) := by
              rw [hab]
              exact mapGetStr_set_self _ _ _
            have hset2 : mapGetStr (mapSetStr st.hardLinkCounts b.id
                ((mapGetStr st.hardLinkCounts b.id).getD 0 + 1)) b.id =
                some ((mapGetStr st.hardLinkCounts b.id).getD 0 + 1) :=
              mapGetStr_set_self _ _ _
            simp [hardCountsAfter, touchCounts, hb, ha, h1, hset, hab, hset2]
          · have hset : mapGetStr (mapSetStr st.hardLinkCounts b.id
                ((mapGetStr st.hardLinkCounts b.id).getD 0 + 1)) a.id =
                mapGetStr st.hardLinkCounts a.id :=
              mapGetStr_set_other _ _ _ _ hab
            by_cases h2 : (mapGetStr st.hardLinkCounts a.id).getD 0 ≥ 1 <;>
              simp [hardCountsAfter, touchCounts, hb, ha, h1, h2, hset]
        · simp [hardCountsAfter, touchCounts, hb, ha, h1]
    · by_cases ha : a.type = EShapeType.dataSource
      · by_cases h2 : (mapGetStr st.hardLinkCounts a.id).getD 0 ≥ 1 <;>
          simp [hardCountsAfter, touchCounts, hb, ha, h2]
      · simp [hardCountsAfter, touchCounts, hb, ha]
  · have hR : hardCountsAfter k a b st.hardLinkCounts = st.hardLinkCounts := by
      simp [hardCountsAfter, hk]
    rw [hR]
    split
    · rename_i hcontra
      exact absurd hcontra hk
    · exact hD

/-- The multiple-hard-links diagnostics reported by one edge visit: for a
hard edge, one when the destination is a data source whose counter is already
at least one, and one when the source is a data source whose counter (after
the destination bump of the same edge) is at least one. -/
theorem semVisitEdge_multiHard_mem (k : ELineType) (a b : NodeData) (st : SemState)
    (x : String) :
    (Diagnostic.mk .multipleHardLinks (some x) .error ∈ (semVisitEdge k a b st).2) ↔
      (k = ELineType.hard ∧
        ((b.type = EShapeType.dataSource ∧ x = b.id ∧
            1 ≤ (mapGetStr st.hardLinkCounts b.id).getD 0) ∨
          (a.type = EShapeType.dataSource ∧ x = a.id ∧
            1 ≤ (mapGetStr
              (if b.type = EShapeType.dataSource then touchCounts st.hardLinkCounts b.id
               else st.hardLinkCounts) a.id).getD 0))) := by
  simp only [semVisitEdge]
  set stD := (if st.seenEdges.contains (edgeKey a.id b.id) = true then st
    else { st with seenEdges := st.seenEdges ++ [edgeKey a.id b.id] }) with hstD
  have hD : stD.hardLinkCounts = st.hardLinkCounts := by
    rw [hstD]
    split <;> rfl
  by_cases hk : k = ELineType.hard
  · rw [if_pos hk]
    simp only [List.mem_append, mem_diagIf, hD]
    by_cases hb : b.type = EShapeType.dataSource
    · by_cases h1 : (mapGetStr st.hardLinkCounts b.id).getD 0 ≥ 1
      · simp only [hb, touchCounts, ge_iff_le, if_pos h1]
        simp [hk, hb, h1, hD]
        tauto
      · have h1f : ¬ 1 ≤ (mapGetStr st.hardLinkCounts b.id).getD 0 := by omega
        simp only [hb, touchCounts, ge_iff_le, if_neg h1f]
        simp [hk, hb, h1f, hD]
        tauto
    · simp only [hb, if_false]
      simp [hk, hb, hD]
      tauto
  · rw [if_neg hk]
    simp [hk, mem_diagIf]

/-- `touchCounts` preserves the stored-count-is-capped-at-one invariant,
adding one touch at the touched id. -/
theorem touchCounts_inv (C : List (String × Nat)) (cp : String → Nat) (i : String)
    (HC : ∀ y, mapGetStr C y = if 1 ≤ cp y then some 1 else none) (y : String) :
    mapGetStr (touchCounts C i) y =
      if 1 ≤ cp y + (if y = i then 1 else 0) then some 1 else none := by
  unfold touchCounts
  by_cases h1 : (mapGetStr C i).getD 0 ≥ 1
  · rw [if_pos h1]
    rw [HC y]
    have hcpi : 1 ≤ cp i := by
      by_contra hc
      rw [HC i, if_neg hc] at h1
      simp at h1
    by_cases hyi : y = i
    · subst hyi
      simp [hcpi]
    · simp [hyi]
  · rw [if_neg h1]
    have hcpi : ¬ 1 ≤ cp i := by
      by_contra hc
      rw [HC i, if_pos hc] at h1
      simp at h1
    have hgd : (mapGetStr C i).getD 0 = 0 := by
      rw [HC i, if_neg hcpi]
      rfl
    by_cases hyi : y = i
    · subst hyi
      rw [mapGetStr_set_self, hgd]
      simp
    · rw [mapGetStr_set_other _ _ _ _ hyi, HC y]
      simp [hyi]

/-- The number of touches of one id contributed by one edge visit. -/
theorem count_touches (k : ELineType) (a b : NodeData) (x : String) :
    (touchesOfEdge (k, a, b)).count x =
      ((if k = ELineType.hard ∧ b.type = EShapeType.dataSource ∧ x = b.id then 1 else 0) +
        (if k = ELineType.hard ∧ a.type = EShapeType.dataSource ∧ x = a.id then 1
         else 0)) := by
  unfold touchesOfEdge
  by_cases hk : k = ELineType.hard <;>
    by_cases hb : b.type = EShapeType.dataSource <;>
    by_cases ha : a.type = EShapeType.dataSource <;>
    by_cases hxb : x = b.id <;>
    by_cases hxa : x = a.id <;>
    simp [hk, hb, ha, hxb, hxa, List.count_cons, List.count_singleton,
      List.count_append] <;>
    by_cases hba : a.id = b.id <;>
    simp [hba, eq_comm]

/-- The hard-link counter map after one edge visit, in touch-count form. -/
theorem hardCountsAfter_get (k : ELineType) (a b : NodeData) (C : List (String × Nat))
    (cp : String → Nat)
    (HC : ∀ y, mapGetStr C y = if 1 ≤ cp y then some 1 else none) (x : String) :
    mapGetStr (hardCountsAfter k a b C) x =
      if 1 ≤ cp x + (touchesOfEdge (k, a, b)).count x then some 1 else none := by
  rw [count_touches]
  unfold hardCountsAfter
  by_cases hk : k = ELineType.hard
  · rw [if_pos hk]
    by_cases hb : b.type = EShapeType.dataSource
    · by_cases ha : a.type = EShapeType.dataSource
      · simp only [hb, ha, if_true]
        have H1 := touchCounts_inv C cp b.id HC
        have H2 := touchCounts_inv _ (fun y => cp y + (if y = b.id then 1 else 0)) a.id H1 x
        rw [H2]
        simp only [hk, hb, ha, true_and]
        congr 1
        apply propext
        by_cases hxb : x = b.id <;> by_cases hxa : x = a.id <;>
          simp [hxb, hxa] <;> omega
      · simp only [hb, ha, if_true, if_false]
        rw [touchCounts_inv C cp b.id HC x]
        simp [hk, hb, ha]
    · by_cases ha : a.type = EShapeType.dataSource
      · simp only [hb, ha, if_true, if_false]
        rw [touchCounts_inv C cp a.id HC x]
        simp [hk, hb, ha]
      · simp only [hb, ha, if_false]
        rw [HC x]
        simp [hb, ha]
  · rw [if_neg hk]
    rw [HC x]
    simp [hk]

/-- `semEdgeState` over a cons. -/
theorem semEdgeState_cons (e : ELineType × NodeData × NodeData)
    (es : List (ELineType × NodeData × NodeData)) (st : SemState) :
    semEdgeState (e :: es) st = semEdgeState es (semVisitEdge e.1 e.2.1 e.2.2 st).1 :=
  rfl

/-- `semEdgeState` over an extension on the right. -/
theorem semEdgeState_append (es : List (ELineType × NodeData × NodeData))
    (e : ELineType × NodeData × NodeData) (st : SemState) :
    semEdgeState (es ++ [e]) st =
      (semVisitEdge e.1 e.2.1 e.2.2 (semEdgeState es st)).1 := by
  unfold semEdgeState
  rw [List.foldl_append]
  rfl

/-- `semEdgeDiags` over an extension on the right. -/
theorem semEdgeDiags_append (es : List (ELineType × NodeData × NodeData))
    (e : ELineType × NodeData × NodeData) (st : SemState) :
    semEdgeDiags (es ++ [e]) st =
      semEdgeDiags es st ++
        (semVisitEdge e.1 e.2.1 e.2.2 (semEdgeState es st)).2 := by
  induction es generalizing st with
  | nil => simp [semEdgeDiags, semEdgeState]
  | cons e2 es ih =>
    obtain ⟨k2, a2, b2⟩ := e2
    have hL : semEdgeDiags (((k2, a2, b2) :: es) ++ [e]) st =
        (semVisitEdge k2 a2 b2 st).2 ++
          semEdgeDiags (es ++ [e]) (semVisitEdge k2 a2 b2 st).1 := rfl
    have hR : semEdgeDiags ((k2, a2, b2) :: es) st =
        (semVisitEdge k2 a2 b2 st).2 ++
          semEdgeDiags es (semVisitEdge k2 a2 b2 st).1 := rfl
    rw [hL, hR, ih, semEdgeState_cons, List.append_assoc]

/-- The hard-link counter map after a prefix of the edge pass, in touch-count
form (for a run that starts with an empty counter map). -/
theorem semEdgeState_counts (es : List (ELineType × NodeData × NodeData))
    (st0 : SemState) (h0 : st0.hardLinkCounts = []) :
    ∀ x, mapGetStr (semEdgeState es st0).hardLinkCounts x =
      if 1 ≤ (hardTouches es).count x then some 1 else none := by
  induction es using List.reverseRecOn with
  | nil =>
    intro x
    simp [semEdgeState, h0, hardTouches, mapGetStr]
  | append_singleton es e ih =>
    intro x
    obtain ⟨k, a, b⟩ := e
    rw [semEdgeState_append, semVisitEdge_hardLinkCounts]
    rw [hardCountsAfter_get _ _ _ _ (fun y => (hardTouches es).count y) ih x]
    have hcnt : (hardTouches (es ++ [(k, a, b)])).count x =
        (hardTouches es).count x + (touchesOfEdge (k, a, b)).count x := by
      simp [hardTouches, List.count_append]
    rw [hcnt]

/-- The multiple-hard-links diagnostics of the edge pass: one id receives such
a diagnostic exactly when its data-source endpoints are touched at least twice
(for a run that starts with an empty counter map). -/
theorem multiHard_semEdgeDiags_iff (es : List (ELineType × NodeData × NodeData))
    (st0 : SemState) (h0 : st0.hardLinkCounts = []) (x : String) :
    (Diagnostic.mk .multipleHardLinks (some x) .error ∈ semEdgeDiags es st0) ↔
      2 ≤ (hardTouches es).count x := by
  induction es using List.reverseRecOn with
  | nil => simp [semEdgeDiags, hardTouches]
  | append_singleton es e ih =>
    obtain ⟨k, a, b⟩ := e
    rw [semEdgeDiags_append, List.mem_append, ih, semVisitEdge_multiHard_mem]
    have hcnt : (hardTouches (es ++ [(k, a, b)])).count x =
        (hardTouches es).count x + (touchesOfEdge (k, a, b)).count x := by
      simp [hardTouches, List.count_append]
    rw [hcnt, count_touches]
    have hgb := semEdgeState_counts es st0 h0 b.id
    have hga : ∀ i, mapGetStr (if b.type = EShapeType.dataSource
        then touchCounts (semEdgeState es st0).hardLinkCounts b.id
        else (semEdgeState es st0).hardLinkCounts) i =
        if 1 ≤ (hardTouches es).count i +
          (if b.type = EShapeType.dataSource ∧ i = b.id then 1 else 0)
        then some 1 else none := by
      intro i
      by_cases hb : b.type = EShapeType.dataSource
      · rw [if_pos hb]
        rw [touchCounts_inv _ (fun y => (hardTouches es).count y) b.id
          (semEdgeState_counts es st0 h0) i]
        by_cases hib : i = b.id <;> simp [hib, hb]
      · rw [if_neg hb]
        rw [semEdgeState_counts es st0 h0 i]
        simp [hb]
    rw [hga a.id, hgb]
    by_cases hk : k = ELineType.hard
    · by_cases hab : a.id = b.id
      · simp only [hab, eq_self_iff_true, true_and, and_true]
        by_cases hxb : x = b.id
        · subst hxb
          by_cases hb : b.type = EShapeType.dataSource <;>
            by_cases ha : a.type = EShapeType.dataSource <;>
            simp only [hk, hb, ha, eq_self_iff_true, true_and, and_true, false_and,
              and_false, if_true, if_false, or_false, false_or,
              apply_ite (fun o : Option Nat => o.getD 0), Option.getD_some,
              Option.getD_none, add_zero, zero_add] <;>
            split_ifs <;> omega
        · simp [hxb]
      · by_cases hxb : x = b.id <;> by_cases hxa : x = a.id
        · exact absurd (hxa.symm.trans hxb) hab
        · subst hxb
          by_cases hb : b.type = EShapeType.dataSource <;>
            by_cases ha : a.type = EShapeType.dataSource <;>
            simp only [hk, hb, ha, hab, hxa, eq_self_iff_true, true_and, and_true,
              false_and, and_false, if_true, if_false, or_false, false_or,
              apply_ite (fun o : Option Nat => o.getD 0), Option.getD_some,
              Option.getD_none, add_zero, zero_add] <;>
            split_ifs <;> omega
        · subst hxa
          by_cases hb : b.type = EShapeType.dataSource <;>
            by_cases ha : a.type = EShapeType.dataSource <;>
            simp only [hk, hb, ha, hab, hxb, eq_self_iff_true, true_and, and_true,
              false_and, and_false, if_true, if_false, or_false, false_or,
              apply_ite (fun o : Option Nat => o.getD 0), Option.getD_some,
              Option.getD_none, add_zero, zero_add] <;>
            split_ifs <;> omega
        · simp [hxb, hxa]
    · simp [hk]

/-- The node pass never reports the multiple-hard-links message. -/
theorem semVisitNode_no_multiHard (n : NodeData) (st : SemState) (x : Option String)
    (sv : ESeverity) :
    Diagnostic.mk .multipleHardLinks x sv ∉ (semVisitNode n st).2.2 := by
  intro h
  simp only [semVisitNode] at h
  split at h <;> simp [mem_diagIf] at h

/-- No diagnostic of the whole node pass carries the multiple-hard-links
message. -/
theorem semNodeDiags_no_multiHard (g : Graph) (st : SemState) (x : Option String)
    (sv : ESeverity) :
    Diagnostic.mk .multipleHardLinks x sv ∉ semNodeDiags g st := by
  induction g generalizing st with
  | nil => simp [semNodeDiags]
  | cons n ns ih =>
    simp only [semNodeDiags, List.mem_append]
    rintro (h | h)
    · exact semVisitNode_no_multiHard n st x sv h
    · exact ih _ h

/-- A valid data-source node whose single hard edge is a self-loop. -/
def dsSelfLoopNode : NodeData :=
  { id := "DS"
    type := .dataSource
    name := "dsB"
    path := some "p"
    resourceName := some "rn"
    dataType := some "file"
    connectedTo := some [some "DS"] }

/-- C4 counterexample: a data-source node that is an endpoint of exactly one
hard-link edge (a self-loop) nevertheless receives the multiple-hard-links
error diagnostic, because the single edge touches the node's counter once per
endpoint.  This refutes the claim's "a DataSource touched by at most one hard
link yields no such diagnostic". -/
theorem single_hard_edge_multi_hard_cex :
    (edgeOccs ([dsSelfLoopNode].map normalizeNode)).length = 1 ∧
      Diagnostic.mk .multipleHardLinks (some "DS") .error ∈
        (performGraphSemanticAnalysis [dsSelfLoopNode]).diagnostics :=
  ⟨rfl, by decide⟩

/-- C4 (amended).  A validation run reports the multiple-hard-links error for
an id exactly when the data-source endpoints with that id of the run's hard
edges are touched at least twice, where every hard edge touches each of its
endpoints that is a data source once — so a hard self-loop on a data source
alone already triggers the error, while a data source incident to at most one
hard non-loop edge never does, and one incident to two or more hard edges (in
any direction combination) always does. -/
theorem multiple_hard_links_iff_double_touch (g : Graph) (x : String) :
    (Diagnostic.mk .multipleHardLinks (some x) .error ∈
        (performGraphSemanticAnalysis g).diagnostics) ↔
      2 ≤ (hardTouches (edgeOccs (g.map normalizeNode))).count x := by
  rw [performGraphSemanticAnalysis_eq]
  simp only [List.mem_append]
  have h0 : (semNodeState g ({} : SemState)).hardLinkCounts = [] :=
    (semNodeState_edge_state g {}).2
  constructor
  · rintro (h | h)
    · exact absurd h (semNodeDiags_no_multiHard g {} (some x) .error)
    · exact (multiHard_semEdgeDiags_iff _ _ h0 x).mp h
  · intro h
    exact Or.inr ((multiHard_semEdgeDiags_iff _ _ h0 x).mpr h)

/-! ## Claim C5: the dataType default -/

/-- A data-source node with an absent `dataType`. -/
def dsNoType : NodeData :=
  { id := "d1"
    type := .dataSource
    name := "dsOne"
    path := some "p"
    resourceName := some "rn" }

/-- A data-source node with an invalid present `dataType`. -/
def dsBadType : NodeData :=
  { id := "d2"
    type := .dataSource
    name := "dsTwo"
    path := some "p"
    resourceName := some "rn"
    dataType := some "blob" }

/-- C5.  Visiting a data-source node whose `dataType` is absent or falsy sets
the field to `"file"` on the node itself and reports no invalid-dataType
diagnostic; the defaulted node is the one the run returns in its analyzed
graph (the snapshot later rules and `performGraphSerialization` operate on),
and its serialized data-source entry records the defaulted `"file"`.  A
present `dataType` other than `"file"` or `"folder"` yields an error
diagnostic carrying the offending value. -/
theorem data_type_defaulted_and_checked (n : NodeData) (st : SemState) (g : Graph)
    (hds : n.type = EShapeType.dataSource) :
    (strTruthy n.dataType = false →
      ((semVisitNode n st).1.dataType = some "file" ∧
        (normalizeNode n).dataType = some "file" ∧
        (dsEntryOf (normalizeNode n)).dsType = some "file" ∧
        ∀ d x sv, Diagnostic.mk (.invalidDataType d) x sv ∉ (semVisitNode n st).2.2)) ∧
      (n ∈ g → normalizeNode n ∈ (performGraphSemanticAnalysis g).graph) ∧
      (strTruthy n.dataType = true → n.dataType ≠ some "file" →
        n.dataType ≠ some "folder" →
        Diagnostic.mk (.invalidDataType n.dataType) (some n.id) .error ∈
          (semVisitNode n st).2.2) := by
  refine ⟨fun hf => ⟨?_, ?_, ?_, ?_⟩, fun hn => ?_, fun ht h1 h2 => ?_⟩
  · rw [semVisitNode_fst]
    simp [normalizeNode, hds, checkDataSourceDataType, hf]
  · simp [normalizeNode, hds, checkDataSourceDataType, hf]
  · simp [normalizeNode, hds, checkDataSourceDataType, hf, dsEntryOf]
  · intro d x sv h
    simp only [semVisitNode] at h
    rw [if_pos hds] at h
    simp [mem_diagIf, checkDataSourceDataType, hf] at h
  · rw [performGraphSemanticAnalysis_eq]
    exact List.mem_map_of_mem normalizeNode hn
  · simp only [semVisitNode]
    rw [if_pos hds]
    simp [mem_diagIf, checkDataSourceDataType, ht, h1, h2]

/-- C5 witness: the defaulting applies to a concrete absent-dataType data
source, and a concrete invalid value is flagged. -/
theorem data_type_defaulted_and_checked_witness :
    (semVisitNode dsNoType {}).1.dataType = some "file" ∧
      Diagnostic.mk (.invalidDataType (some "blob")) (some "d2") .error ∈
        (semVisitNode dsBadType {}).2.2 :=
  ⟨((data_type_defaulted_and_checked dsNoType {} [] rfl).1 rfl).1,
    (data_type_defaulted_and_checked dsBadType {} [] rfl).2.2 rfl
      (by decide) (by decide)⟩

/-! ## Claim C2: serialization refuses exactly on error diagnostics -/

theorem dsDefault_id (n : NodeData) : (checkDataSourceDataType n).2.id = n.id := by
  unfold checkDataSourceDataType
  split
  · rfl
  · split <;> rfl

theorem virtDefault_id (n : NodeData) : (checkUniKernelDisableVirt n).2.id = n.id := by
  unfold checkUniKernelDisableVirt
  split <;> rfl

theorem detDefault_id (n : NodeData) : (checkUniKernelRunDetached n).2.id = n.id := by
  unfold checkUniKernelRunDetached
  split <;> rfl

theorem stopDefault_id (n : NodeData) : (checkUniKernelRemoveOnStop n).2.id = n.id := by
  unfold checkUniKernelRemoveOnStop
  split <;> rfl

/-- The node mutation of the node pass does not change the node id. -/
theorem normalizeNode_id (n : NodeData) : (normalizeNode n).id = n.id := by
  unfold normalizeNode
  split <;> simp [dsDefault_id, virtDefault_id, detDefault_id, stopDefault_id]

/-- Every diagnostic of one node visit originates at the visited node's id. -/
theorem semVisitNode_diag_nodeId (n : NodeData) (st : SemState) (d : Diagnostic)
    (h : d ∈ (semVisitNode n st).2.2) : d.nodeId = some n.id := by
  simp only [semVisitNode] at h
  split at h <;>
    (repeat' rcases List.mem_append.mp h with h | h) <;>
    try (split at h)
  all_goals
    first
    | (rw [mem_diagIf] at h
       rcases h with ⟨-, rfl⟩
       simp [dsDefault_id, virtDefault_id, detDefault_id, stopDefault_id])
    | exact absurd h (List.not_mem_nil d)

/-- Every diagnostic of one edge visit originates at one of the edge's
endpoint ids. -/
theorem semVisitEdge_diag_nodeId (k : ELineType) (a b : NodeData) (st : SemState)
    (d : Diagnostic) (h : d ∈ (semVisitEdge k a b st).2) :
    d.nodeId = some a.id ∨ d.nodeId = some b.id := by
  simp only [semVisitEdge] at h
  split at h <;>
    (repeat' rcases List.mem_append.mp h with h | h) <;>
    rw [mem_diagIf] at h <;>
    rcases h with ⟨-, rfl⟩ <;>
    simp

/-- Every diagnostic of the node pass originates at a visited node's id. -/
theorem semNodeDiags_nodeId (g : Graph) (st : SemState) (d : Diagnostic)
    (h : d ∈ semNodeDiags g st) : ∃ n, n ∈ g ∧ d.nodeId = some n.id := by
  induction g generalizing st with
  | nil => simp [semNodeDiags] at h
  | cons n ns ih =>
    simp only [semNodeDiags] at h
    rcases List.mem_append.mp h with h1 | h1
    · exact ⟨n, by simp, semVisitNode_diag_nodeId n st d h1⟩
    · obtain ⟨m, hm, ho⟩ := ih _ h1
      exact ⟨m, by simp [hm], ho⟩

/-- Every diagnostic of the edge pass originates at an endpoint id of one of
the visited edges. -/
theorem semEdgeDiags_nodeId (es : List (ELineType × NodeData × NodeData))
    (st : SemState) (d : Diagnostic) (h : d ∈ semEdgeDiags es st) :
    ∃ k a b, (k, a, b) ∈ es ∧ (d.nodeId = some a.id ∨ d.nodeId = some b.id) := by
  induction es generalizing st with
  | nil => simp [semEdgeDiags] at h
  | cons e es ih =>
    obtain ⟨k, a, b⟩ := e
    simp only [semEdgeDiags] at h
    rcases List.mem_append.mp h with h1 | h1
    · exact ⟨k, a, b, by simp, semVisitEdge_diag_nodeId k a b st d h1⟩
    · obtain ⟨k2, a2, b2, hm, ho⟩ := ih _ h1
      exact ⟨k2, a2, b2, by simp [hm], ho⟩

/-- A resolved adjacency target is a node of the graph. -/
theorem resolveTargets_mem {g : Graph} {adj : Option (List (Option String))}
    {t : NodeData} (h : t ∈ resolveTargets g adj) : t ∈ g := by
  unfold resolveTargets at h
  rw [List.mem_filterMap] at h
  obtain ⟨o, _, ho⟩ := h
  cases o with
  | none => simp at ho
  | some i => exact (nodeMapGet_mem (by simpa using ho)).1

/-- Both endpoints of every visited edge are nodes of the graph. -/
theorem edgeOccs_mem_nodes {g : Graph} {k : ELineType} {a b : NodeData}
    (h : (k, a, b) ∈ edgeOccs g) : a ∈ g ∧ b ∈ g := by
  unfold edgeOccs at h
  rw [List.mem_flatMap] at h
  obtain ⟨n, hn, hmem⟩ := h
  unfold nodeEdgeOccs at hmem
  rcases List.mem_append.mp hmem with h1 | h1
  · rcases List.mem_append.mp h1 with h2 | h2 <;>
    · rw [List.mem_map] at h2
      obtain ⟨t, ht, heq⟩ := h2
      cases heq
      exact ⟨hn, resolveTargets_mem ht⟩
  · rw [List.mem_map] at h1
    obtain ⟨t, ht, heq⟩ := h1
    cases heq
    exact ⟨hn, resolveTargets_mem ht⟩

theorem performGraphSemanticAnalysis_diagnostics (g : Graph) :
    (performGraphSemanticAnalysis g).diagnostics =
      semNodeDiags g {} ++
        semEdgeDiags (edgeOccs (g.map normalizeNode)) (semNodeState g {}) := by
  rw [performGraphSemanticAnalysis_eq]

theorem performGraphSemanticAnalysis_grouped (g : Graph) :
    (performGraphSemanticAnalysis g).grouped =
      groupDiagnostics (g.map normalizeNode) ((performGraphSemanticAnalysis g).diagnostics) := by
  rw [performGraphSemanticAnalysis_eq]

/-- Every diagnostic a semantic run reports has an origin key that resolves in
the node map of the analyzed graph (so none of them is dropped by the
grouping). -/
theorem semantic_diag_resolves (g : Graph) (d : Diagnostic)
    (h : d ∈ (performGraphSemanticAnalysis g).diagnostics) :
    ∃ m, nodeMapGet (g.map normalizeNode) (d.nodeId.getD "global") = some m := by
  rw [performGraphSemanticAnalysis_diagnostics] at h
  have hid : ∃ i, d.nodeId = some i ∧ ∃ n ∈ g.map normalizeNode, n.id = i := by
    rcases List.mem_append.mp h with h1 | h1
    · obtain ⟨n, hn, ho⟩ := semNodeDiags_nodeId g {} d h1
      exact ⟨n.id, ho, normalizeNode n, List.mem_map_of_mem _ hn, normalizeNode_id n⟩
    · obtain ⟨k, a, b, hm, ho | ho⟩ := semEdgeDiags_nodeId _ _ d h1
      · exact ⟨a.id, ho, a, (edgeOccs_mem_nodes hm).1, rfl⟩
      · exact ⟨b.id, ho, b, (edgeOccs_mem_nodes hm).2, rfl⟩
  obtain ⟨i, ho, n, hn, hni⟩ := hid
  cases hm : nodeMapGet (g.map normalizeNode) (d.nodeId.getD "global") with
  | some m => exact ⟨m, rfl⟩
  | none =>
    rw [nodeMapGet_eq_none_iff] at hm
    rw [ho] at hm
    exact absurd hni (hm n hn)

/-- The success check of a semantic run holds exactly when the run reported no
error-severity diagnostic: every reported diagnostic's origin resolves, so the
grouped map holds exactly the reported diagnostics. -/
theorem analysis_success_iff_no_error (g : Graph) :
    checkSemanticAnalysisSuccess (performGraphSemanticAnalysis g).grouped = true ↔
      ∀ d ∈ (performGraphSemanticAnalysis g).diagnostics,
        d.severity ≠ ESeverity.error := by
  rw [checkSemanticAnalysisSuccess_iff]
  constructor
  · intro h d hd hsev
    obtain ⟨m, hm⟩ := semantic_diag_resolves g d hd
    have hmem : ∃ dl, (m, dl) ∈ (performGraphSemanticAnalysis g).grouped ∧ d ∈ dl := by
      rw [performGraphSemanticAnalysis_grouped]
      exact (groupDiagnostics_mem_iff _ _ d m).mpr ⟨hd, hm⟩
    obtain ⟨dl, hb, hdl⟩ := hmem
    exact h _ hb d hdl hsev
  · intro h b hb d hd
    obtain ⟨n, dl⟩ := b
    have hmem : d ∈ (performGraphSemanticAnalysis g).diagnostics := by
      have := (groupDiagnostics_mem_iff (g.map normalizeNode)
        ((performGraphSemanticAnalysis g).diagnostics) d n).mp
      rw [← performGraphSemanticAnalysis_grouped] at this
      exact (this ⟨dl, hb, hd⟩).1
    exact h d hmem

/-- C2.  `performGraphSerialization` first re-runs the semantic analysis and
returns the refusal outcome exactly when that run reports a diagnostic of
error severity; in particular warning-severity diagnostics never cause a
refusal. -/
theorem serialization_refusal_iff_error (sd : Settings) (g : Graph) :
    performGraphSerialization sd g = some SerializationOutcome.refused ↔
      ∃ d ∈ (performGraphSemanticAnalysis g).diagnostics,
        d.severity = ESeverity.error := by
  simp only [performGraphSerialization]
  by_cases hs : checkSemanticAnalysisSuccess (performGraphSemanticAnalysis g).grouped = true
  · rw [hs]
    simp only [Bool.not_true, Bool.false_eq_true, if_false]
    constructor
    · intro h
      exfalso
      cases hrun : analyzerRun serializationVisitor (performGraphSemanticAnalysis g).graph
          (serializationVisitorNew sd) with
      | none => rw [hrun] at h; simp at h
      | some r => rw [hrun] at h; simp at h
    · rintro ⟨d, hd, hsev⟩
      exact absurd hsev ((analysis_success_iff_no_error g).mp hs d hd)
  · have hs2 : checkSemanticAnalysisSuccess (performGraphSemanticAnalysis g).grouped = false :=
      Bool.not_eq_true _ ▸ Bool.eq_false_iff.mpr (by simpa using hs)
    rw [hs2]
    simp only [Bool.not_false, if_true]
    constructor
    · intro _
      by_contra hno
      push_neg at hno
      exact hs ((analysis_success_iff_no_error g).mpr hno)
    · intro _
      trivial

/-! ## Claim C6: deterministic serialization and derived names -/

theorem sectionSet_shapeCounters (st : SerState) (t : EShapeType)
    (v : List (String × EntryDoc)) :
    (sectionSet st t v).shapeCounters = st.shapeCounters := by
  cases t <;> rfl

theorem sectionSet_nameMap (st : SerState) (t : EShapeType)
    (v : List (String × EntryDoc)) :
    (sectionSet st t v).nameMap = st.nameMap := by
  cases t <;> rfl

/-- One serializer node visit bumps exactly the visited type's counter. -/
theorem serVisitNode_shapeCounters (n : NodeData) (st : SerState) :
    (serVisitNode n st).2.1.shapeCounters =
      mapSetStr st.shapeCounters (shapeTypeStr n.type)
        ((mapGetStr st.shapeCounters (shapeTypeStr n.type)).getD 0 + 1) := by
  simp only [serVisitNode, sectionSet_shapeCounters]

/-- One serializer node visit records the deterministic name built from the
pre-visit counter of the visited type. -/
theorem serVisitNode_nameMap (n : NodeData) (st : SerState) :
    (serVisitNode n st).2.1.nameMap =
      mapSetStr st.nameMap n.id
        (getDeterministicName n.type
          ((mapGetStr st.shapeCounters (shapeTypeStr n.type)).getD 0)) := by
  simp only [serVisitNode, sectionSet_nameMap]

/-- `shapeTypeStr` separates the four node types. -/
theorem shapeTypeStr_inj (a b : EShapeType) :
    shapeTypeStr a = shapeTypeStr b ↔ a = b := by
  cases a <;> cases b <;> decide

/-- The serializer's node-pass state after a node list. -/
def serNodeState (g : Graph) (st : SerState) : SerState :=
  (runNodePass serializationVisitor g st).2.1

theorem serNodeState_cons (n : NodeData) (ns : Graph) (st : SerState) :
    serNodeState (n :: ns) st = serNodeState ns (serVisitNode n st).2.1 :=
  rfl

/-- The per-type counter after the serializer's node pass counts the visited
nodes of that type. -/
theorem serNodeState_counters (p : Graph) (st : SerState) (t : EShapeType) :
    (mapGetStr (serNodeState p st).shapeCounters (shapeTypeStr t)).getD 0 =
      (mapGetStr st.shapeCounters (shapeTypeStr t)).getD 0 +
        (p.filter (fun m => m.type == t)).length := by
  induction p generalizing st with
  | nil => simp [serNodeState, runNodePass]
  | cons n ns ih =>
    rw [serNodeState_cons, ih, serVisitNode_shapeCounters]
    by_cases ht : n.type = t
    · subst ht
      rw [mapGetStr_set_self]
      simp [Nat.add_assoc, Nat.add_comm 1]
    · rw [mapGetStr_set_other]
      · simp [List.filter_cons, ht]
      · exact fun he => ht ((shapeTypeStr_inj n.type t).mp he.symm)

/-- C6.  Serialization is deterministic — the run is a pure function of the
settings and the graph, so two runs over the same unmodified graph produce the
same document (and hence the same dumped bytes) — and the name a node receives
when visited is the per-type template applied to the number of same-type nodes
already visited in that run (`datasource_${i+1}`, `procedure_${i+1}`,
`trigger_${i+1}`, `event_${i+1}`), so reordering same-type nodes only permutes
which node receives which derived name. -/
theorem serialization_deterministic_naming (sd : Settings) (g p : Graph)
    (n : NodeData) :
    performGraphSerialization sd g = performGraphSerialization sd g ∧
      mapGetStr
        (serVisitNode n
          (serNodeState p (serEnterGraph (serializationVisitorNew sd)))).2.1.nameMap
        n.id =
        some (getDeterministicName n.type
          ((p.filter (fun m => m.type == n.type)).length)) := by
  refine ⟨rfl, ?_⟩
  rw [serVisitNode_nameMap, mapGetStr_set_self]
  congr 2
  rw [serNodeState_counters]
  cases h : n.type <;>
    simp [serEnterGraph, mapGetStr, shapeTypeStr]

/-! ## Claim C8: the empty graph document -/

/-- C8.  Serializing the empty graph succeeds and produces a document carrying
the schema descriptors and a metadata object (the graph run gates on a
nonempty metadata name) but no `chart` key; deserializing that document
succeeds through the normal path — `deserializeGraph` returns (does not
throw), with `chart ?? {}` supplying the empty chart — and yields the empty
graph, not via the parse-failure sentinel. -/
theorem empty_graph_roundtrip (sd : Settings) (uuid : Nat → String)
    (hname : sd.name.toList.isEmpty = false) :
    performGraphSerialization sd [] =
      some (.produced
        (some (assembleOutput (serEnterGraph (serializationVisitorNew sd))))) ∧
      (assembleOutput (serEnterGraph (serializationVisitorNew sd))).chart = none ∧
      (assembleOutput (serEnterGraph (serializationVisitorNew sd))).metadata.isSome = true ∧
      (assembleOutput (serEnterGraph (serializationVisitorNew sd))).apiVersion =
        sd.apiVersion ∧
      (assembleOutput (serEnterGraph (serializationVisitorNew sd))).schemaVersion =
        sd.schemaVersion ∧
      (assembleOutput (serEnterGraph (serializationVisitorNew sd))).kind = sd.kind ∧
      deserializeGraphFrom uuid
        (ParsedYaml.objectRoot (assembleOutput (serEnterGraph (serializationVisitorNew sd)))) =
        Except.ok ([] : Graph) ∧
      performGraphDeserialization uuid
        (ParsedYaml.objectRoot (assembleOutput (serEnterGraph (serializationVisitorNew sd)))) =
        [] := by
  refine ⟨rfl, rfl, ?_, rfl, rfl, rfl, rfl, rfl⟩
  simp [assembleOutput, serEnterGraph, serializationVisitorNew]
  refine Or.inl (Or.inl (Or.inl (Or.inl (Or.inl ?_))))
  simpa [String.toList] using hname

/-- C8 witness at a concrete settings object. -/
theorem empty_graph_roundtrip_witness :
    (let sd : Settings :=
      { apiVersion := "v1"
        schemaVersion := "0.0.1"
        kind := "Chart"
        name := "mychart"
        maintainer := ""
        description := ""
        labels := []
        engine := ""
        visibility := "" }
     (assembleOutput (serEnterGraph (serializationVisitorNew sd))).chart = none ∧
       (assembleOutput (serEnterGraph (serializationVisitorNew sd))).metadata.isSome = true ∧
       performGraphDeserialization (fun _ => "u")
         (ParsedYaml.objectRoot
           (assembleOutput (serEnterGraph (serializationVisitorNew sd)))) = []) := by
  refine ⟨(empty_graph_roundtrip _ (fun _ => "u") (by decide)).2.1,
    (empty_graph_roundtrip _ (fun _ => "u") (by decide)).2.2.1, ?_⟩
  exact (empty_graph_roundtrip _ (fun _ => "u") (by decide)).2.2.2.2.2.2.2

/-! ## Claim C1: the serialization round trip.
First, injectivity of the decimal rendering and of the derived names. -/

theorem toDigitsCore_shift (fuel n : Nat) (acc : List Char) :
    Nat.toDigitsCore 10 fuel n acc = Nat.toDigitsCore 10 fuel n [] ++ acc := by
  induction fuel generalizing n acc with
  | zero => rfl
  | succ fuel ih =>
    simp only [Nat.toDigitsCore]
    by_cases h : n / 10 = 0
    · simp [h]
    · rw [if_neg h, if_neg h, ih (n / 10) ((n % 10).digitChar :: acc),
        ih (n / 10) [(n % 10).digitChar], List.append_assoc]
      rfl

theorem digitChar_val (r : Nat) (h : r < 10) :
    (Nat.digitChar r).toNat - Char.toNat ('0' : Char) = r := by
  interval_cases r <;> decide

theorem digitsVal_append_one (xs : List Char) (c : Char) :
    digitsVal (xs ++ [c]) = digitsVal xs * 10 + (c.toNat - Char.toNat ('0' : Char)) := by
  simp [digitsVal, List.foldl_append]

theorem digitsVal_toDigitsCore (fuel n : Nat) (h : n < fuel) :
    digitsVal (Nat.toDigitsCore 10 fuel n []) = n := by
  induction fuel generalizing n with
  | zero => omega
  | succ fuel ih =>
    simp only [Nat.toDigitsCore]
    by_cases h0 : n / 10 = 0
    · rw [if_pos h0]
      have hn : n < 10 := by omega
      have : n % 10 = n := Nat.mod_eq_of_lt hn
      rw [this]
      have h1 : digitsVal [n.digitChar] =
          (n.digitChar).toNat - Char.toNat ('0' : Char) := by
        simp [digitsVal]
      rw [h1, digitChar_val n hn]
    · rw [if_neg h0, toDigitsCore_shift]
      have hlt : n / 10 < fuel := by omega
      rw [digitsVal_append_one, ih _ hlt, digitChar_val (n % 10) (by omega)]
      omega

theorem digitsVal_repr (n : Nat) : digitsVal (Nat.repr n).data = n :=
  digitsVal_toDigitsCore (n + 1) n (Nat.lt_succ_self n)

theorem nat_repr_data_injective {m n : Nat}
    (h : (Nat.repr m).data = (Nat.repr n).data) : m = n := by
  have h2 := congrArg digitsVal h
  simpa [digitsVal_repr] using h2

theorem nat_repr_injective {m n : Nat} (h : Nat.repr m = Nat.repr n) : m = n :=
  nat_repr_data_injective (congrArg String.data h)

theorem string_append_toList (a b : String) :
    (a ++ b).toList = a.toList ++ b.toList :=
  rfl

/-- The head character of a derived name identifies the node type. -/
theorem name_head (t : EShapeType) (i : Nat) :
    (getDeterministicName t i).toList.head? =
      some (match t with
        | .dataSource => 'd'
        | .storedProcedure => 'p'
        | .eventTrigger => 't'
        | .event => 'e') := by
  cases t <;> rfl

/-- Derived names are injective in the type and the index jointly. -/
theorem getDeterministicName_inj {t u : EShapeType} {i j : Nat}
    (h : getDeterministicName t i = getDeterministicName u j) : t = u ∧ i = j := by
  have htype : t = u := by
    have hh := congrArg (fun s => s.toList.head?) h
    simp only [name_head] at hh
    cases t <;> cases u <;> simp_all
  subst htype
  refine ⟨rfl, ?_⟩
  have hl := congrArg String.toList h
  have hr : (Nat.repr (i + 1)).toList = (Nat.repr (j + 1)).toList := by
    cases t <;>
      (simp only [getDeterministicName, string_append_toList] at hl
       exact List.append_cancel_left hl)
  have := nat_repr_data_injective hr
  omega

/-- The entries a node list contributes to one type's section, named from a
running start index. -/
def namedEntries (t : EShapeType) : Nat → List NodeData → List (String × EntryDoc)
  | _, [] => []
  | base, n :: ns =>
    (getDeterministicName t base, entryOf t n) :: namedEntries t (base + 1) ns

/-- The id-to-name pairs assigned by the serializer's node pass, threading the
per-type counters. -/
def assignedPairs (cnt : EShapeType → Nat) : List NodeData → List (String × String)
  | [] => []
  | n :: ns =>
    (n.id, getDeterministicName n.type (cnt n.type)) ::
      assignedPairs (bumpCount cnt n.type) ns

theorem mapSetStr_fresh (m : List (String × α)) (k : String) (v : α)
    (h : ∀ p ∈ m, p.1 ≠ k) : mapSetStr m k v = m ++ [(k, v)] := by
  induction m with
  | nil => rfl
  | cons p m ih =>
    have hp : (p.1 == k) = false := by simpa using h p (by simp)
    simp only [mapSetStr, hp, Bool.false_eq_true, if_false, List.cons_append]
    rw [ih (fun q hq => h q (by simp [hq]))]

theorem sectionOf_update (st : SerState) (c : List (String × Nat))
    (m : List (String × String)) (u : EShapeType) :
    sectionOf { st with shapeCounters := c, nameMap := m } u = sectionOf st u := by
  cases u <;> rfl

theorem sectionOf_sectionSet (st : SerState) (k u : EShapeType)
    (v : List (String × EntryDoc)) :
    sectionOf (sectionSet st k v) u = if u = k then v else sectionOf st u := by
  cases u <;> cases k <;> simp [sectionSet, sectionOf]

/-- The sections written by one node visit: the visited type's section gains
the fresh named entry at the end, the others are untouched. -/
theorem serVisitNode_sections (n : NodeData) (st : SerState) (cnt : EShapeType → Nat)
    (hb : ∀ u, (mapGetStr st.shapeCounters (shapeTypeStr u)).getD 0 = cnt u)
    (hkeys : ∀ p ∈ sectionOf st n.type, ∃ j, j < cnt n.type ∧
      p.1 = getDeterministicName n.type j) (u : EShapeType) :
    sectionOf (serVisitNode n st).2.1 u =
      if u = n.type
      then sectionOf st u ++ [(getDeterministicName n.type (cnt n.type), entryOf n.type n)]
      else sectionOf st u := by
  have hfresh : ∀ p ∈ sectionOf st n.type, p.1 ≠ getDeterministicName n.type (cnt n.type) := by
    intro p hp he
    obtain ⟨j, hj, hje⟩ := hkeys p hp
    have := (getDeterministicName_inj (hje ▸ he)).2
    omega
  simp only [serVisitNode, sectionOf_sectionSet, sectionOf_update]
  by_cases hu : u = n.type
  · subst hu
    rw [if_pos rfl, if_pos rfl, hb, mapSetStr_fresh _ _ _ hfresh]
  · rw [if_neg hu, if_neg hu]

/-- The four sections after the serializer's node pass: the previous contents
followed by one named entry per visited node of the type, indexed from the
per-type counter. -/
theorem serNodeState_sections (g : Graph) (st : SerState) (cnt : EShapeType → Nat)
    (hb : ∀ u, (mapGetStr st.shapeCounters (shapeTypeStr u)).getD 0 = cnt u)
    (hkeys : ∀ u, ∀ p ∈ sectionOf st u, ∃ j, j < cnt u ∧
      p.1 = getDeterministicName u j) (t : EShapeType) :
    sectionOf (serNodeState g st) t =
      sectionOf st t ++ namedEntries t (cnt t) (g.filter (fun m => m.type == t)) := by
  induction g generalizing st cnt with
  | nil => simp [serNodeState, runNodePass, namedEntries]
  | cons n ns ih =>
    rw [serNodeState_cons]
    have hsec := serVisitNode_sections n st cnt hb (hkeys n.type)
    have hb2 : ∀ u, (mapGetStr (serVisitNode n st).2.1.shapeCounters (shapeTypeStr u)).getD 0 =
        bumpCount cnt n.type u := by
      intro u
      rw [serVisitNode_shapeCounters]
      by_cases hu : u = n.type
      · subst hu
        rw [mapGetStr_set_self]
        simp [bumpCount, hb]
      · rw [mapGetStr_set_other _ _ _ _
          (fun he => hu ((shapeTypeStr_inj u n.type).mp he))]
        simp [bumpCount, hu, hb]
    have hkeys2 : ∀ u, ∀ p ∈ sectionOf (serVisitNode n st).2.1 u, ∃ j,
        j < bumpCount cnt n.type u ∧ p.1 = getDeterministicName u j := by
      intro u p hp
      rw [hsec u] at hp
      by_cases hu : u = n.type
      · subst hu
        rw [if_pos rfl] at hp
        rcases List.mem_append.mp hp with h1 | h1
        · obtain ⟨j, hj, hje⟩ := hkeys n.type p h1
          exact ⟨j, by simp [bumpCount]; omega, hje⟩
        · simp only [List.mem_singleton] at h1
          subst h1
          exact ⟨cnt n.type, by simp [bumpCount], rfl⟩
      · rw [if_neg hu] at hp
        obtain ⟨j, hj, hje⟩ := hkeys u p hp
        exact ⟨j, by simpa [bumpCount, hu] using hj, hje⟩
    rw [ih _ _ hb2 hkeys2, hsec t]
    by_cases ht : t = n.type
    · subst ht
      simp only [if_pos rfl, List.filter_cons, beq_self_eq_true, if_true]
      rw [List.append_assoc]
      congr 1
      simp [namedEntries, bumpCount]
    · have hnt : (n.type == t) = false := by
        simpa using fun he => ht he.symm
      have hbt : bumpCount cnt n.type t = cnt t := by
        simp [bumpCount, ht]
      simp only [if_neg ht, List.filter_cons, hnt, Bool.false_eq_true, if_false, hbt]

/-- The name map after the serializer's node pass, for fresh pairwise distinct
node ids. -/
theorem serNodeState_nameMap (g : Graph) (st : SerState) (cnt : EShapeType → Nat)
    (hb : ∀ u, (mapGetStr st.shapeCounters (shapeTypeStr u)).getD 0 = cnt u)
    (hfresh : ∀ n ∈ g, ∀ p ∈ st.nameMap, p.1 ≠ n.id)
    (hnodup : (g.map (fun n => n.id)).Nodup) :
    (serNodeState g st).nameMap = st.nameMap ++ assignedPairs cnt g := by
  induction g generalizing st cnt with
  | nil => simp [serNodeState, runNodePass, assignedPairs]
  | cons n ns ih =>
    rw [serNodeState_cons]
    have hb2 : ∀ u, (mapGetStr (serVisitNode n st).2.1.shapeCounters (shapeTypeStr u)).getD 0 =
        bumpCount cnt n.type u := by
      intro u
      rw [serVisitNode_shapeCounters]
      by_cases hu : u = n.type
      · subst hu
        rw [mapGetStr_set_self]
        simp [bumpCount, hb]
      · rw [mapGetStr_set_other _ _ _ _
          (fun he => hu ((shapeTypeStr_inj u n.type).mp he))]
        simp [bumpCount, hu, hb]
    have hmap : (serVisitNode n st).2.1.nameMap =
        st.nameMap ++ [(n.id, getDeterministicName n.type (cnt n.type))] := by
      rw [serVisitNode_nameMap, hb, mapSetStr_fresh]
      intro p hp
      exact hfresh n (by simp) p hp
    have hfresh2 : ∀ m ∈ ns, ∀ p ∈ (serVisitNode n st).2.1.nameMap, p.1 ≠ m.id := by
      intro m hm p hp
      rw [hmap] at hp
      rcases List.mem_append.mp hp with h1 | h1
      · exact hfresh m (by simp [hm]) p h1
      · simp only [List.mem_singleton] at h1
        subst h1
        simp only [List.map_cons, List.nodup_cons] at hnodup
        intro he
        have hmm : m.id ∈ List.map (fun x => x.id) ns :=
          List.mem_map_of_mem (fun x => x.id) hm
        rw [← he] at hmm
        exact hnodup.1 hmm
    rw [ih _ _ hb2 hfresh2 (by simpa using hnodup.of_cons), hmap]
    simp [assignedPairs]

/-- The node pass of the serializer returns the nodes unchanged and no
diagnostics. -/
theorem runNodePass_ser (g : Graph) (st : SerState) :
    runNodePass serializationVisitor g st = (g, serNodeState g st, []) := by
  induction g generalizing st with
  | nil => rfl
  | cons n ns ih =>
    simp only [runNodePass]
    rw [show (serializationVisitor.visitNode n st) = serVisitNode n st from rfl]
    rw [show (serVisitNode n st).1 = n from rfl]
    rw [ih]
    rfl

/-- The canonical recorded source of one edge visit: `visitEdge` records a
hard or soft link whose raw source is a data source from the other side. -/
def canonSource (e : ELineType × NodeData × NodeData) : NodeData :=
  if (e.1 == .hard || e.1 == .soft) && e.2.1.type == .dataSource then e.2.2 else e.2.1

/-- The canonical recorded destination of one edge visit. -/
def canonDest (e : ELineType × NodeData × NodeData) : NodeData :=
  if (e.1 == .hard || e.1 == .soft) && e.2.1.type == .dataSource then e.2.1 else e.2.2

/-- The pushes of the edge pass that land on the entry `nm` of the section of
type `t`, given the (pass-constant) name map. -/
def targetedPushes (nmMap : List (String × String))
    (es : List (ELineType × NodeData × NodeData)) (t : EShapeType) (nm : String) :
    List (ELineType × Option String) :=
  es.filterMap (fun e =>
    if (canonSource e).type = t ∧ (mapGetStr nmMap (canonSource e).id).getD "unknown" = nm
    then some (e.1, mapGetStr nmMap (canonDest e).id)
    else none)

/-- Apply a list of link pushes to one entry; a failing push leaves the entry
unchanged (the safety invariant of the run rules failures out). -/
def applyPushes (e0 : EntryDoc) (ps : List (ELineType × Option String)) : EntryDoc :=
  ps.foldl (fun e p => (pushLink e p.1 p.2).getD e) e0

/-- An entry whose links object exists with all three buckets present. -/
def linksOk (e : EntryDoc) : Prop :=
  ∃ h s v, e.links = some ⟨some h, some s, some v⟩

theorem mapGetStr_eq_none {m : List (String × α)} {k : String} :
    mapGetStr m k = none ↔ ∀ p ∈ m, p.1 ≠ k := by
  simp [mapGetStr, List.find?_eq_none]

theorem mapGetStr_mem {m : List (String × α)} {k : String} {v : α}
    (h : mapGetStr m k = some v) : (k, v) ∈ m := by
  simp only [mapGetStr, Option.map_eq_some'] at h
  obtain ⟨p, hp, hv⟩ := h
  have := List.find?_some hp
  have hm := List.mem_of_find?_eq_some hp
  have hk : p.1 = k := by simpa using this
  have : p = (k, v) := by
    cases p
    simp_all
  exact this ▸ hm

theorem map_id_of_key_not_mem (m : List (String × α)) (k : String) (v : α)
    (h : ∀ p ∈ m, p.1 ≠ k) :
    m.map (fun p => if p.1 = k then (k, v) else p) = m := by
  induction m with
  | nil => rfl
  | cons p m ih =>
    simp only [List.map_cons, if_neg (h p (by simp)), List.cons.injEq]
    exact ⟨trivial, ih (fun q hq => h q (by simp [hq]))⟩

theorem mapSetStr_eq_map (m : List (String × α)) (k : String) (v : α)
    (hnd : (m.map (fun p => p.1)).Nodup) :
    mapSetStr m k v = m.map (fun p => if p.1 = k then (k, v) else p) ∨
      ∀ p ∈ m, p.1 ≠ k := by
  induction m with
  | nil => right; simp
  | cons p m ih =>
    simp only [List.map_cons, List.nodup_cons] at hnd
    by_cases hp : p.1 = k
    · left
      have hbeq : (p.1 == k) = true := by simpa using hp
      simp only [mapSetStr, hbeq, if_true, List.map_cons, if_pos hp, List.cons.injEq]
      refine ⟨trivial, (map_id_of_key_not_mem m k v ?_).symm⟩
      intro q hq he
      apply hnd.1
      have hmm : q.1 ∈ List.map (fun r => r.1) m := List.mem_map_of_mem (fun r => r.1) hq
      rw [hp, ← he]
      exact hmm
    · have hbeq : (p.1 == k) = false := by simpa using hp
      simp only [mapSetStr, hbeq, Bool.false_eq_true, if_false, List.map_cons, if_neg hp]
      rcases ih hnd.2 with h1 | h1
      · left
        rw [h1]
      · right
        intro q hq
        rcases List.mem_cons.mp hq with rfl | hq2
        · exact hp
        · exact h1 q hq2

theorem targetedPushes_cons (nmMap : List (String × String))
    (e : ELineType × NodeData × NodeData) (es2 : List (ELineType × NodeData × NodeData))
    (t0 : EShapeType) (nm : String) :
    targetedPushes nmMap (e :: es2) t0 nm =
      (if (canonSource e).type = t0 ∧
          (mapGetStr nmMap (canonSource e).id).getD "unknown" = nm
       then [(e.1, mapGetStr nmMap (canonDest e).id)] else []) ++
        targetedPushes nmMap es2 t0 nm := by
  simp only [targetedPushes, List.filterMap_cons]
  split <;> simp_all

theorem applyPushes_cons (e0 : EntryDoc) (q : ELineType × Option String)
    (ps : List (ELineType × Option String)) :
    applyPushes e0 (q :: ps) = applyPushes ((pushLink e0 q.1 q.2).getD e0) ps :=
  rfl

theorem pushLink_ok {e : EntryDoc} {hb sb vb : List (Option String)}
    (he : e.links = some ⟨some hb, some sb, some vb⟩) (k : ELineType)
    (d : Option String) :
    ∃ hb2 sb2 vb2,
      pushLink e k d = some { e with links := some ⟨some hb2, some sb2, some vb2⟩ } := by
  cases k
  · exact ⟨hb ++ [d], sb, vb, by simp [pushLink, he]⟩
  · exact ⟨hb, sb ++ [d], vb, by simp [pushLink, he]⟩
  · exact ⟨hb, sb, vb ++ [d], by simp [pushLink, he]⟩

theorem mem_eq_of_nodup_keys {m : List (String × α)}
    (hnd : (m.map (fun p => p.1)).Nodup) {p q : String × α}
    (hp : p ∈ m) (hq : q ∈ m) (hk : p.1 = q.1) : p = q :=
  List.inj_on_of_nodup_map hnd hp hq hk

/-- The two pass-untouched sections of a skipped or mismatched edge: the step
edge contributes no push to a section it does not target. -/
theorem section_map_drop (S : List (String × EntryDoc))
    (nmMap : List (String × String)) (e : ELineType × NodeData × NodeData)
    (es2 : List (ELineType × NodeData × NodeData)) (t0 : EShapeType)
    (hmiss : ∀ p ∈ S, ¬((canonSource e).type = t0 ∧
      (mapGetStr nmMap (canonSource e).id).getD "unknown" = p.1)) :
    S.map (fun p => (p.1, applyPushes p.2 (targetedPushes nmMap (e :: es2) t0 p.1))) =
      S.map (fun p => (p.1, applyPushes p.2 (targetedPushes nmMap es2 t0 p.1))) := by
  apply List.map_congr_left
  intro p hp
  rw [targetedPushes_cons, if_neg (hmiss p hp)]
  rfl

/-- The targeted section of a successful push: replacing the entry first and
then applying the remaining pushes equals applying all pushes. -/
theorem section_map_step (S : List (String × EntryDoc))
    (nmMap : List (String × String)) (k : ELineType) (a b : NodeData)
    (es2 : List (ELineType × NodeData × NodeData)) (t0 : EShapeType)
    {entry entry2 : EntryDoc}
    (hnd : (S.map (fun p => p.1)).Nodup)
    (hsrc : (canonSource (k, a, b)).type = t0)
    (hlook : mapGetStr S
      ((mapGetStr nmMap (canonSource (k, a, b)).id).getD "unknown") = some entry)
    (hpush : pushLink entry k (mapGetStr nmMap (canonDest (k, a, b)).id) = some entry2) :
    (mapSetStr S ((mapGetStr nmMap (canonSource (k, a, b)).id).getD "unknown")
        entry2).map
      (fun p => (p.1, applyPushes p.2 (targetedPushes nmMap es2 t0 p.1))) =
      S.map (fun p =>
        (p.1, applyPushes p.2 (targetedPushes nmMap ((k, a, b) :: es2) t0 p.1))) := by
  set nn := (mapGetStr nmMap (canonSource (k, a, b)).id).getD "unknown" with hnn
  have hmem : (nn, entry) ∈ S := mapGetStr_mem hlook
  rcases mapSetStr_eq_map S nn entry2 hnd with hset | habs
  · rw [hset, List.map_map]
    apply List.map_congr_left
    intro p hp
    simp only [Function.comp]
    by_cases hpk : p.1 = nn
    · have hpe : p = (nn, entry) :=
        mem_eq_of_nodup_keys hnd hp hmem hpk
      rw [if_pos hpk, targetedPushes_cons, if_pos ⟨hsrc, hpk.symm⟩]
      subst hpe
      simp only [List.cons_append, List.nil_append, applyPushes_cons, hpush,
        Option.getD_some]
    · rw [if_neg hpk, targetedPushes_cons,
        if_neg (fun hc => hpk (hc.2.symm))]
      rfl
  · exact absurd rfl (habs (nn, entry) hmem)

theorem serializationVisitor_visitEdge :
    serializationVisitor.visitEdge = serVisitEdge :=
  rfl

theorem mem_mapSetStr {m : List (String × α)} {k : String} {v : α} {p : String × α}
    (h : p ∈ mapSetStr m k v) : p ∈ m ∨ p = (k, v) := by
  induction m with
  | nil => simpa [mapSetStr] using h
  | cons q m ih =>
    simp only [mapSetStr] at h
    split at h
    · rcases List.mem_cons.mp h with h1 | h1
      · exact Or.inr h1
      · exact Or.inl (by simp [h1])
    · rcases List.mem_cons.mp h with h1 | h1
      · exact Or.inl (by simp [h1])
      · rcases ih h1 with h2 | h2
        · exact Or.inl (by simp [h2])
        · exact Or.inr h2

theorem mapSetStr_keys_of_mem {m : List (String × α)} {k : String} (v : α)
    {w : α} (hmem : (k, w) ∈ m) (hnd : (m.map (fun p => p.1)).Nodup) :
    (mapSetStr m k v).map (fun p => p.1) = m.map (fun p => p.1) := by
  rcases mapSetStr_eq_map m k v hnd with hset | habs
  · rw [hset, List.map_map]
    apply List.map_congr_left
    intro p _
    simp only [Function.comp]
    by_cases hpk : p.1 = k
    · rw [if_pos hpk]
      exact hpk.symm
    · rw [if_neg hpk]
  · exact absurd rfl (habs (k, w) hmem)

/-- A skipped edge visit (source entry not found) leaves the state unchanged. -/
theorem serVisitEdge_skip {k : ELineType} {a b : NodeData} {st : SerState}
    (hlook : mapGetStr (sectionOf st (canonSource (k, a, b)).type)
      ((mapGetStr st.nameMap (canonSource (k, a, b)).id).getD "unknown") = none) :
    serVisitEdge k a b st = some (st, []) := by
  have h2 := hlook
  simp only [canonSource] at h2
  simp only [serVisitEdge, h2]

/-- A successful edge visit replaces the source entry by its pushed version. -/
theorem serVisitEdge_hit {k : ELineType} {a b : NodeData} {st : SerState}
    {entry entry2 : EntryDoc}
    (hlook : mapGetStr (sectionOf st (canonSource (k, a, b)).type)
      ((mapGetStr st.nameMap (canonSource (k, a, b)).id).getD "unknown") = some entry)
    (hpush : pushLink entry k (mapGetStr st.nameMap (canonDest (k, a, b)).id) =
      some entry2) :
    serVisitEdge k a b st =
      some (sectionSet st (canonSource (k, a, b)).type
        (mapSetStr (sectionOf st (canonSource (k, a, b)).type)
          ((mapGetStr st.nameMap (canonSource (k, a, b)).id).getD "unknown") entry2),
        []) := by
  have h2 := hlook
  have h3 := hpush
  simp only [canonSource] at h2
  simp only [canonDest] at h3
  simp only [serVisitEdge, h2, h3, canonSource]

/-- The serializer's edge pass: each entry of the stored-procedure and
event-trigger sections accumulates exactly the pushes targeted at it, no
diagnostics are reported, and nothing else changes. -/
theorem runEdgePass_ser (es : List (ELineType × NodeData × NodeData)) (st : SerState)
    (hnd_sp : (st.storedProcedures.map (fun p => p.1)).Nodup)
    (hnd_et : (st.eventTriggers.map (fun p => p.1)).Nodup)
    (hok_sp : ∀ p ∈ st.storedProcedures, linksOk p.2)
    (hok_et : ∀ p ∈ st.eventTriggers, linksOk p.2)
    (hsafe : ∀ e ∈ es, (canonSource e).type = EShapeType.storedProcedure ∨
      (canonSource e).type = EShapeType.eventTrigger) :
    runEdgePass serializationVisitor es st =
      some ({ st with
        storedProcedures := st.storedProcedures.map
          (fun p => (p.1, applyPushes p.2
            (targetedPushes st.nameMap es .storedProcedure p.1))),
        eventTriggers := st.eventTriggers.map
          (fun p => (p.1, applyPushes p.2
            (targetedPushes st.nameMap es .eventTrigger p.1))) }, []) := by
  induction es generalizing st with
  | nil =>
    simp [runEdgePass, targetedPushes, applyPushes]
  | cons e es2 ih =>
    obtain ⟨k, a, b⟩ := e
    have hsafe2 : ∀ e2 ∈ es2, (canonSource e2).type = EShapeType.storedProcedure ∨
        (canonSource e2).type = EShapeType.eventTrigger :=
      fun e2 he2 => hsafe e2 (by simp [he2])
    cases hlook : mapGetStr (sectionOf st (canonSource (k, a, b)).type)
        ((mapGetStr st.nameMap (canonSource (k, a, b)).id).getD "unknown") with
    | none =>
      have hv := serVisitEdge_skip hlook
      have hdrop : ∀ (t0 : EShapeType), ∀ p ∈ sectionOf st t0,
          ¬((canonSource (k, a, b)).type = t0 ∧
            (mapGetStr st.nameMap (canonSource (k, a, b)).id).getD "unknown" = p.1) := by
        rintro t0 p hp ⟨h1, h2⟩
        rw [h1] at hlook
        rw [mapGetStr_eq_none] at hlook
        exact hlook p hp h2.symm
      simp only [runEdgePass, serializationVisitor_visitEdge, hv]
      rw [ih st hnd_sp hnd_et hok_sp hok_et hsafe2]
      rw [section_map_drop st.storedProcedures st.nameMap (k, a, b) es2
        .storedProcedure (hdrop .storedProcedure),
        section_map_drop st.eventTriggers st.nameMap (k, a, b) es2
        .eventTrigger (hdrop .eventTrigger)]
      rfl
    | some entry =>
      rcases hsafe (k, a, b) (by simp) with hsrc | hsrc
      · have hlook2 : mapGetStr st.storedProcedures
            ((mapGetStr st.nameMap (canonSource (k, a, b)).id).getD "unknown") =
            some entry := by
          rw [show st.storedProcedures =
            sectionOf st (canonSource (k, a, b)).type by rw [hsrc]; rfl]
          exact hlook
        have hmem := mapGetStr_mem hlook2
        obtain ⟨hb1, sb1, vb1, hlinks⟩ := hok_sp _ hmem
        have hlinks2 : entry.links = some ⟨some hb1, some sb1, some vb1⟩ := hlinks
        obtain ⟨hb2, sb2, vb2, hpushed⟩ :=
          pushLink_ok hlinks2 k (mapGetStr st.nameMap (canonDest (k, a, b)).id)
        have hv := serVisitEdge_hit hlook hpushed
        rw [hsrc] at hv
        simp only [sectionOf] at hv
        simp only [runEdgePass, serializationVisitor_visitEdge, hv]
        have hkeys2 := mapSetStr_keys_of_mem
          { entry with links := some ⟨some hb2, some sb2, some vb2⟩ } hmem hnd_sp
        have hok2 : ∀ p ∈ mapSetStr st.storedProcedures
            ((mapGetStr st.nameMap (canonSource (k, a, b)).id).getD "unknown")
            { entry with links := some ⟨some hb2, some sb2, some vb2⟩ },
            linksOk p.2 := by
          intro p hp
          rcases mem_mapSetStr hp with h1 | h1
          · exact hok_sp p h1
          · rw [h1]
            exact ⟨hb2, sb2, vb2, rfl⟩
        have hrun := ih (sectionSet st .storedProcedure
            (mapSetStr st.storedProcedures
              ((mapGetStr st.nameMap (canonSource (k, a, b)).id).getD "unknown")
              { entry with links := some ⟨some hb2, some sb2, some vb2⟩ }))
          (by simpa [sectionSet] using hkeys2 ▸ hnd_sp)
          (by simpa [sectionSet] using hnd_et)
          (by simpa [sectionSet] using hok2)
          (by simpa [sectionSet] using hok_et)
          hsafe2
        rw [hrun]
        simp only [sectionSet]
        rw [section_map_step st.storedProcedures st.nameMap k a b es2
          .storedProcedure hnd_sp hsrc hlook2 hpushed,
          section_map_drop st.eventTriggers st.nameMap (k, a, b) es2
          .eventTrigger ?_]
        · rfl
        · intro p hp hc
          rw [hsrc] at hc
          exact absurd hc.1 (by decide)
      · have hlook2 : mapGetStr st.eventTriggers
            ((mapGetStr st.nameMap (canonSource (k, a, b)).id).getD "unknown") =
            some entry := by
          rw [show st.eventTriggers =
            sectionOf st (canonSource (k, a, b)).type by rw [hsrc]; rfl]
          exact hlook
        have hmem := mapGetStr_mem hlook2
        obtain ⟨hb1, sb1, vb1, hlinks⟩ := hok_et _ hmem
        have hlinks2 : entry.links = some ⟨some hb1, some sb1, some vb1⟩ := hlinks
        obtain ⟨hb2, sb2, vb2, hpushed⟩ :=
          pushLink_ok hlinks2 k (mapGetStr st.nameMap (canonDest (k, a, b)).id)
        have hv := serVisitEdge_hit hlook hpushed
        rw [hsrc] at hv
        simp only [sectionOf] at hv
        simp only [runEdgePass, serializationVisitor_visitEdge, hv]
        have hkeys2 := mapSetStr_keys_of_mem
          { entry with links := some ⟨some hb2, some sb2, some vb2⟩ } hmem hnd_et
        have hok2 : ∀ p ∈ mapSetStr st.eventTriggers
            ((mapGetStr st.nameMap (canonSource (k, a, b)).id).getD "unknown")
            { entry with links := some ⟨some hb2, some sb2, some vb2⟩ },
            linksOk p.2 := by
          intro p hp
          rcases mem_mapSetStr hp with h1 | h1
          · exact hok_et p h1
          · rw [h1]
            exact ⟨hb2, sb2, vb2, rfl⟩
        have hrun := ih (sectionSet st .eventTrigger
            (mapSetStr st.eventTriggers
              ((mapGetStr st.nameMap (canonSource (k, a, b)).id).getD "unknown")
              { entry with links := some ⟨some hb2, some sb2, some vb2⟩ }))
          (by simpa [sectionSet] using hnd_sp)
          (by simpa [sectionSet] using hkeys2 ▸ hnd_et)
          (by simpa [sectionSet] using hok_sp)
          (by simpa [sectionSet] using hok2)
          hsafe2
        rw [hrun]
        simp only [sectionSet]
        rw [section_map_step st.eventTriggers st.nameMap k a b es2
          .eventTrigger hnd_et hsrc hlook2 hpushed,
          section_map_drop st.storedProcedures st.nameMap (k, a, b) es2
          .storedProcedure ?_]
        · rfl
        · intro p hp hc
          rw [hsrc] at hc
          exact absurd hc.1 (by decide)

/-- A connection outside the allow table is reported at its visit. -/
theorem semVisitEdge_conn_diag (k : ELineType) (a b : NodeData) (st : SemState)
    (h : (((allowedConnections (shapeTypeStr a.type ++ "-" ++ shapeTypeStr b.type)).getD
      []).contains k) = false) :
    Diagnostic.mk (.invalidConnection b.name b.type k) (some a.id) .error ∈
      (semVisitEdge k a b st).2 := by
  have h2 : k ∉ ((allowedConnections (shapeTypeStr a.type ++ "-" ++
      shapeTypeStr b.type)).getD []) := by
    simpa using h
  simp only [semVisitEdge]
  split <;> simp [mem_diagIf, h, h2]

/-- With zero error diagnostics, every resolved edge of the run is in the
allow table. -/
theorem edge_combo_allowed (g : Graph)
    (herr : ∀ d ∈ (performGraphSemanticAnalysis g).diagnostics,
      d.severity ≠ ESeverity.error)
    {k : ELineType} {a b : NodeData}
    (he : (k, a, b) ∈ edgeOccs (g.map normalizeNode)) :
    (((allowedConnections (shapeTypeStr a.type ++ "-" ++ shapeTypeStr b.type)).getD
      []).contains k) = true := by
  by_contra hc
  have hc2 : (((allowedConnections (shapeTypeStr a.type ++ "-" ++
      shapeTypeStr b.type)).getD []).contains k) = false := by
    simpa using hc
  obtain ⟨⟨j, hj⟩, hget⟩ := List.mem_iff_get.mp he
  have hdiag := semEdgeDiags_step_subset (edgeOccs (g.map normalizeNode))
    (semNodeState g {}) j hj
    (Diagnostic.mk (.invalidConnection b.name b.type k) (some a.id) .error)
    (by rw [hget]; exact semVisitEdge_conn_diag k a b _ hc2)
  exact herr _ (edge_diag_mem_run g _ hdiag) rfl

/-- An allowed hard or soft connection has exactly one data-source endpoint,
and an allowed event connection sources at an event trigger: the canonical
recorded source is always a stored procedure or an event trigger. -/
theorem edge_safe_of_allowed {k : ELineType} {a b : NodeData}
    (h : (((allowedConnections (shapeTypeStr a.type ++ "-" ++ shapeTypeStr b.type)).getD
      []).contains k) = true) :
    (canonSource (k, a, b)).type = EShapeType.storedProcedure ∨
      (canonSource (k, a, b)).type = EShapeType.eventTrigger := by
  have hcanon : (canonSource (k, a, b)).type =
      if (k == .hard || k == .soft) && a.type == EShapeType.dataSource
      then b.type else a.type := by
    simp only [canonSource, apply_ite NodeData.type]
  rw [hcanon]
  cases k <;> cases ta : a.type <;> cases tb : b.type <;>
    simp_all [allowedConnections, shapeTypeStr]

theorem namedEntries_key_mem {t : EShapeType} {base : Nat} {l : List NodeData}
    {p : String × EntryDoc} (h : p ∈ namedEntries t base l) :
    ∃ j, base ≤ j ∧ j < base + l.length ∧ p.1 = getDeterministicName t j ∧
      ∃ n ∈ l, p.2 = entryOf t n := by
  induction l generalizing base with
  | nil => simp [namedEntries] at h
  | cons n ns ih =>
    simp only [namedEntries] at h
    rcases List.mem_cons.mp h with h1 | h1
    · exact ⟨base, le_refl _, by simp, by simp [h1], n, by simp, by simp [h1]⟩
    · obtain ⟨j, hj1, hj2, hj3, m, hm, hme⟩ := ih h1
      exact ⟨j, by omega, by simp; omega, hj3, m, by simp [hm], hme⟩

theorem namedEntries_keys_nodup (t : EShapeType) (base : Nat) (l : List NodeData) :
    ((namedEntries t base l).map (fun p => p.1)).Nodup := by
  induction l generalizing base with
  | nil => simp [namedEntries]
  | cons n ns ih =>
    simp only [namedEntries, List.map_cons, List.nodup_cons]
    refine ⟨?_, ih (base + 1)⟩
    intro hmem
    rw [List.mem_map] at hmem
    obtain ⟨p, hp, he⟩ := hmem
    obtain ⟨j, hj1, _, hj3, _⟩ := namedEntries_key_mem hp
    have hje : getDeterministicName t j = getDeterministicName t base := by
      rw [← hj3]
      exact he
    have := (getDeterministicName_inj hje).2
    omega

theorem entryOf_linksOk (t : EShapeType) (n : NodeData)
    (h : t = EShapeType.storedProcedure ∨ t = EShapeType.eventTrigger) :
    linksOk (entryOf t n) := by
  rcases h with rfl | rfl <;> exact ⟨[], [], [], rfl⟩

theorem serVisitNode_misc (n : NodeData) (st : SerState) :
    (serVisitNode n st).2.1.apiVersion = st.apiVersion ∧
      (serVisitNode n st).2.1.schemaVersion = st.schemaVersion ∧
      (serVisitNode n st).2.1.kind = st.kind ∧
      (serVisitNode n st).2.1.chartMetadata = st.chartMetadata ∧
      (serVisitNode n st).2.1.output = st.output := by
  simp only [serVisitNode]
  cases n.type <;> simp [sectionSet]

theorem serNodeState_misc (g : Graph) (st : SerState) :
    (serNodeState g st).apiVersion = st.apiVersion ∧
      (serNodeState g st).schemaVersion = st.schemaVersion ∧
      (serNodeState g st).kind = st.kind ∧
      (serNodeState g st).chartMetadata = st.chartMetadata ∧
      (serNodeState g st).output = st.output := by
  induction g generalizing st with
  | nil => exact ⟨rfl, rfl, rfl, rfl, rfl⟩
  | cons n ns ih =>
    rw [serNodeState_cons]
    obtain ⟨h1, h2, h3, h4, h5⟩ := serVisitNode_misc n st
    obtain ⟨g1, g2, g3, g4, g5⟩ := ih (serVisitNode n st).2.1
    exact ⟨g1.trans h1, g2.trans h2, g3.trans h3, g4.trans h4, g5.trans h5⟩

/-- The serializer state at `enterGraph`. -/
def serInitState (sd : Settings) : SerState :=
  serEnterGraph (serializationVisitorNew sd)

/-- The serializer state after the node pass over the analyzed graph. -/
def serAfterNodes (sd : Settings) (ga : Graph) : SerState :=
  serNodeState ga (serInitState sd)

/-- The serializer state after the edge pass. -/
def serFinalState (sd : Settings) (ga : Graph) : SerState :=
  { serAfterNodes sd ga with
    storedProcedures := (serAfterNodes sd ga).storedProcedures.map
      (fun p => (p.1, applyPushes p.2
        (targetedPushes (serAfterNodes sd ga).nameMap (edgeOccs ga)
          .storedProcedure p.1))),
    eventTriggers := (serAfterNodes sd ga).eventTriggers.map
      (fun p => (p.1, applyPushes p.2
        (targetedPushes (serAfterNodes sd ga).nameMap (edgeOccs ga)
          .eventTrigger p.1))) }

theorem serInitState_sections (sd : Settings) (u : EShapeType) :
    sectionOf (serInitState sd) u = [] := by
  cases u <;> rfl

theorem serInitState_counters (sd : Settings) (u : EShapeType) :
    (mapGetStr (serInitState sd).shapeCounters (shapeTypeStr u)).getD 0 = 0 := by
  cases u <;> rfl

/-- The four sections after the node pass over the analyzed graph. -/
theorem serAfterNodes_sections (sd : Settings) (ga : Graph) (t : EShapeType) :
    sectionOf (serAfterNodes sd ga) t =
      namedEntries t 0 (ga.filter (fun m => m.type == t)) := by
  have h := serNodeState_sections ga (serInitState sd) (fun _ => 0)
    (serInitState_counters sd)
    (fun u p hp => absurd hp (by rw [serInitState_sections]; simp)) t
  rw [serAfterNodes, h, serInitState_sections]
  rfl

/-- The name map after the node pass over the analyzed graph. -/
theorem serAfterNodes_nameMap (sd : Settings) (ga : Graph)
    (hnodup : (ga.map (fun n => n.id)).Nodup) :
    (serAfterNodes sd ga).nameMap = assignedPairs (fun _ => 0) ga := by
  have h := serNodeState_nameMap ga (serInitState sd) (fun _ => 0)
    (serInitState_counters sd)
    (fun n _ p hp => absurd hp (by simp [serInitState, serEnterGraph]))
    hnodup
  simpa using h

/-- The full serializer engine run over an analyzed graph whose resolved edges
are all canonically sourced at workloads: no failure, no diagnostics, and the
final state is the explicit section/push form. -/
theorem analyzerRun_ser (sd : Settings) (ga : Graph)
    (hsafe : ∀ e ∈ edgeOccs ga,
      (canonSource e).type = EShapeType.storedProcedure ∨
        (canonSource e).type = EShapeType.eventTrigger) :
    analyzerRun serializationVisitor ga (serializationVisitorNew sd) =
      some ⟨ga, serExitGraph (serFinalState sd ga), [], groupDiagnostics ga []⟩ := by
  simp only [analyzerRun]
  rw [show serializationVisitor.enterGraph (serializationVisitorNew sd) =
    serInitState sd from rfl]
  rw [runNodePass_ser]
  have hsp := serAfterNodes_sections sd ga .storedProcedure
  have het := serAfterNodes_sections sd ga .eventTrigger
  have hsp2 : (serAfterNodes sd ga).storedProcedures =
      namedEntries .storedProcedure 0
        (ga.filter (fun m => m.type == EShapeType.storedProcedure)) := hsp
  have het2 : (serAfterNodes sd ga).eventTriggers =
      namedEntries .eventTrigger 0
        (ga.filter (fun m => m.type == EShapeType.eventTrigger)) := het
  have hrun := runEdgePass_ser (edgeOccs ga) (serAfterNodes sd ga)
    (by rw [hsp2]; exact namedEntries_keys_nodup _ _ _)
    (by rw [het2]; exact namedEntries_keys_nodup _ _ _)
    (by
      rw [hsp2]
      intro p hp
      obtain ⟨j, _, _, _, n, _, hpe⟩ := namedEntries_key_mem hp
      rw [hpe]
      exact entryOf_linksOk _ n (Or.inl rfl))
    (by
      rw [het2]
      intro p hp
      obtain ⟨j, _, _, _, n, _, hpe⟩ := namedEntries_key_mem hp
      rw [hpe]
      exact entryOf_linksOk _ n (Or.inr rfl))
    hsafe
  rw [show (serNodeState ga (serInitState sd)) = serAfterNodes sd ga from rfl] at *
  rw [hrun]
  rfl

theorem assignedPairs_keys (cnt : EShapeType → Nat) (ga : Graph) :
    (assignedPairs cnt ga).map (fun p => p.1) = ga.map (fun n => n.id) := by
  induction ga generalizing cnt with
  | nil => rfl
  | cons n ns ih => simp [assignedPairs, ih]

theorem mapGetStr_of_mem_nodup {m : List (String × α)} {k : String} {v : α}
    (hnd : (m.map (fun p => p.1)).Nodup) (h : (k, v) ∈ m) :
    mapGetStr m k = some v := by
  induction m with
  | nil => simp at h
  | cons p m ih =>
    simp only [List.map_cons, List.nodup_cons] at hnd
    rcases List.mem_cons.mp h with h1 | h1
    · rw [← h1]
      simp [mapGetStr, List.find?]
    · have hk : k ∈ m.map (fun p => p.1) := by
        rw [show k = (k, v).1 from rfl]
        exact List.mem_map_of_mem _ h1
      have hne : (p.1 == k) = false := by
        simp only [beq_eq_false_iff_ne, ne_eq]
        intro he
        exact hnd.1 (he ▸ hk)
      simp only [mapGetStr, List.find?, hne]
      exact ih hnd.2 h1

theorem nameToIdGet_append_one (m : List (String × String)) (p : String × String)
    (k : String) :
    nameToIdGet (m ++ [p]) k = if p.1 == k then some p.2 else nameToIdGet m k := by
  simp [nameToIdGet, List.foldl_append]

theorem nameToIdGet_of_mem_nodup {m : List (String × String)} {k v : String}
    (hnd : (m.map (fun p => p.1)).Nodup) (h : (k, v) ∈ m) :
    nameToIdGet m k = some v := by
  induction m using List.reverseRecOn with
  | nil => simp at h
  | append_singleton m p ih =>
    rw [nameToIdGet_append_one]
    rcases List.mem_append.mp h with h1 | h1
    · have hk : k ∈ m.map (fun q => q.1) := by
        rw [show k = (k, v).1 from rfl]
        exact List.mem_map_of_mem _ h1
      have hne : (p.1 == k) = false := by
        simp only [beq_eq_false_iff_ne, ne_eq]
        intro he
        have := List.disjoint_of_nodup_append (by simpa using hnd)
        exact this (he ▸ hk) (by simp)
      rw [hne]
      simp only [Bool.false_eq_true, if_false]
      exact ih (List.Nodup.of_append_left (by simpa using hnd)) h1
    · simp only [List.mem_singleton] at h1
      subst h1
      simp

theorem entryOf_id (t : EShapeType) (n : NodeData) :
    (entryOf t n).id = some n.id := by
  cases t <;> rfl

/-- Every section entry is the entry of a node of the graph of that type, and
the node's assigned name is the entry's key. -/
theorem namedEntries_assigned (cnt : EShapeType → Nat) (ga : Graph) (t : EShapeType) :
    ∀ {nm : String} {e : EntryDoc},
      (nm, e) ∈ namedEntries t (cnt t) (ga.filter (fun m => m.type == t)) →
      ∃ n ∈ ga, n.type = t ∧ e = entryOf t n ∧ (n.id, nm) ∈ assignedPairs cnt ga := by
  induction ga generalizing cnt with
  | nil => simp [namedEntries]
  | cons n0 ns ih =>
    intro nm e h
    by_cases ht : n0.type = t
    · rw [List.filter_cons_of_pos (by simpa using ht)] at h
      simp only [namedEntries] at h
      rcases List.mem_cons.mp h with h1 | h1
      · rw [Prod.mk.injEq] at h1
        obtain ⟨hnm, hee⟩ := h1
        subst hnm
        subst hee
        refine ⟨n0, by simp, ht, rfl, ?_⟩
        simp only [assignedPairs, ht]
        exact List.mem_cons_self _ _
      · have h2 : (nm, e) ∈ namedEntries t ((bumpCount cnt n0.type) t)
            (ns.filter (fun m => m.type == t)) := by
          have hb : (bumpCount cnt n0.type) t = cnt t + 1 := by
            simp [bumpCount, ht]
          rw [hb]
          exact h1
        obtain ⟨n, hn, hnt, hne, hnp⟩ := ih (bumpCount cnt n0.type) h2
        exact ⟨n, by simp [hn], hnt, hne, by simp [assignedPairs, hnp]⟩
    · rw [List.filter_cons_of_neg (by simpa using ht)] at h
      have hne : ¬t = n0.type := fun he => ht he.symm
      have h2 : (nm, e) ∈ namedEntries t ((bumpCount cnt n0.type) t)
          (ns.filter (fun m => m.type == t)) := by
        have hb : (bumpCount cnt n0.type) t = cnt t := by
          simp [bumpCount, hne]
        rw [hb]
        exact h
      obtain ⟨n, hn, hnt, hne, hnp⟩ := ih (bumpCount cnt n0.type) h2
      exact ⟨n, by simp [hn], hnt, hne, by simp [assignedPairs, hnp]⟩

/-- Every node of the graph has its entry in its type's section under its
assigned name. -/
theorem mem_namedEntries_of (cnt : EShapeType → Nat) (ga : Graph) (t : EShapeType) :
    ∀ n ∈ ga, n.type = t →
      ∃ nm, (nm, entryOf t n) ∈ namedEntries t (cnt t) (ga.filter (fun m => m.type == t)) ∧
        (n.id, nm) ∈ assignedPairs cnt ga := by
  induction ga generalizing cnt with
  | nil => simp
  | cons n0 ns ih =>
    intro n hn hnt
    rcases List.mem_cons.mp hn with rfl | hn2
    · refine ⟨getDeterministicName t (cnt t), ?_, ?_⟩
      · rw [List.filter_cons_of_pos (by simpa using hnt)]
        simp [namedEntries]
      · simp only [assignedPairs, hnt]
        exact List.mem_cons_self _ _
    · obtain ⟨nm, hsec, hpair⟩ := ih (bumpCount cnt n0.type) n hn2 hnt
      by_cases ht : n0.type = t
      · refine ⟨nm, ?_, by simp [assignedPairs, hpair]⟩
        rw [List.filter_cons_of_pos (by simpa using ht)]
        simp only [namedEntries]
        have hb : (bumpCount cnt n0.type) t = cnt t + 1 := by
          simp [bumpCount, ht]
        rw [hb] at hsec
        exact List.mem_cons_of_mem _ hsec
      · refine ⟨nm, ?_, by simp [assignedPairs, hpair]⟩
        rw [List.filter_cons_of_neg (by simpa using ht)]
        have hne : ¬t = n0.type := fun he => ht he.symm
        have hb : (bumpCount cnt n0.type) t = cnt t := by
          simp [bumpCount, hne]
        rw [hb] at hsec
        exact hsec

theorem pushLink_some_form {e e2 : EntryDoc} {k : ELineType} {d : Option String}
    (h : pushLink e k d = some e2) : e2 = { e with links := e2.links } := by
  unfold pushLink at h
  repeat' split at h
  all_goals first
    | exact Option.noConfusion h
    | (cases h; rfl)

theorem applyPushes_form (e : EntryDoc) (ps : List (ELineType × Option String)) :
    applyPushes e ps = { e with links := (applyPushes e ps).links } := by
  induction ps generalizing e with
  | nil => rfl
  | cons q ps ih =>
    rw [applyPushes_cons]
    cases hp : pushLink e q.1 q.2 with
    | none =>
      simp only [Option.getD_none]
      exact ih e
    | some e2 =>
      simp only [Option.getD_some]
      rw [ih e2]
      rw [pushLink_some_form hp]

theorem cleanEntry_form (e : EntryDoc) :
    cleanEntry e = { e with links := (cleanEntry e).links } := by
  unfold cleanEntry
  split <;> rfl

/-- Pass 1 on a section whose every entry carries a kept id: the entries are
unchanged, the name-to-id pairs are read off, and no fresh id is drawn. -/
theorem resolveSectionIds_good (uuid : Nat → String) (k : Nat)
    (sec : List (String × EntryDoc))
    (h : ∀ p ∈ sec, ∃ i, p.2.id = some i ∧ i.toList ≠ [] ∧ (jsTrim i).toList ≠ []) :
    resolveSectionIds uuid k sec = (sec, sec.map (fun p => (p.1, p.2.id.getD "")), k) := by
  induction sec generalizing k with
  | nil => rfl
  | cons p rest ih =>
    obtain ⟨nm, e⟩ := p
    obtain ⟨i, hi, hne, hte⟩ := h (nm, e) (by simp)
    have hi2 : e.id = some i := hi
    have h1 : ¬i.data = [] := by simpa using hne
    have h2 : ¬(jsTrim i).data = [] := by simpa using hte
    have hck : checkID uuid k e.id = (i, k) := by
      rw [hi2]
      simp [checkID, h1, h2]
    simp only [resolveSectionIds, hck]
    rw [ih k (fun q hq => h q (by simp [hq]))]
    have hpe : ({ e with id := some i } : EntryDoc) = e := by
      cases e
      simp_all
    rw [hpe]
    simp [hi2]

/-- The chart object of the canonical document of an analyzed graph. -/
def canonChart (sd : Settings) (ga : Graph) : ChartDoc :=
  { dataSources := namedEntries .dataSource 0
      (ga.filter (fun m => m.type == EShapeType.dataSource))
    storedProcedures := ((serAfterNodes sd ga).storedProcedures.map
      (fun p => (p.1, applyPushes p.2
        (targetedPushes (serAfterNodes sd ga).nameMap (edgeOccs ga)
          .storedProcedure p.1)))).map (fun p => (p.1, cleanEntry p.2))
    eventTriggers := ((serAfterNodes sd ga).eventTriggers.map
      (fun p => (p.1, applyPushes p.2
        (targetedPushes (serAfterNodes sd ga).nameMap (edgeOccs ga)
          .eventTrigger p.1)))).map (fun p => (p.1, cleanEntry p.2))
    events := namedEntries .event 0 (ga.filter (fun m => m.type == EShapeType.event)) }

/-- The chart key of the produced document, with the `?? {}` default applied,
is the canonical chart. -/
theorem docChart_eq (sd : Settings) (ga : Graph) :
    ((assembleOutput (serFinalState sd ga)).chart.getD {}) = canonChart sd ga := by
  have hds : (serFinalState sd ga).dataSources =
      namedEntries .dataSource 0
        (ga.filter (fun m => m.type == EShapeType.dataSource)) :=
    serAfterNodes_sections sd ga .dataSource
  have hev : (serFinalState sd ga).events =
      namedEntries .event 0 (ga.filter (fun m => m.type == EShapeType.event)) :=
    serAfterNodes_sections sd ga .event
  simp only [assembleOutput]
  split
  · simp only [Option.getD_some, canonChart, hds, hev]
    rfl
  · rename_i hne
    simp only [Bool.or_eq_true, Bool.not_eq_true', not_or] at hne
    obtain ⟨⟨⟨hdse, hspe⟩, hete⟩, heve⟩ := hne
    simp only [Option.getD_none, canonChart]
    have hds2 : namedEntries EShapeType.dataSource 0
        (ga.filter (fun m => m.type == EShapeType.dataSource)) = [] := by
      rw [← hds]
      exact List.isEmpty_iff.mp (by simpa using hdse)
    have hev2 : namedEntries EShapeType.event 0
        (ga.filter (fun m => m.type == EShapeType.event)) = [] := by
      rw [← hev]
      exact List.isEmpty_iff.mp (by simpa using heve)
    have hsp2 : ((serFinalState sd ga).storedProcedures.map
        (fun p => (p.1, cleanEntry p.2))) = [] :=
      List.isEmpty_iff.mp (by simpa using hspe)
    have het2 : ((serFinalState sd ga).eventTriggers.map
        (fun p => (p.1, cleanEntry p.2))) = [] :=
      List.isEmpty_iff.mp (by simpa using hete)
    rw [hds2, hev2]
    rw [show (serFinalState sd ga).storedProcedures =
      ((serAfterNodes sd ga).storedProcedures.map
        (fun p => (p.1, applyPushes p.2
          (targetedPushes (serAfterNodes sd ga).nameMap (edgeOccs ga)
            .storedProcedure p.1)))) from rfl] at hsp2
    rw [show (serFinalState sd ga).eventTriggers =
      ((serAfterNodes sd ga).eventTriggers.map
        (fun p => (p.1, applyPushes p.2
          (targetedPushes (serAfterNodes sd ga).nameMap (edgeOccs ga)
            .eventTrigger p.1)))) from rfl] at het2
    rw [hsp2, het2]

theorem cleanEntry_id (e : EntryDoc) : (cleanEntry e).id = e.id := by
  rw [cleanEntry_form]

theorem applyPushes_id (e : EntryDoc) (ps : List (ELineType × Option String)) :
    (applyPushes e ps).id = e.id := by
  rw [applyPushes_form]

/-- The name-to-id map built by pass 1 of the deserializer over the canonical
chart. -/
def chartNameMap (sd : Settings) (ga : Graph) : List (String × String) :=
  ((canonChart sd ga).dataSources.map (fun p => (p.1, p.2.id.getD ""))) ++
    ((canonChart sd ga).storedProcedures.map (fun p => (p.1, p.2.id.getD ""))) ++
    ((canonChart sd ga).eventTriggers.map (fun p => (p.1, p.2.id.getD ""))) ++
    ((canonChart sd ga).events.map (fun p => (p.1, p.2.id.getD "")))

/-- Every entry of the canonical chart is the (pushed, cleaned) entry of one
graph node of the section's type, keyed by its assigned name. -/
theorem canonChart_sp_mem (sd : Settings) (ga : Graph) {nm : String} {e : EntryDoc}
    (h : (nm, e) ∈ (canonChart sd ga).storedProcedures) :
    ∃ n ∈ ga, n.type = EShapeType.storedProcedure ∧
      (n.id, nm) ∈ assignedPairs (fun _ => 0) ga ∧
      e = cleanEntry (applyPushes (entryOf .storedProcedure n)
        (targetedPushes (serAfterNodes sd ga).nameMap (edgeOccs ga)
          .storedProcedure nm)) := by
  simp only [canonChart, List.map_map, List.mem_map, Function.comp] at h
  obtain ⟨p, hp, he⟩ := h
  rw [Prod.mk.injEq] at he
  obtain ⟨hnm, hee⟩ := he
  have hsec : (p.1, p.2) ∈ namedEntries EShapeType.storedProcedure
      ((fun _ => (0 : Nat)) EShapeType.storedProcedure)
      (ga.filter (fun m => m.type == EShapeType.storedProcedure)) := by
    rw [show (serAfterNodes sd ga).storedProcedures =
      sectionOf (serAfterNodes sd ga) .storedProcedure from rfl,
      serAfterNodes_sections] at hp
    simpa using hp
  obtain ⟨n, hn, hnt, hne, hnp⟩ := namedEntries_assigned (fun _ => 0) ga _ hsec
  subst hnm
  exact ⟨n, hn, hnt, hnp, by rw [← hee, hne]⟩

theorem canonChart_et_mem (sd : Settings) (ga : Graph) {nm : String} {e : EntryDoc}
    (h : (nm, e) ∈ (canonChart sd ga).eventTriggers) :
    ∃ n ∈ ga, n.type = EShapeType.eventTrigger ∧
      (n.id, nm) ∈ assignedPairs (fun _ => 0) ga ∧
      e = cleanEntry (applyPushes (entryOf .eventTrigger n)
        (targetedPushes (serAfterNodes sd ga).nameMap (edgeOccs ga)
          .eventTrigger nm)) := by
  simp only [canonChart, List.map_map, List.mem_map, Function.comp] at h
  obtain ⟨p, hp, he⟩ := h
  rw [Prod.mk.injEq] at he
  obtain ⟨hnm, hee⟩ := he
  have hsec : (p.1, p.2) ∈ namedEntries EShapeType.eventTrigger
      ((fun _ => (0 : Nat)) EShapeType.eventTrigger)
      (ga.filter (fun m => m.type == EShapeType.eventTrigger)) := by
    rw [show (serAfterNodes sd ga).eventTriggers =
      sectionOf (serAfterNodes sd ga) .eventTrigger from rfl,
      serAfterNodes_sections] at hp
    simpa using hp
  obtain ⟨n, hn, hnt, hne, hnp⟩ := namedEntries_assigned (fun _ => 0) ga _ hsec
  subst hnm
  exact ⟨n, hn, hnt, hnp, by rw [← hee, hne]⟩

theorem canonChart_ds_mem (sd : Settings) (ga : Graph) {nm : String} {e : EntryDoc}
    (h : (nm, e) ∈ (canonChart sd ga).dataSources) :
    ∃ n ∈ ga, n.type = EShapeType.dataSource ∧
      (n.id, nm) ∈ assignedPairs (fun _ => 0) ga ∧ e = entryOf .dataSource n := by
  simp only [canonChart] at h
  obtain ⟨n, hn, hnt, hne, hnp⟩ := namedEntries_assigned (fun _ => 0) ga _ h
  exact ⟨n, hn, hnt, hnp, hne⟩

theorem canonChart_ev_mem (sd : Settings) (ga : Graph) {nm : String} {e : EntryDoc}
    (h : (nm, e) ∈ (canonChart sd ga).events) :
    ∃ n ∈ ga, n.type = EShapeType.event ∧
      (n.id, nm) ∈ assignedPairs (fun _ => 0) ga ∧ e = entryOf .event n := by
  simp only [canonChart] at h
  obtain ⟨n, hn, hnt, hne, hnp⟩ := namedEntries_assigned (fun _ => 0) ga _ h
  exact ⟨n, hn, hnt, hnp, hne⟩

/-- Good ids: when every graph node id is nonempty and survives trimming, so
is every chart entry id. -/
theorem canonChart_good_ids (sd : Settings) (ga : Graph)
    (hids : ∀ n ∈ ga, n.id.toList ≠ [] ∧ (jsTrim n.id).toList ≠ []) :
    (∀ p ∈ (canonChart sd ga).dataSources, ∃ i, p.2.id = some i ∧
        i.toList ≠ [] ∧ (jsTrim i).toList ≠ []) ∧
      (∀ p ∈ (canonChart sd ga).storedProcedures, ∃ i, p.2.id = some i ∧
        i.toList ≠ [] ∧ (jsTrim i).toList ≠ []) ∧
      (∀ p ∈ (canonChart sd ga).eventTriggers, ∃ i, p.2.id = some i ∧
        i.toList ≠ [] ∧ (jsTrim i).toList ≠ []) ∧
      (∀ p ∈ (canonChart sd ga).events, ∃ i, p.2.id = some i ∧
        i.toList ≠ [] ∧ (jsTrim i).toList ≠ []) := by
  refine ⟨?_, ?_, ?_, ?_⟩
  · rintro ⟨nm, e⟩ hp
    obtain ⟨n, hn, -, -, hne⟩ := canonChart_ds_mem sd ga hp
    exact ⟨n.id, by rw [hne, entryOf_id], (hids n hn).1, (hids n hn).2⟩
  · rintro ⟨nm, e⟩ hp
    obtain ⟨n, hn, -, -, hne⟩ := canonChart_sp_mem sd ga hp
    refine ⟨n.id, ?_, (hids n hn).1, (hids n hn).2⟩
    rw [hne, cleanEntry_id, applyPushes_id, entryOf_id]
  · rintro ⟨nm, e⟩ hp
    obtain ⟨n, hn, -, -, hne⟩ := canonChart_et_mem sd ga hp
    refine ⟨n.id, ?_, (hids n hn).1, (hids n hn).2⟩
    rw [hne, cleanEntry_id, applyPushes_id, entryOf_id]
  · rintro ⟨nm, e⟩ hp
    obtain ⟨n, hn, -, -, hne⟩ := canonChart_ev_mem sd ga hp
    exact ⟨n.id, by rw [hne, entryOf_id], (hids n hn).1, (hids n hn).2⟩

/-- Pass 2 of the deserializer over the canonical chart: the rebuilt graph is
the per-section rebuild against the full name-to-id map. -/
theorem deserializeChart_canon (uuid : Nat → String) (sd : Settings) (ga : Graph)
    (hids : ∀ n ∈ ga, n.id.toList ≠ [] ∧ (jsTrim n.id).toList ≠ []) :
    deserializeChart uuid (canonChart sd ga) =
      ((canonChart sd ga).dataSources.map
        (fun p => nodeOfDsEntry (chartNameMap sd ga) p.1 p.2)) ++
      ((canonChart sd ga).storedProcedures.map
        (fun p => nodeOfWlEntry .storedProcedure (chartNameMap sd ga) p.1 p.2)) ++
      ((canonChart sd ga).eventTriggers.map
        (fun p => nodeOfWlEntry .eventTrigger (chartNameMap sd ga) p.1 p.2)) ++
      ((canonChart sd ga).events.map
        (fun p => nodeOfEvEntry (chartNameMap sd ga) p.1 p.2)) := by
  obtain ⟨h1, h2, h3, h4⟩ := canonChart_good_ids sd ga hids
  simp only [deserializeChart]
  rw [resolveSectionIds_good uuid 0 _ h1, resolveSectionIds_good uuid 0 _ h2,
    resolveSectionIds_good uuid 0 _ h3, resolveSectionIds_good uuid 0 _ h4]
  rfl

theorem keys_map_pres (l : List (String × α)) (f : String × α → β) :
    ((l.map (fun p => (p.1, f p))).map (fun q => q.1)) = l.map (fun p => p.1) := by
  simp [List.map_map, Function.comp]

theorem canonChart_ds_keys (sd : Settings) (ga : Graph) :
    ((canonChart sd ga).dataSources.map (fun p => p.1)) =
      ((namedEntries .dataSource 0
        (ga.filter (fun m => m.type == EShapeType.dataSource))).map (fun p => p.1)) :=
  rfl

theorem canonChart_sp_keys (sd : Settings) (ga : Graph) :
    ((canonChart sd ga).storedProcedures.map (fun p => p.1)) =
      ((namedEntries .storedProcedure 0
        (ga.filter (fun m => m.type == EShapeType.storedProcedure))).map
          (fun p => p.1)) := by
  simp only [canonChart, List.map_map, Function.comp]
  rw [show (serAfterNodes sd ga).storedProcedures =
    sectionOf (serAfterNodes sd ga) .storedProcedure from rfl, serAfterNodes_sections]
  simp [List.map_map, Function.comp]

theorem canonChart_et_keys (sd : Settings) (ga : Graph) :
    ((canonChart sd ga).eventTriggers.map (fun p => p.1)) =
      ((namedEntries .eventTrigger 0
        (ga.filter (fun m => m.type == EShapeType.eventTrigger))).map
          (fun p => p.1)) := by
  simp only [canonChart, List.map_map, Function.comp]
  rw [show (serAfterNodes sd ga).eventTriggers =
    sectionOf (serAfterNodes sd ga) .eventTrigger from rfl, serAfterNodes_sections]
  simp [List.map_map, Function.comp]

theorem canonChart_ev_keys (sd : Settings) (ga : Graph) :
    ((canonChart sd ga).events.map (fun p => p.1)) =
      ((namedEntries .event 0
        (ga.filter (fun m => m.type == EShapeType.event))).map (fun p => p.1)) :=
  rfl

theorem namedEntries_key_shape {t : EShapeType} {base : Nat} {l : List NodeData}
    {k : String} (h : k ∈ (namedEntries t base l).map (fun p => p.1)) :
    ∃ j, k = getDeterministicName t j := by
  rw [List.mem_map] at h
  obtain ⟨p, hp, he⟩ := h
  obtain ⟨j, -, -, hj, -⟩ := namedEntries_key_mem hp
  exact ⟨j, by rw [← he, hj]⟩

theorem names_block_disjoint {t u : EShapeType} (hne : t ≠ u) {l1 l2 : List String}
    (h1 : ∀ k ∈ l1, ∃ j, k = getDeterministicName t j)
    (h2 : ∀ k ∈ l2, ∃ j, k = getDeterministicName u j) : l1.Disjoint l2 := by
  intro k hk1 hk2
  obtain ⟨j1, he1⟩ := h1 k hk1
  obtain ⟨j2, he2⟩ := h2 k hk2
  exact hne (getDeterministicName_inj (he1.symm.trans he2)).1

/-- The keys of the full name-to-id map are pairwise distinct. -/
theorem chartNameMap_keys_nodup (sd : Settings) (ga : Graph) :
    ((chartNameMap sd ga).map (fun p => p.1)).Nodup := by
  have k1 := (keys_map_pres (canonChart sd ga).dataSources
    (fun p => p.2.id.getD "")).trans (canonChart_ds_keys sd ga)
  have k2 := (keys_map_pres (canonChart sd ga).storedProcedures
    (fun p => p.2.id.getD "")).trans (canonChart_sp_keys sd ga)
  have k3 := (keys_map_pres (canonChart sd ga).eventTriggers
    (fun p => p.2.id.getD "")).trans (canonChart_et_keys sd ga)
  have k4 := (keys_map_pres (canonChart sd ga).events
    (fun p => p.2.id.getD "")).trans (canonChart_ev_keys sd ga)
  have shape : ∀ (t : EShapeType) (l : List NodeData) (k : String),
      k ∈ (namedEntries t 0 l).map (fun p => p.1) →
        ∃ j, k = getDeterministicName t j :=
    fun t l k hk => namedEntries_key_shape hk
  simp only [chartNameMap, List.map_append]
  rw [k1, k2, k3, k4]
  have lds := ga.filter (fun m => m.type == EShapeType.dataSource)
  have d23 := names_block_disjoint (t := .storedProcedure) (u := .eventTrigger)
    (by decide)
    (shape _ (ga.filter (fun m => m.type == EShapeType.storedProcedure)))
    (shape _ (ga.filter (fun m => m.type == EShapeType.eventTrigger)))
  have d24 := names_block_disjoint (t := .storedProcedure) (u := .event)
    (by decide)
    (shape _ (ga.filter (fun m => m.type == EShapeType.storedProcedure)))
    (shape _ (ga.filter (fun m => m.type == EShapeType.event)))
  have d34 := names_block_disjoint (t := .eventTrigger) (u := .event)
    (by decide)
    (shape _ (ga.filter (fun m => m.type == EShapeType.eventTrigger)))
    (shape _ (ga.filter (fun m => m.type == EShapeType.event)))
  have d12 := names_block_disjoint (t := .dataSource) (u := .storedProcedure)
    (by decide)
    (shape _ (ga.filter (fun m => m.type == EShapeType.dataSource)))
    (shape _ (ga.filter (fun m => m.type == EShapeType.storedProcedure)))
  have d13 := names_block_disjoint (t := .dataSource) (u := .eventTrigger)
    (by decide)
    (shape _ (ga.filter (fun m => m.type == EShapeType.dataSource)))
    (shape _ (ga.filter (fun m => m.type == EShapeType.eventTrigger)))
  have d14 := names_block_disjoint (t := .dataSource) (u := .event)
    (by decide)
    (shape _ (ga.filter (fun m => m.type == EShapeType.dataSource)))
    (shape _ (ga.filter (fun m => m.type == EShapeType.event)))
  refine List.Nodup.append
    (List.Nodup.append
      (List.Nodup.append (namedEntries_keys_nodup _ _ _)
        (namedEntries_keys_nodup _ _ _) d12)
      (namedEntries_keys_nodup _ _ _)
      (List.disjoint_append_left.mpr ⟨d13, d23⟩))
    (namedEntries_keys_nodup _ _ _)
    (List.disjoint_append_left.mpr
      ⟨List.disjoint_append_left.mpr ⟨d14, d24⟩, d34⟩)

/-- Every graph node's assigned name maps back to its id through the
deserializer's name-to-id map. -/
theorem chartNameMap_mem_of (sd : Settings) (ga : Graph) {n : NodeData}
    (hn : n ∈ ga) :
    ∃ nm, (n.id, nm) ∈ assignedPairs (fun _ => 0) ga ∧
      (nm, n.id) ∈ chartNameMap sd ga := by
  obtain ⟨nm, hsec, hpair⟩ := mem_namedEntries_of (fun _ => 0) ga n.type n hn rfl
  refine ⟨nm, hpair, ?_⟩
  simp only [chartNameMap, List.mem_append]
  cases ht : n.type with
  | dataSource =>
    refine Or.inl (Or.inl (Or.inl ?_))
    rw [ht] at hsec
    exact List.mem_map.mpr ⟨(nm, entryOf .dataSource n), hsec,
      by simp [entryOf_id]⟩
  | storedProcedure =>
    refine Or.inl (Or.inl (Or.inr ?_))
    rw [ht] at hsec
    refine List.mem_map.mpr ⟨(nm, cleanEntry (applyPushes (entryOf .storedProcedure n)
      (targetedPushes (serAfterNodes sd ga).nameMap (edgeOccs ga)
        .storedProcedure nm))), ?_, ?_⟩
    · simp only [canonChart]
      refine List.mem_map.mpr ⟨(nm, applyPushes (entryOf .storedProcedure n)
        (targetedPushes (serAfterNodes sd ga).nameMap (edgeOccs ga)
          .storedProcedure nm)), ?_, rfl⟩
      refine List.mem_map.mpr ⟨(nm, entryOf .storedProcedure n), ?_, rfl⟩
      rw [show (serAfterNodes sd ga).storedProcedures =
        sectionOf (serAfterNodes sd ga) .storedProcedure from rfl,
        serAfterNodes_sections]
      exact hsec
    · simp [cleanEntry_id, applyPushes_id, entryOf_id]
  | eventTrigger =>
    refine Or.inl (Or.inr ?_)
    rw [ht] at hsec
    refine List.mem_map.mpr ⟨(nm, cleanEntry (applyPushes (entryOf .eventTrigger n)
      (targetedPushes (serAfterNodes sd ga).nameMap (edgeOccs ga)
        .eventTrigger nm))), ?_, ?_⟩
    · simp only [canonChart]
      refine List.mem_map.mpr ⟨(nm, applyPushes (entryOf .eventTrigger n)
        (targetedPushes (serAfterNodes sd ga).nameMap (edgeOccs ga)
          .eventTrigger nm)), ?_, rfl⟩
      refine List.mem_map.mpr ⟨(nm, entryOf .eventTrigger n), ?_, rfl⟩
      rw [show (serAfterNodes sd ga).eventTriggers =
        sectionOf (serAfterNodes sd ga) .eventTrigger from rfl,
        serAfterNodes_sections]
      exact hsec
    · simp [cleanEntry_id, applyPushes_id, entryOf_id]
  | event =>
    refine Or.inr ?_
    rw [ht] at hsec
    exact List.mem_map.mpr ⟨(nm, entryOf .event n), hsec,
      by simp [entryOf_id]⟩

/-- Name assignment and its inverse, as lookups. -/
theorem canon_name_id (sd : Settings) (ga : Graph)
    (hnodup : (ga.map (fun n => n.id)).Nodup) :
    ∀ n ∈ ga, ∃ nm,
      mapGetStr (assignedPairs (fun _ => 0) ga) n.id = some nm ∧
      nameToIdGet (chartNameMap sd ga) nm = some n.id := by
  intro n hn
  obtain ⟨nm, hpair, hM⟩ := chartNameMap_mem_of sd ga hn
  exact ⟨nm, mapGetStr_of_mem_nodup (by rw [assignedPairs_keys]; exact hnodup) hpair,
    nameToIdGet_of_mem_nodup (chartNameMap_keys_nodup sd ga) hM⟩

/-- Two graph nodes with the same assigned name are the same node. -/
theorem assigned_lookup_inj (sd : Settings) (ga : Graph)
    (hnodup : (ga.map (fun n => n.id)).Nodup) {n1 n2 : NodeData}
    (h1 : n1 ∈ ga) (h2 : n2 ∈ ga) {nm : String}
    (e1 : mapGetStr (assignedPairs (fun _ => 0) ga) n1.id = some nm)
    (e2 : mapGetStr (assignedPairs (fun _ => 0) ga) n2.id = some nm) : n1 = n2 := by
  obtain ⟨m1, f1, g1⟩ := canon_name_id sd ga hnodup n1 h1
  obtain ⟨m2, f2, g2⟩ := canon_name_id sd ga hnodup n2 h2
  have hm1 : m1 = nm := Option.some.inj ((f1.symm).trans e1)
  have hm2 : m2 = nm := Option.some.inj ((f2.symm).trans e2)
  subst hm1
  rw [hm2] at g2
  have hid : n1.id = n2.id := Option.some.inj ((g1.symm).trans g2)
  exact List.inj_on_of_nodup_map hnodup h1 h2 hid

/-- The destinations of one kind among a push list. -/
def destsOf (k0 : ELineType) (ps : List (ELineType × Option String)) :
    List (Option String) :=
  ps.filterMap (fun q => if q.1 = k0 then some q.2 else none)

/-- Applying pushes to an entry with fully present buckets appends each push's
destination to the bucket of its kind. -/
theorem applyPushes_links (ps : List (ELineType × Option String)) (e0 : EntryDoc)
    {h0 s0 v0 : List (Option String)}
    (he : e0.links = some ⟨some h0, some s0, some v0⟩) :
    (applyPushes e0 ps).links =
      some ⟨some (h0 ++ destsOf .hard ps), some (s0 ++ destsOf .soft ps),
        some (v0 ++ destsOf .event ps)⟩ := by
  induction ps generalizing e0 h0 s0 v0 with
  | nil => simp [applyPushes, destsOf, he]
  | cons q ps ih =>
    obtain ⟨k0, d0⟩ := q
    rw [applyPushes_cons]
    cases k0
    · have hp : pushLink e0 .hard d0 =
          some { e0 with links := some ⟨some (h0 ++ [d0]), some s0, some v0⟩ } := by
        simp [pushLink, he]
      rw [hp]
      simp only [Option.getD_some]
      rw [ih _ rfl]
      simp [destsOf, List.filterMap_cons]
    · have hp : pushLink e0 .soft d0 =
          some { e0 with links := some ⟨some h0, some (s0 ++ [d0]), some v0⟩ } := by
        simp [pushLink, he]
      rw [hp]
      simp only [Option.getD_some]
      rw [ih _ rfl]
      simp [destsOf, List.filterMap_cons]
    · have hp : pushLink e0 .event d0 =
          some { e0 with links := some ⟨some h0, some s0, some (v0 ++ [d0])⟩ } := by
        simp [pushLink, he]
      rw [hp]
      simp only [Option.getD_some]
      rw [ih _ rfl]
      simp [destsOf, List.filterMap_cons]

/-- Resolving a cleaned bucket ignores the cleanup: an emptied bucket resolves
to the empty list either way. -/
theorem resolveLinkList_cleanLinks (M : List (String × String))
    (H S V : List (Option String)) :
    resolveLinkList M (cleanLinks ⟨some H, some S, some V⟩) (fun l => l.hardLinks) =
        H.map (fun d => d.bind (nameToIdGet M)) ∧
      resolveLinkList M (cleanLinks ⟨some H, some S, some V⟩) (fun l => l.softLinks) =
        S.map (fun d => d.bind (nameToIdGet M)) ∧
      resolveLinkList M (cleanLinks ⟨some H, some S, some V⟩) (fun l => l.eventLinks) =
        V.map (fun d => d.bind (nameToIdGet M)) := by
  cases H <;> cases S <;> cases V <;>
    simp [cleanLinks, resolveLinkList]

/-- The cleaned and pushed workload entry resolves its three buckets to the
pushed destination lists. -/
theorem resolve_clean_apply (M : List (String × String)) (e0 : EntryDoc)
    (ps : List (ELineType × Option String)) {h0 s0 v0 : List (Option String)}
    (he : e0.links = some ⟨some h0, some s0, some v0⟩) :
    resolveLinkList M (cleanEntry (applyPushes e0 ps)).links (fun l => l.hardLinks) =
        (h0 ++ destsOf .hard ps).map (fun d => d.bind (nameToIdGet M)) ∧
      resolveLinkList M (cleanEntry (applyPushes e0 ps)).links (fun l => l.softLinks) =
        (s0 ++ destsOf .soft ps).map (fun d => d.bind (nameToIdGet M)) ∧
      resolveLinkList M (cleanEntry (applyPushes e0 ps)).links (fun l => l.eventLinks) =
        (v0 ++ destsOf .event ps).map (fun d => d.bind (nameToIdGet M)) := by
  have hl := applyPushes_links ps e0 he
  have hce : (cleanEntry (applyPushes e0 ps)).links =
      cleanLinks ⟨some (h0 ++ destsOf .hard ps), some (s0 ++ destsOf .soft ps),
        some (v0 ++ destsOf .event ps)⟩ := by
    unfold cleanEntry
    rw [hl]
  rw [hce]
  exact resolveLinkList_cleanLinks M _ _ _

/-! ### The claim-side equivalence vocabulary (C1) -/

/-- Empty-falsy normalization of an optional string (what serialization
records for a conditionally written field). -/
def normStr (o : Option String) : Option String :=
  if strTruthy o then o else none

/-- Empty normalization of an optional string array. -/
def normList (o : Option (List String)) : Option (List String) :=
  if listNonempty o then o else none

theorem normStr_idem (o : Option String) : normStr (normStr o) = normStr o := by
  by_cases h : strTruthy o <;> simp [normStr, h]

theorem normList_idem (o : Option (List String)) :
    normList (normList o) = normList o := by
  by_cases h : listNonempty o <;> simp [normList, h]

/-- The type-relevant serialized payload of a node, with empty-falsy fields
normalized to absent.  These are exactly the fields the canonical document
records for a node of that type (`args` is not among them). -/
structure NodePayload where
  name : String := ""
  dataType : Option String := none
  path : Option String := none
  resourceName : Option String := none
  description : Option String := none
  image : Option String := none
  wlPrefix : Option String := none
  disableVirt : Option Bool := none
  runDetached : Option Bool := none
  removeOnStop : Option Bool := none
  memory : Option String := none
  kernelArgs : Option String := none
  networks : Option (List String) := none
  ports : Option (List String) := none
  volumes : Option (List String) := none
  targets : Option (List String) := none
  envVars : Option (List String) := none
  topic : Option String := none
deriving DecidableEq, Repr

def payloadNorm (n : NodeData) : NodePayload :=
  match n.type with
  | .dataSource =>
    { name := n.name
      dataType := n.dataType
      path := normStr n.path
      resourceName := normStr n.resourceName
      description := normStr n.description }
  | .event =>
    { name := n.name
      image := normStr n.image
      wlPrefix := normStr n.wlPrefix
      disableVirt := n.disableVirt
      runDetached := n.runDetached
      removeOnStop := n.removeOnStop
      memory := normStr n.memory
      kernelArgs := normStr n.kernelArgs
      networks := normList n.networks
      ports := normList n.ports
      volumes := normList n.volumes
      targets := normList n.targets
      envVars := normList n.envVars
      topic := normStr n.topic }
  | _ =>
    { name := n.name
      image := normStr n.image
      wlPrefix := normStr n.wlPrefix
      disableVirt := n.disableVirt
      runDetached := n.runDetached
      removeOnStop := n.removeOnStop
      memory := normStr n.memory
      kernelArgs := normStr n.kernelArgs
      networks := normList n.networks
      ports := normList n.ports
      volumes := normList n.volumes
      targets := normList n.targets
      envVars := normList n.envVars }

/-- The direction-insensitive identity of an edge: kind plus sorted endpoint
ids for hard and soft links (serialization canonicalizes their direction),
kind plus the ordered pair for event links. -/
def canonEdge (e : ELineType × NodeData × NodeData) : ELineType × String :=
  match e.1 with
  | .event => (.event, e.2.1.id ++ "->" ++ e.2.2.id)
  | k => (k, edgeKey e.2.1.id e.2.2.id)

/-! ### The rebuilt nodes -/

theorem rebuilt_ds (M : List (String × String)) (nm : String) (n : NodeData) :
    nodeOfDsEntry M nm (entryOf .dataSource n) =
      { id := n.id
        type := .dataSource
        name := n.name
        path := normStr n.path
        resourceName := normStr n.resourceName
        dataType := n.dataType
        description := normStr n.description
        connectedTo := some []
        softConnectedTo := some []
        eventConnectedTo := some [] } := by
  simp only [nodeOfDsEntry, entryOf, dsEntryOf, normStr, resolveLinkList,
    Option.getD_some]

/-- The cleaned, pushed workload entry in record form. -/
theorem cleanApply_wl (n : NodeData) (ps : List (ELineType × Option String)) :
    cleanEntry (applyPushes (wlEntryOf n) ps) =
      { wlEntryOf n with
        links := cleanLinks ⟨some (destsOf .hard ps), some (destsOf .soft ps),
          some (destsOf .event ps)⟩ } := by
  have hl := applyPushes_links ps (wlEntryOf n) rfl
  unfold cleanEntry
  rw [hl]
  conv_lhs => rw [applyPushes_form (wlEntryOf n) ps]
  simp

theorem rebuilt_wl (t : EShapeType)
    (ht : t = EShapeType.storedProcedure ∨ t = EShapeType.eventTrigger)
    (M : List (String × String)) (nm : String) (n : NodeData)
    (ps : List (ELineType × Option String)) :
    nodeOfWlEntry t M nm (cleanEntry (applyPushes (entryOf t n) ps)) =
      { id := n.id
        type := t
        name := n.name
        image := normStr n.image
        wlPrefix := normStr n.wlPrefix
        disableVirt := n.disableVirt
        runDetached := n.runDetached
        removeOnStop := n.removeOnStop
        memory := normStr n.memory
        kernelArgs := normStr n.kernelArgs
        networks := normList n.networks
        ports := normList n.ports
        volumes := normList n.volumes
        targets := normList n.targets
        envVars := normList n.envVars
        connectedTo := some ((destsOf .hard ps).map (fun d => d.bind (nameToIdGet M)))
        softConnectedTo :=
          some ((destsOf .soft ps).map (fun d => d.bind (nameToIdGet M)))
        eventConnectedTo :=
          some ((destsOf .event ps).map (fun d => d.bind (nameToIdGet M))) } := by
  have hentry : entryOf t n = wlEntryOf n := by
    rcases ht with rfl | rfl <;> rfl
  rw [hentry, cleanApply_wl]
  obtain ⟨r1, r2, r3⟩ := resolve_clean_apply M (wlEntryOf n) ps
    (rfl : (wlEntryOf n).links = some ⟨some [], some [], some []⟩)
  rw [cleanApply_wl] at r1 r2 r3
  simp only [List.nil_append] at r1 r2 r3
  simp only [nodeOfWlEntry, r1, r2, r3]
  simp [wlEntryOf, normStr, normList]

theorem rebuilt_ev (M : List (String × String)) (nm : String) (n : NodeData) :
    nodeOfEvEntry M nm (entryOf .event n) =
      { id := n.id
        type := .event
        name := n.name
        image := normStr n.image
        wlPrefix := normStr n.wlPrefix
        disableVirt := n.disableVirt
        runDetached := n.runDetached
        removeOnStop := n.removeOnStop
        memory := normStr n.memory
        kernelArgs := normStr n.kernelArgs
        networks := normList n.networks
        ports := normList n.ports
        volumes := normList n.volumes
        targets := normList n.targets
        envVars := normList n.envVars
        topic := normStr n.topic
        connectedTo := some []
        softConnectedTo := some []
        eventConnectedTo := some [] } := by
  simp only [nodeOfEvEntry, nodeOfWlEntry, entryOf, evEntryOf, wlEntryOf,
    resolveLinkList, normStr, normList, Option.getD_some]

theorem payloadNorm_ds {n : NodeData} (hnt : n.type = EShapeType.dataSource)
    (M : List (String × String)) (nm : String) :
    payloadNorm (nodeOfDsEntry M nm (entryOf .dataSource n)) = payloadNorm n := by
  rw [rebuilt_ds]
  simp [payloadNorm, hnt, normStr_idem]

theorem payloadNorm_wl (t : EShapeType)
    (ht : t = EShapeType.storedProcedure ∨ t = EShapeType.eventTrigger)
    {n : NodeData} (hnt : n.type = t) (M : List (String × String)) (nm : String)
    (ps : List (ELineType × Option String)) :
    payloadNorm (nodeOfWlEntry t M nm (cleanEntry (applyPushes (entryOf t n) ps))) =
      payloadNorm n := by
  rw [rebuilt_wl t ht]
  rcases ht with rfl | rfl <;>
    simp [payloadNorm, hnt, normStr_idem, normList_idem]

theorem payloadNorm_ev {n : NodeData} (hnt : n.type = EShapeType.event)
    (M : List (String × String)) (nm : String) :
    payloadNorm (nodeOfEvEntry M nm (entryOf .event n)) = payloadNorm n := by
  rw [rebuilt_ev]
  simp [payloadNorm, hnt, normStr_idem, normList_idem]

theorem namedEntries_length (t : EShapeType) (base : Nat) (l : List NodeData) :
    (namedEntries t base l).length = l.length := by
  induction l generalizing base with
  | nil => rfl
  | cons n ns ih => simp [namedEntries, ih]

theorem namedEntries_snd_map {β : Type} (f : EntryDoc → β) (t : EShapeType)
    (base : Nat) (l : List NodeData) :
    (namedEntries t base l).map (fun p => f p.2) = l.map (fun n => f (entryOf t n)) := by
  induction l generalizing base with
  | nil => rfl
  | cons n ns ih => simp [namedEntries, ih]

/-- The node the deserializer rebuilds for one graph node under its assigned
name. -/
def rebuiltNode (sd : Settings) (ga : Graph) (nm : String) (n : NodeData) : NodeData :=
  match n.type with
  | .dataSource => nodeOfDsEntry (chartNameMap sd ga) nm (entryOf .dataSource n)
  | .storedProcedure =>
    nodeOfWlEntry .storedProcedure (chartNameMap sd ga) nm
      (cleanEntry (applyPushes (entryOf .storedProcedure n)
        (targetedPushes (serAfterNodes sd ga).nameMap (edgeOccs ga)
          .storedProcedure nm)))
  | .eventTrigger =>
    nodeOfWlEntry .eventTrigger (chartNameMap sd ga) nm
      (cleanEntry (applyPushes (entryOf .eventTrigger n)
        (targetedPushes (serAfterNodes sd ga).nameMap (edgeOccs ga)
          .eventTrigger nm)))
  | .event => nodeOfEvEntry (chartNameMap sd ga) nm (entryOf .event n)

/-- Every member of the rebuilt graph is the rebuild of a graph node. -/
theorem roundGraph_mem_back (uuid : Nat → String) (sd : Settings) (ga : Graph)
    (hids : ∀ n ∈ ga, n.id.toList ≠ [] ∧ (jsTrim n.id).toList ≠ [])
    {x : NodeData} (hx : x ∈ deserializeChart uuid (canonChart sd ga)) :
    ∃ n ∈ ga, ∃ nm, (n.id, nm) ∈ assignedPairs (fun _ => 0) ga ∧
      x = rebuiltNode sd ga nm n := by
  rw [deserializeChart_canon uuid sd ga hids] at hx
  simp only [List.mem_append, List.mem_map] at hx
  rcases hx with ((⟨p, hp, he⟩ | ⟨p, hp, he⟩) | ⟨p, hp, he⟩) | ⟨p, hp, he⟩
  · obtain ⟨nm, e⟩ := p
    obtain ⟨n, hn, hnt, hpair, hne⟩ := canonChart_ds_mem sd ga hp
    exact ⟨n, hn, nm, hpair, by rw [← he, hne, rebuiltNode, hnt]⟩
  · obtain ⟨nm, e⟩ := p
    obtain ⟨n, hn, hnt, hpair, hne⟩ := canonChart_sp_mem sd ga hp
    exact ⟨n, hn, nm, hpair, by rw [← he, hne, rebuiltNode, hnt]⟩
  · obtain ⟨nm, e⟩ := p
    obtain ⟨n, hn, hnt, hpair, hne⟩ := canonChart_et_mem sd ga hp
    exact ⟨n, hn, nm, hpair, by rw [← he, hne, rebuiltNode, hnt]⟩
  · obtain ⟨nm, e⟩ := p
    obtain ⟨n, hn, hnt, hpair, hne⟩ := canonChart_ev_mem sd ga hp
    exact ⟨n, hn, nm, hpair, by rw [← he, hne, rebuiltNode, hnt]⟩

/-- Every graph node's rebuild is a member of the rebuilt graph. -/
theorem roundGraph_mem_fwd (uuid : Nat → String) (sd : Settings) (ga : Graph)
    (hids : ∀ n ∈ ga, n.id.toList ≠ [] ∧ (jsTrim n.id).toList ≠ [])
    {n : NodeData} (hn : n ∈ ga) :
    ∃ nm, (n.id, nm) ∈ assignedPairs (fun _ => 0) ga ∧
      rebuiltNode sd ga nm n ∈ deserializeChart uuid (canonChart sd ga) := by
  obtain ⟨nm, hsec, hpair⟩ := mem_namedEntries_of (fun _ => 0) ga n.type n hn rfl
  refine ⟨nm, hpair, ?_⟩
  rw [deserializeChart_canon uuid sd ga hids]
  simp only [List.mem_append, List.mem_map]
  cases ht : n.type with
  | dataSource =>
    refine Or.inl (Or.inl (Or.inl ⟨(nm, entryOf .dataSource n), ?_, ?_⟩))
    · rw [ht] at hsec
      exact hsec
    · rw [rebuiltNode, ht]
  | storedProcedure =>
    refine Or.inl (Or.inl (Or.inr ⟨(nm, cleanEntry (applyPushes
      (entryOf .storedProcedure n)
      (targetedPushes (serAfterNodes sd ga).nameMap (edgeOccs ga)
        .storedProcedure nm))), ?_, ?_⟩))
    · simp only [canonChart]
      refine List.mem_map.mpr ⟨(nm, applyPushes (entryOf .storedProcedure n)
        (targetedPushes (serAfterNodes sd ga).nameMap (edgeOccs ga)
          .storedProcedure nm)), ?_, rfl⟩
      refine List.mem_map.mpr ⟨(nm, entryOf .storedProcedure n), ?_, rfl⟩
      rw [show (serAfterNodes sd ga).storedProcedures =
        sectionOf (serAfterNodes sd ga) .storedProcedure from rfl,
        serAfterNodes_sections]
      rw [ht] at hsec
      exact hsec
    · rw [rebuiltNode, ht]
  | eventTrigger =>
    refine Or.inl (Or.inr ⟨(nm, cleanEntry (applyPushes
      (entryOf .eventTrigger n)
      (targetedPushes (serAfterNodes sd ga).nameMap (edgeOccs ga)
        .eventTrigger nm))), ?_, ?_⟩)
    · simp only [canonChart]
      refine List.mem_map.mpr ⟨(nm, applyPushes (entryOf .eventTrigger n)
        (targetedPushes (serAfterNodes sd ga).nameMap (edgeOccs ga)
          .eventTrigger nm)), ?_, rfl⟩
      refine List.mem_map.mpr ⟨(nm, entryOf .eventTrigger n), ?_, rfl⟩
      rw [show (serAfterNodes sd ga).eventTriggers =
        sectionOf (serAfterNodes sd ga) .eventTrigger from rfl,
        serAfterNodes_sections]
      rw [ht] at hsec
      exact hsec
    · rw [rebuiltNode, ht]
  | event =>
    refine Or.inr ⟨(nm, entryOf .event n), ?_, ?_⟩
    · rw [ht] at hsec
      exact hsec
    · rw [rebuiltNode, ht]

theorem rebuiltNode_id (sd : Settings) (ga : Graph) (nm : String) (n : NodeData) :
    (rebuiltNode sd ga nm n).id = n.id := by
  cases ht : n.type <;>
    simp [rebuiltNode, ht, nodeOfDsEntry, nodeOfWlEntry, nodeOfEvEntry,
      cleanEntry_id, applyPushes_id, entryOf_id]

theorem rebuiltNode_type (sd : Settings) (ga : Graph) (nm : String) (n : NodeData) :
    (rebuiltNode sd ga nm n).type = n.type := by
  cases ht : n.type <;>
    simp [rebuiltNode, ht, nodeOfDsEntry, nodeOfWlEntry, nodeOfEvEntry]

theorem rebuiltNode_payload (sd : Settings) (ga : Graph) (nm : String)
    (n : NodeData) : payloadNorm (rebuiltNode sd ga nm n) = payloadNorm n := by
  cases ht : n.type with
  | dataSource =>
    rw [rebuiltNode, ht]
    exact payloadNorm_ds ht _ _
  | storedProcedure =>
    rw [rebuiltNode, ht]
    exact payloadNorm_wl _ (Or.inl rfl) ht _ _ _
  | eventTrigger =>
    rw [rebuiltNode, ht]
    exact payloadNorm_wl _ (Or.inr rfl) ht _ _ _
  | event =>
    rw [rebuiltNode, ht]
    exact payloadNorm_ev ht _ _

/-- The rebuilt graph's id list, by type block. -/
theorem roundGraph_ids (uuid : Nat → String) (sd : Settings) (ga : Graph)
    (hids : ∀ n ∈ ga, n.id.toList ≠ [] ∧ (jsTrim n.id).toList ≠ []) :
    (deserializeChart uuid (canonChart sd ga)).map (fun x => x.id) =
      ((ga.filter (fun m => m.type == EShapeType.dataSource)).map (fun n => n.id)) ++
        ((ga.filter (fun m => m.type == EShapeType.storedProcedure)).map
          (fun n => n.id)) ++
        ((ga.filter (fun m => m.type == EShapeType.eventTrigger)).map
          (fun n => n.id)) ++
        ((ga.filter (fun m => m.type == EShapeType.event)).map (fun n => n.id)) := by
  rw [deserializeChart_canon uuid sd ga hids]
  simp only [List.map_append, List.map_map]
  congr 1
  congr 1
  congr 1
  · have h1 : ((fun x => x.id) ∘ fun p : String × EntryDoc =>
        nodeOfDsEntry (chartNameMap sd ga) p.1 p.2) =
        (fun p : String × EntryDoc => p.2.id.getD "") := rfl
    rw [h1, show (canonChart sd ga).dataSources =
      namedEntries .dataSource 0
        (ga.filter (fun m => m.type == EShapeType.dataSource)) from rfl,
      namedEntries_snd_map (fun e => e.id.getD "")]
    apply List.map_congr_left
    intro n _
    rw [entryOf_id]
    rfl
  · have h1 : ((fun x => x.id) ∘ fun p : String × EntryDoc =>
        nodeOfWlEntry .storedProcedure (chartNameMap sd ga) p.1 p.2) =
        (fun p : String × EntryDoc => p.2.id.getD "") := rfl
    rw [h1]
    simp only [canonChart, List.map_map]
    have h2 : ((fun p : String × EntryDoc => p.2.id.getD "") ∘
        ((fun p : String × EntryDoc => (p.1, cleanEntry p.2)) ∘
          (fun p : String × EntryDoc => (p.1, applyPushes p.2
            (targetedPushes (serAfterNodes sd ga).nameMap (edgeOccs ga)
              .storedProcedure p.1))))) =
        (fun p : String × EntryDoc => p.2.id.getD "") := by
      funext p
      simp [Function.comp, cleanEntry_id, applyPushes_id]
    rw [h2, show (serAfterNodes sd ga).storedProcedures =
      sectionOf (serAfterNodes sd ga) .storedProcedure from rfl,
      serAfterNodes_sections, namedEntries_snd_map (fun e => e.id.getD "")]
    apply List.map_congr_left
    intro n _
    rw [entryOf_id]
    rfl
  · have h1 : ((fun x => x.id) ∘ fun p : String × EntryDoc =>
        nodeOfWlEntry .eventTrigger (chartNameMap sd ga) p.1 p.2) =
        (fun p : String × EntryDoc => p.2.id.getD "") := rfl
    rw [h1]
    simp only [canonChart, List.map_map]
    have h2 : ((fun p : String × EntryDoc => p.2.id.getD "") ∘
        ((fun p : String × EntryDoc => (p.1, cleanEntry p.2)) ∘
          (fun p : String × EntryDoc => (p.1, applyPushes p.2
            (targetedPushes (serAfterNodes sd ga).nameMap (edgeOccs ga)
              .eventTrigger p.1))))) =
        (fun p : String × EntryDoc => p.2.id.getD "") := by
      funext p
      simp [Function.comp, cleanEntry_id, applyPushes_id]
    rw [h2, show (serAfterNodes sd ga).eventTriggers =
      sectionOf (serAfterNodes sd ga) .eventTrigger from rfl,
      serAfterNodes_sections, namedEntries_snd_map (fun e => e.id.getD "")]
    apply List.map_congr_left
    intro n _
    rw [entryOf_id]
    rfl
  · have h1 : ((fun x => x.id) ∘ fun p : String × EntryDoc =>
        nodeOfEvEntry (chartNameMap sd ga) p.1 p.2) =
        (fun p : String × EntryDoc => p.2.id.getD "") := rfl
    rw [h1, show (canonChart sd ga).events =
      namedEntries .event 0
        (ga.filter (fun m => m.type == EShapeType.event)) from rfl,
      namedEntries_snd_map (fun e => e.id.getD "")]
    apply List.map_congr_left
    intro n _
    rw [entryOf_id]
    rfl

theorem filter_ids_nodup {ga : Graph} (hnodup : (ga.map (fun n => n.id)).Nodup)
    (p : NodeData → Bool) : ((ga.filter p).map (fun n => n.id)).Nodup :=
  List.Nodup.sublist (List.Sublist.map _ (List.filter_sublist ga)) hnodup

theorem filter_ids_disjoint {ga : Graph} (hnodup : (ga.map (fun n => n.id)).Nodup)
    {t u : EShapeType} (hne : t ≠ u) :
    List.Disjoint ((ga.filter (fun m => m.type == t)).map (fun n => n.id))
      ((ga.filter (fun m => m.type == u)).map (fun n => n.id)) := by
  intro i h1 h2
  rw [List.mem_map] at h1 h2
  obtain ⟨n1, hn1, hi1⟩ := h1
  obtain ⟨n2, hn2, hi2⟩ := h2
  rw [List.mem_filter] at hn1 hn2
  have heq : n1 = n2 := List.inj_on_of_nodup_map hnodup hn1.1 hn2.1
    (by rw [hi1, hi2])
  have ht1 : n1.type = t := by simpa using hn1.2
  have ht2 : n2.type = u := by simpa using hn2.2
  exact hne (ht1 ▸ heq ▸ ht2)

/-- The rebuilt graph has pairwise distinct node ids. -/
theorem roundGraph_ids_nodup (uuid : Nat → String) (sd : Settings) (ga : Graph)
    (hids : ∀ n ∈ ga, n.id.toList ≠ [] ∧ (jsTrim n.id).toList ≠ [])
    (hnodup : (ga.map (fun n => n.id)).Nodup) :
    ((deserializeChart uuid (canonChart sd ga)).map (fun x => x.id)).Nodup := by
  rw [roundGraph_ids uuid sd ga hids]
  refine List.Nodup.append
    (List.Nodup.append
      (List.Nodup.append (filter_ids_nodup hnodup _) (filter_ids_nodup hnodup _)
        (filter_ids_disjoint hnodup (by decide)))
      (filter_ids_nodup hnodup _)
      (List.disjoint_append_left.mpr
        ⟨filter_ids_disjoint hnodup (by decide),
          filter_ids_disjoint hnodup (by decide)⟩))
    (filter_ids_nodup hnodup _)
    (List.disjoint_append_left.mpr
      ⟨List.disjoint_append_left.mpr
        ⟨filter_ids_disjoint hnodup (by decide),
          filter_ids_disjoint hnodup (by decide)⟩,
        filter_ids_disjoint hnodup (by decide)⟩)

/-- Membership in the engine's edge-occurrence list, by adjacency field. -/
theorem edgeOccs_mem_iff (G : Graph) (k : ELineType) (x y : NodeData) :
    (k, x, y) ∈ edgeOccs G ↔ (x ∈ G ∧
      y ∈ resolveTargets G
        (match k with
         | .hard => x.connectedTo
         | .soft => x.softConnectedTo
         | .event => x.eventConnectedTo)) := by
  unfold edgeOccs nodeEdgeOccs
  rw [List.mem_flatMap]
  constructor
  · rintro ⟨n, hn, hmem⟩
    rcases List.mem_append.mp hmem with h1 | h1
    · rcases List.mem_append.mp h1 with h2 | h2
      · rw [List.mem_map] at h2
        obtain ⟨t, ht, heq⟩ := h2
        cases heq
        exact ⟨hn, ht⟩
      · rw [List.mem_map] at h2
        obtain ⟨t, ht, heq⟩ := h2
        cases heq
        exact ⟨hn, ht⟩
    · rw [List.mem_map] at h1
      obtain ⟨t, ht, heq⟩ := h1
      cases heq
      exact ⟨hn, ht⟩
  · rintro ⟨hx, hy⟩
    refine ⟨x, hx, ?_⟩
    cases k
    · exact List.mem_append.mpr (Or.inl (List.mem_append.mpr
        (Or.inl (List.mem_map.mpr ⟨y, hy, rfl⟩))))
    · exact List.mem_append.mpr (Or.inl (List.mem_append.mpr
        (Or.inr (List.mem_map.mpr ⟨y, hy, rfl⟩))))
    · exact List.mem_append.mpr (Or.inr (List.mem_map.mpr ⟨y, hy, rfl⟩))

theorem canonSource_mem {ga : Graph} {e : ELineType × NodeData × NodeData}
    (h : e ∈ edgeOccs ga) : canonSource e ∈ ga := by
  obtain ⟨k, a, b⟩ := e
  obtain ⟨ha, hb⟩ := edgeOccs_mem_nodes h
  unfold canonSource
  split
  · exact hb
  · exact ha

theorem canonDest_mem {ga : Graph} {e : ELineType × NodeData × NodeData}
    (h : e ∈ edgeOccs ga) : canonDest e ∈ ga := by
  obtain ⟨k, a, b⟩ := e
  obtain ⟨ha, hb⟩ := edgeOccs_mem_nodes h
  unfold canonDest
  split
  · exact ha
  · exact hb

/-- The canonical swap preserves the direction-insensitive edge identity. -/
theorem canonEdge_swap (k : ELineType) (a b : NodeData) :
    canonEdge (k, canonSource (k, a, b), canonDest (k, a, b)) =
      canonEdge (k, a, b) := by
  cases k
  · simp only [canonEdge, canonSource, canonDest]
    split
    · exact Prod.ext rfl (edgeKey_comm _ _)
    · rfl
  · simp only [canonEdge, canonSource, canonDest]
    split
    · exact Prod.ext rfl (edgeKey_comm _ _)
    · rfl
  · simp [canonEdge, canonSource, canonDest]

theorem destsOf_targeted (nmMap : List (String × String))
    (es : List (ELineType × NodeData × NodeData)) (t : EShapeType) (nm : String)
    (k0 : ELineType) :
    destsOf k0 (targetedPushes nmMap es t nm) =
      es.filterMap (fun e =>
        if ((canonSource e).type = t ∧
            (mapGetStr nmMap (canonSource e).id).getD "unknown" = nm) ∧ e.1 = k0
        then some (mapGetStr nmMap (canonDest e).id) else none) := by
  induction es with
  | nil => rfl
  | cons e es ih =>
    simp only [targetedPushes, destsOf, List.filterMap_cons] at *
    by_cases c1 : (canonSource e).type = t ∧
        (mapGetStr nmMap (canonSource e).id).getD "unknown" = nm
    · by_cases c2 : e.1 = k0 <;> simp [c1, c2, ih]
    · simp [c1, ih]

/-- The canonical destination-id list of one node's edges of one kind. -/
def canonDests (ga : Graph) (k0 : ELineType) (n : NodeData) :
    List (Option String) :=
  (edgeOccs ga).filterMap (fun e =>
    if canonSource e = n ∧ e.1 = k0 then some (some ((canonDest e).id)) else none)

/-- The resolved bucket content of a rebuilt workload entry is exactly the
node's canonical destination-id list. -/
theorem adj_content (sd : Settings) (ga : Graph)
    (hnodup : (ga.map (fun n => n.id)).Nodup) {n : NodeData} (hn : n ∈ ga)
    {nm : String} (hpair : (n.id, nm) ∈ assignedPairs (fun _ => 0) ga)
    (k0 : ELineType) :
    (destsOf k0 (targetedPushes (serAfterNodes sd ga).nameMap (edgeOccs ga)
      n.type nm)).map (fun d => d.bind (nameToIdGet (chartNameMap sd ga))) =
      canonDests ga k0 n := by
  rw [serAfterNodes_nameMap sd ga hnodup, destsOf_targeted, List.map_filterMap]
  unfold canonDests
  apply List.filterMap_congr
  intro e he
  have hsrc := canonSource_mem he
  have hdst := canonDest_mem he
  have hget_n : mapGetStr (assignedPairs (fun _ => 0) ga) n.id = some nm :=
    mapGetStr_of_mem_nodup (by rw [assignedPairs_keys]; exact hnodup) hpair
  by_cases c2 : canonSource e = n ∧ e.1 = k0
  · obtain ⟨hc1, hc2⟩ := c2
    have hcond : ((canonSource e).type = n.type ∧
        (mapGetStr (assignedPairs (fun _ => 0) ga)
          (canonSource e).id).getD "unknown" = nm) ∧ e.1 = k0 := by
      refine ⟨⟨by rw [hc1], ?_⟩, hc2⟩
      rw [hc1, hget_n]
      rfl
    rw [if_pos hcond, if_pos ⟨hc1, hc2⟩]
    obtain ⟨nmD, hD1, hD2⟩ := canon_name_id sd ga hnodup _ hdst
    simp [hD1, hD2]
  · have hcond : ¬(((canonSource e).type = n.type ∧
        (mapGetStr (assignedPairs (fun _ => 0) ga)
          (canonSource e).id).getD "unknown" = nm) ∧ e.1 = k0) := by
      rintro ⟨⟨h1, h2⟩, h3⟩
      apply c2
      refine ⟨?_, h3⟩
      obtain ⟨nmS, hS1, hS2⟩ := canon_name_id sd ga hnodup _ hsrc
      rw [hS1] at h2
      have hS1b : mapGetStr (assignedPairs (fun _ => 0) ga)
          (canonSource e).id = some nm := by
        rw [hS1]
        exact congrArg some h2
      exact assigned_lookup_inj sd ga hnodup hsrc hn hS1b hget_n
    rw [if_neg hcond, if_neg c2]
    rfl

/-- A node of data-source or event type sources no canonical edges when every
edge is canonically sourced at a workload. -/
theorem canonDests_nil (ga : Graph)
    (hsafe : ∀ e ∈ edgeOccs ga,
      (canonSource e).type = EShapeType.storedProcedure ∨
        (canonSource e).type = EShapeType.eventTrigger)
    {n : NodeData}
    (hnt : n.type = EShapeType.dataSource ∨ n.type = EShapeType.event)
    (k0 : ELineType) : canonDests ga k0 n = [] := by
  unfold canonDests
  rw [List.filterMap_eq_nil]
  intro e he
  have hne : ¬(canonSource e = n ∧ e.1 = k0) := by
    rintro ⟨h1, h2⟩
    rcases hsafe e he with h | h <;> rcases hnt with h3 | h3 <;>
      rw [h1, h3] at h <;> exact EShapeType.noConfusion h
  rw [if_neg hne]

/-- All three adjacency buckets of a rebuilt node hold exactly the canonical
destination ids of that node's edges. -/
theorem rebuiltNode_adj (sd : Settings) (ga : Graph)
    (hnodup : (ga.map (fun n => n.id)).Nodup)
    (hsafe : ∀ e ∈ edgeOccs ga,
      (canonSource e).type = EShapeType.storedProcedure ∨
        (canonSource e).type = EShapeType.eventTrigger)
    {n : NodeData} (hn : n ∈ ga) {nm : String}
    (hpair : (n.id, nm) ∈ assignedPairs (fun _ => 0) ga) :
    (rebuiltNode sd ga nm n).connectedTo = some (canonDests ga .hard n) ∧
      (rebuiltNode sd ga nm n).softConnectedTo = some (canonDests ga .soft n) ∧
      (rebuiltNode sd ga nm n).eventConnectedTo = some (canonDests ga .event n) := by
  have h1 := adj_content sd ga hnodup hn hpair ELineType.hard
  have h2 := adj_content sd ga hnodup hn hpair ELineType.soft
  have h3 := adj_content sd ga hnodup hn hpair ELineType.event
  cases ht : n.type with
  | dataSource =>
    have hrep : rebuiltNode sd ga nm n =
        nodeOfDsEntry (chartNameMap sd ga) nm (entryOf .dataSource n) := by
      rw [rebuiltNode, ht]
    rw [hrep, rebuilt_ds]
    exact ⟨congrArg some (canonDests_nil ga hsafe (Or.inl ht) _).symm,
      congrArg some (canonDests_nil ga hsafe (Or.inl ht) _).symm,
      congrArg some (canonDests_nil ga hsafe (Or.inl ht) _).symm⟩
  | storedProcedure =>
    have hrep : rebuiltNode sd ga nm n =
        nodeOfWlEntry .storedProcedure (chartNameMap sd ga) nm
          (cleanEntry (applyPushes (entryOf .storedProcedure n)
            (targetedPushes (serAfterNodes sd ga).nameMap (edgeOccs ga)
              .storedProcedure nm))) := by
      rw [rebuiltNode, ht]
    rw [ht] at h1 h2 h3
    rw [hrep, rebuilt_wl _ (Or.inl rfl)]
    exact ⟨congrArg some h1, congrArg some h2, congrArg some h3⟩
  | eventTrigger =>
    have hrep : rebuiltNode sd ga nm n =
        nodeOfWlEntry .eventTrigger (chartNameMap sd ga) nm
          (cleanEntry (applyPushes (entryOf .eventTrigger n)
            (targetedPushes (serAfterNodes sd ga).nameMap (edgeOccs ga)
              .eventTrigger nm))) := by
      rw [rebuiltNode, ht]
    rw [ht] at h1 h2 h3
    rw [hrep, rebuilt_wl _ (Or.inr rfl)]
    exact ⟨congrArg some h1, congrArg some h2, congrArg some h3⟩
  | event =>
    have hrep : rebuiltNode sd ga nm n =
        nodeOfEvEntry (chartNameMap sd ga) nm (entryOf .event n) := by
      rw [rebuiltNode, ht]
    rw [hrep, rebuilt_ev]
    exact ⟨congrArg some (canonDests_nil ga hsafe (Or.inr ht) _).symm,
      congrArg some (canonDests_nil ga hsafe (Or.inr ht) _).symm,
      congrArg some (canonDests_nil ga hsafe (Or.inr ht) _).symm⟩

/-- The rebuilt graph's node-map lookup of an original id returns the rebuilt
node. -/
theorem roundGraph_get (uuid : Nat → String) (sd : Settings) (ga : Graph)
    (hids : ∀ n ∈ ga, n.id.toList ≠ [] ∧ (jsTrim n.id).toList ≠ [])
    (hnodup : (ga.map (fun n => n.id)).Nodup)
    {n : NodeData} (hn : n ∈ ga) {nm : String}
    (hpair : (n.id, nm) ∈ assignedPairs (fun _ => 0) ga) :
    nodeMapGet (deserializeChart uuid (canonChart sd ga)) n.id =
      some (rebuiltNode sd ga nm n) := by
  obtain ⟨nm2, hpair2, hmem⟩ := roundGraph_mem_fwd uuid sd ga hids hn
  have h1 := mapGetStr_of_mem_nodup (assignedPairs_keys _ _ ▸ hnodup) hpair
  have h2 := mapGetStr_of_mem_nodup (assignedPairs_keys _ _ ▸ hnodup) hpair2
  have hnm : nm = nm2 := Option.some.inj (h1.symm.trans h2)
  subst hnm
  have hget := nodeMapGet_of_mem (roundGraph_ids_nodup uuid sd ga hids hnodup) hmem
  rw [rebuiltNode_id] at hget
  exact hget

/-- The canonical edge identity depends only on the kind and the endpoint
ids. -/
theorem canonEdge_ids (k : ELineType) {x y x2 y2 : NodeData}
    (hx : x.id = x2.id) (hy : y.id = y2.id) :
    canonEdge (k, x, y) = canonEdge (k, x2, y2) := by
  cases k <;> simp [canonEdge, hx, hy]

/-- Membership of the resolved canonical adjacency bucket. -/
theorem roundGraph_adj_mem (uuid : Nat → String) (sd : Settings) (ga : Graph)
    (k0 : ELineType) (n y : NodeData) :
    (y ∈ resolveTargets (deserializeChart uuid (canonChart sd ga))
        (some (canonDests ga k0 n))) ↔
      ∃ e ∈ edgeOccs ga, canonSource e = n ∧ e.1 = k0 ∧
        nodeMapGet (deserializeChart uuid (canonChart sd ga))
          (canonDest e).id = some y := by
  unfold resolveTargets canonDests
  simp only [Option.getD_some, List.mem_filterMap]
  constructor
  · rintro ⟨o, ho, hbind⟩
    obtain ⟨e, he, hoe⟩ := ho
    by_cases hc : canonSource e = n ∧ e.1 = k0
    · rw [if_pos hc] at hoe
      obtain rfl : some ((canonDest e).id) = o := Option.some.inj hoe
      exact ⟨e, he, hc.1, hc.2, hbind⟩
    · rw [if_neg hc] at hoe
      exact absurd hoe (by simp)
  · rintro ⟨e, he, hc1, hc2, hget⟩
    exact ⟨some ((canonDest e).id), ⟨e, he, by rw [if_pos ⟨hc1, hc2⟩]⟩, hget⟩

/-- The rebuilt graph has the same number of nodes of every shape type. -/
theorem roundGraph_type_count (uuid : Nat → String) (sd : Settings) (ga : Graph)
    (hids : ∀ n ∈ ga, n.id.toList ≠ [] ∧ (jsTrim n.id).toList ≠ [])
    (t : EShapeType) :
    ((deserializeChart uuid (canonChart sd ga)).filter
        (fun x => x.type == t)).length =
      (ga.filter (fun n => n.type == t)).length := by
  rw [deserializeChart_canon uuid sd ga hids]
  have hsp2 : (serAfterNodes sd ga).storedProcedures =
      namedEntries .storedProcedure 0
        (ga.filter (fun m => m.type == EShapeType.storedProcedure)) :=
    serAfterNodes_sections sd ga .storedProcedure
  have het2 : (serAfterNodes sd ga).eventTriggers =
      namedEntries .eventTrigger 0
        (ga.filter (fun m => m.type == EShapeType.eventTrigger)) :=
    serAfterNodes_sections sd ga .eventTrigger
  have hds : ∀ t2 : EShapeType, ((canonChart sd ga).dataSources.map
      (fun p => nodeOfDsEntry (chartNameMap sd ga) p.1 p.2)).filter
        (fun x => x.type == t2) =
      if (EShapeType.dataSource == t2) then (canonChart sd ga).dataSources.map
        (fun p => nodeOfDsEntry (chartNameMap sd ga) p.1 p.2) else [] := by
    intro t2
    split
    · rw [List.filter_eq_self]
      intro b hb
      obtain ⟨a, _, rfl⟩ := List.mem_map.mp hb
      assumption
    · rw [List.filter_eq_nil]
      intro b hb
      obtain ⟨a, _, rfl⟩ := List.mem_map.mp hb
      assumption
  have hsp : ∀ t2 : EShapeType, ((canonChart sd ga).storedProcedures.map
      (fun p => nodeOfWlEntry .storedProcedure (chartNameMap sd ga) p.1 p.2)).filter
        (fun x => x.type == t2) =
      if (EShapeType.storedProcedure == t2) then
        (canonChart sd ga).storedProcedures.map
          (fun p => nodeOfWlEntry .storedProcedure (chartNameMap sd ga) p.1 p.2)
      else [] := by
    intro t2
    split
    · rw [List.filter_eq_self]
      intro b hb
      obtain ⟨a, _, rfl⟩ := List.mem_map.mp hb
      assumption
    · rw [List.filter_eq_nil]
      intro b hb
      obtain ⟨a, _, rfl⟩ := List.mem_map.mp hb
      assumption
  have het : ∀ t2 : EShapeType, ((canonChart sd ga).eventTriggers.map
      (fun p => nodeOfWlEntry .eventTrigger (chartNameMap sd ga) p.1 p.2)).filter
        (fun x => x.type == t2) =
      if (EShapeType.eventTrigger == t2) then
        (canonChart sd ga).eventTriggers.map
          (fun p => nodeOfWlEntry .eventTrigger (chartNameMap sd ga) p.1 p.2)
      else [] := by
    intro t2
    split
    · rw [List.filter_eq_self]
      intro b hb
      obtain ⟨a, _, rfl⟩ := List.mem_map.mp hb
      assumption
    · rw [List.filter_eq_nil]
      intro b hb
      obtain ⟨a, _, rfl⟩ := List.mem_map.mp hb
      assumption
  have hev : ∀ t2 : EShapeType, ((canonChart sd ga).events.map
      (fun p => nodeOfEvEntry (chartNameMap sd ga) p.1 p.2)).filter
        (fun x => x.type == t2) =
      if (EShapeType.event == t2) then (canonChart sd ga).events.map
        (fun p => nodeOfEvEntry (chartNameMap sd ga) p.1 p.2) else [] := by
    intro t2
    split
    · rw [List.filter_eq_self]
      intro b hb
      obtain ⟨a, _, rfl⟩ := List.mem_map.mp hb
      assumption
    · rw [List.filter_eq_nil]
      intro b hb
      obtain ⟨a, _, rfl⟩ := List.mem_map.mp hb
      assumption
  have lds : (canonChart sd ga).dataSources.length =
      (ga.filter (fun m => m.type == EShapeType.dataSource)).length := by
    simp [canonChart, namedEntries_length]
  have lsp : (canonChart sd ga).storedProcedures.length =
      (ga.filter (fun m => m.type == EShapeType.storedProcedure)).length := by
    simp [canonChart, hsp2, namedEntries_length]
  have let2 : (canonChart sd ga).eventTriggers.length =
      (ga.filter (fun m => m.type == EShapeType.eventTrigger)).length := by
    simp [canonChart, het2, namedEntries_length]
  have lev : (canonChart sd ga).events.length =
      (ga.filter (fun m => m.type == EShapeType.event)).length := by
    simp [canonChart, namedEntries_length]
  rw [List.filter_append, List.filter_append, List.filter_append,
    hds t, hsp t, het t, hev t]
  cases t <;>
    simp only [show (EShapeType.dataSource == EShapeType.dataSource) = true from rfl,
      if_true, if_false, List.length_append, List.length_map, List.length_nil,
      Nat.zero_add, Nat.add_zero, lds, lsp, let2, lev] <;>
    simp [lds, lsp, let2, lev]

theorem rebuiltNode_adjK (sd : Settings) (ga : Graph)
    (hnodup : (ga.map (fun n => n.id)).Nodup)
    (hsafe : ∀ e ∈ edgeOccs ga,
      (canonSource e).type = EShapeType.storedProcedure ∨
        (canonSource e).type = EShapeType.eventTrigger)
    {n : NodeData} (hn : n ∈ ga) {nm : String}
    (hpair : (n.id, nm) ∈ assignedPairs (fun _ => 0) ga) (k : ELineType) :
    (match k with
     | .hard => (rebuiltNode sd ga nm n).connectedTo
     | .soft => (rebuiltNode sd ga nm n).softConnectedTo
     | .event => (rebuiltNode sd ga nm n).eventConnectedTo) =
      some (canonDests ga k n) := by
  obtain ⟨a1, a2, a3⟩ := rebuiltNode_adj sd ga hnodup hsafe hn hpair
  cases k
  · exact a1
  · exact a2
  · exact a3

/-- The rebuilt graph has the same canonical edge set: an edge identity
(kind together with the direction-insensitive endpoint-id key) occurs among
the rebuilt graph's resolved edges exactly when it occurs among the original
graph's. -/
theorem roundGraph_edge_iff (uuid : Nat → String) (sd : Settings) (ga : Graph)
    (hids : ∀ n ∈ ga, n.id.toList ≠ [] ∧ (jsTrim n.id).toList ≠ [])
    (hnodup : (ga.map (fun n => n.id)).Nodup)
    (hsafe : ∀ e ∈ edgeOccs ga,
      (canonSource e).type = EShapeType.storedProcedure ∨
        (canonSource e).type = EShapeType.eventTrigger)
    (p : ELineType × String) :
    (p ∈ (edgeOccs (deserializeChart uuid (canonChart sd ga))).map canonEdge) ↔
      p ∈ (edgeOccs ga).map canonEdge := by
  constructor
  · intro hp
    rw [List.mem_map] at hp
    obtain ⟨⟨k, x, y⟩, hmem, rfl⟩ := hp
    rw [edgeOccs_mem_iff] at hmem
    obtain ⟨hx, hy⟩ := hmem
    obtain ⟨n, hn, nm, hpair, rfl⟩ := roundGraph_mem_back uuid sd ga hids hx
    rw [rebuiltNode_adjK sd ga hnodup hsafe hn hpair k] at hy
    rw [roundGraph_adj_mem] at hy
    obtain ⟨e, he, hc1, hc2, hget⟩ := hy
    obtain ⟨ke, a, b⟩ := e
    have hke : ke = k := hc2
    subst hke
    obtain ⟨nmD, hD1, hD2⟩ := canon_name_id sd ga hnodup _ (canonDest_mem he)
    have hgetD := roundGraph_get uuid sd ga hids hnodup (canonDest_mem he)
      (mapGetStr_mem hD1)
    have hyeq : y = rebuiltNode sd ga nmD (canonDest (ke, a, b)) :=
      Option.some.inj (hget.symm.trans hgetD)
    rw [List.mem_map]
    refine ⟨(ke, a, b), he, ?_⟩
    rw [← canonEdge_swap ke a b]
    apply canonEdge_ids
    · rw [rebuiltNode_id, hc1]
    · rw [hyeq, rebuiltNode_id]
  · intro hp
    rw [List.mem_map] at hp
    obtain ⟨⟨k, a, b⟩, he, rfl⟩ := hp
    have hsrcm := canonSource_mem he
    have hdstm := canonDest_mem he
    obtain ⟨nmS, hS1, hS2⟩ := canon_name_id sd ga hnodup _ hsrcm
    obtain ⟨nmD, hD1, hD2⟩ := canon_name_id sd ga hnodup _ hdstm
    have hpairS := mapGetStr_mem hS1
    have hpairD := mapGetStr_mem hD1
    rw [List.mem_map]
    refine ⟨(k, rebuiltNode sd ga nmS (canonSource (k, a, b)),
      rebuiltNode sd ga nmD (canonDest (k, a, b))), ?_, ?_⟩
    · rw [edgeOccs_mem_iff]
      refine ⟨?_, ?_⟩
      · exact (nodeMapGet_mem (roundGraph_get uuid sd ga hids hnodup hsrcm hpairS)).1
      · rw [rebuiltNode_adjK sd ga hnodup hsafe hsrcm hpairS k]
        rw [roundGraph_adj_mem]
        exact ⟨(k, a, b), he, rfl, rfl,
          roundGraph_get uuid sd ga hids hnodup hdstm hpairD⟩
    · rw [← canonEdge_swap k a b]
      apply canonEdge_ids
      · rw [rebuiltNode_id]
      · rw [rebuiltNode_id]

/-- A serialization run over an error-free graph produces the canonical
document of the analyzed (mutated) graph. -/
theorem performGraphSerialization_eq (sd : Settings) (g : Graph)
    (herr : ∀ d ∈ (performGraphSemanticAnalysis g).diagnostics,
      d.severity ≠ ESeverity.error) :
    performGraphSerialization sd g =
      some (SerializationOutcome.produced (some
        (assembleOutput (serFinalState sd (g.map normalizeNode))))) := by
  have hs : checkSemanticAnalysisSuccess
      (performGraphSemanticAnalysis g).grouped = true :=
    (analysis_success_iff_no_error g).mpr herr
  have hgraph : (performGraphSemanticAnalysis g).graph = g.map normalizeNode := by
    rw [performGraphSemanticAnalysis_eq]
  have hsafe : ∀ e ∈ edgeOccs (g.map normalizeNode),
      (canonSource e).type = EShapeType.storedProcedure ∨
        (canonSource e).type = EShapeType.eventTrigger := by
    rintro ⟨k, a, b⟩ he
    exact edge_safe_of_allowed (edge_combo_allowed g herr he)
  simp only [performGraphSerialization, hs, Bool.not_true, Bool.false_eq_true,
    if_false]
  rw [hgraph, analyzerRun_ser sd (g.map normalizeNode) hsafe]
  rfl

/-- C1 (corrected).  For a graph whose validation run reports no
error-severity diagnostic and whose node ids are pairwise distinct, nonempty
and nonempty after trimming, serializing and deserializing yields a graph
semantically equivalent to the analyzed (mutated-in-place) graph: the same
number of nodes of every shape type; for every node a node with the same id,
the same type and the same normalized serialized payload (empty-falsy fields
collapse; the never-serialized `args` field is excluded); and the same
canonical edge set, identifying a hard or soft edge with its
direction-insensitive endpoint-id key and an event edge with its directed
one. -/
theorem roundtrip_semantic_equivalence (sd : Settings) (uuid : Nat → String)
    (g : Graph)
    (herr : ∀ d ∈ (performGraphSemanticAnalysis g).diagnostics,
      d.severity ≠ ESeverity.error)
    (hnodup : ((g.map normalizeNode).map (fun n => n.id)).Nodup)
    (hids : ∀ n ∈ g.map normalizeNode,
      n.id.toList ≠ [] ∧ (jsTrim n.id).toList ≠ []) :
    ∃ doc G2,
      performGraphSerialization sd g =
        some (SerializationOutcome.produced (some doc)) ∧
      deserializeGraphFrom uuid (ParsedYaml.objectRoot doc) = Except.ok G2 ∧
      (∀ t : EShapeType,
        (G2.filter (fun x => x.type == t)).length =
          ((g.map normalizeNode).filter (fun n => n.type == t)).length) ∧
      (∀ n ∈ g.map normalizeNode, ∃ x ∈ G2,
        x.id = n.id ∧ x.type = n.type ∧ payloadNorm x = payloadNorm n) ∧
      (∀ x ∈ G2, ∃ n ∈ g.map normalizeNode,
        x.id = n.id ∧ x.type = n.type ∧ payloadNorm x = payloadNorm n) ∧
      (∀ p : ELineType × String,
        (p ∈ (edgeOccs G2).map canonEdge) ↔
          p ∈ (edgeOccs (g.map normalizeNode)).map canonEdge) := by
  have hsafe : ∀ e ∈ edgeOccs (g.map normalizeNode),
      (canonSource e).type = EShapeType.storedProcedure ∨
        (canonSource e).type = EShapeType.eventTrigger := by
    rintro ⟨k, a, b⟩ he
    exact edge_safe_of_allowed (edge_combo_allowed g herr he)
  refine ⟨assembleOutput (serFinalState sd (g.map normalizeNode)),
    deserializeChart uuid (canonChart sd (g.map normalizeNode)),
    performGraphSerialization_eq sd g herr, ?_, ?_, ?_, ?_, ?_⟩
  · show Except.ok (deserializeChart uuid
      ((assembleOutput (serFinalState sd (g.map normalizeNode))).chart.getD {})) =
        Except.ok (deserializeChart uuid (canonChart sd (g.map normalizeNode)))
    rw [docChart_eq]
  · intro t
    exact roundGraph_type_count uuid sd (g.map normalizeNode) hids t
  · intro n hn
    obtain ⟨nm, hpair, hmem⟩ :=
      roundGraph_mem_fwd uuid sd (g.map normalizeNode) hids hn
    exact ⟨rebuiltNode sd (g.map normalizeNode) nm n, hmem,
      rebuiltNode_id _ _ _ _, rebuiltNode_type _ _ _ _,
      rebuiltNode_payload _ _ _ _⟩
  · intro x hx
    obtain ⟨n, hn, nm, hpair, rfl⟩ :=
      roundGraph_mem_back uuid sd (g.map normalizeNode) hids hx
    exact ⟨n, hn, rebuiltNode_id _ _ _ _, rebuiltNode_type _ _ _ _,
      rebuiltNode_payload _ _ _ _⟩
  · intro p
    exact roundGraph_edge_iff uuid sd (g.map normalizeNode) hids hnodup hsafe p

/-- The data source of the C1 witness scenario. -/
def c1ds : NodeData :=
  { id := "A"
    type := .dataSource
    name := "dsA"
    path := some "p"
    resourceName := some "rn"
    dataType := some "file" }

/-- The stored procedure of the C1 witness scenario, hard-linked to the data
source. -/
def c1sp : NodeData :=
  { id := "B"
    type := .storedProcedure
    name := "spB"
    image := some "docker://img"
    connectedTo := some [some "A"] }

/-- Concrete settings for the C1 scenarios. -/
def c1settings : Settings :=
  ⟨"v1", "1", "chart", "nm", "m", "d", [], "e", "public"⟩

/-- A concrete uuid supply for the C1 scenarios. -/
def c1uuid : Nat → String := fun _ => "u"

/-- Witness for C1: the two-node graph with one hard link validates with no
error, has distinct good ids, and the roundtrip equivalence holds for it. -/
theorem roundtrip_semantic_equivalence_witness :
    (∀ d ∈ (performGraphSemanticAnalysis [c1sp, c1ds]).diagnostics,
        d.severity ≠ ESeverity.error) ∧
    ((([c1sp, c1ds].map normalizeNode).map (fun n => n.id)).Nodup) ∧
    (∀ n ∈ [c1sp, c1ds].map normalizeNode,
        n.id.toList ≠ [] ∧ (jsTrim n.id).toList ≠ []) ∧
    (∃ doc G2,
      performGraphSerialization c1settings [c1sp, c1ds] =
        some (SerializationOutcome.produced (some doc)) ∧
      deserializeGraphFrom c1uuid (ParsedYaml.objectRoot doc) = Except.ok G2 ∧
      (∀ t : EShapeType,
        (G2.filter (fun x => x.type == t)).length =
          (([c1sp, c1ds].map normalizeNode).filter
            (fun n => n.type == t)).length) ∧
      (∀ n ∈ [c1sp, c1ds].map normalizeNode, ∃ x ∈ G2,
        x.id = n.id ∧ x.type = n.type ∧ payloadNorm x = payloadNorm n) ∧
      (∀ x ∈ G2, ∃ n ∈ [c1sp, c1ds].map normalizeNode,
        x.id = n.id ∧ x.type = n.type ∧ payloadNorm x = payloadNorm n) ∧
      (∀ p : ELineType × String,
        (p ∈ (edgeOccs G2).map canonEdge) ↔
          p ∈ (edgeOccs ([c1sp, c1ds].map normalizeNode)).map canonEdge)) :=
  ⟨by decide, by decide, by decide,
    roundtrip_semantic_equivalence c1settings c1uuid [c1sp, c1ds]
      (by decide) (by decide) (by decide)⟩

/-- The stored procedure of the C1 counterexample: it carries a validated
`args` value and nothing else unusual. -/
def c1argSp : NodeData :=
  { id := "B"
    type := .storedProcedure
    name := "spB"
    image := some "docker://img"
    args := some ["-v"] }

/-- C1 counterexample: a graph that validates with zero error diagnostics
whose roundtrip does NOT preserve all payload field values — the `args`
field survives validation and the in-place mutation but is never serialized,
so the deserialized node comes back with `args = none`. -/
theorem roundtrip_drops_args_cex :
    (∀ d ∈ (performGraphSemanticAnalysis [c1argSp]).diagnostics,
        d.severity ≠ ESeverity.error) ∧
    c1argSp.args = some ["-v"] ∧
    (normalizeNode c1argSp).args = some ["-v"] ∧
    ∃ doc G2,
      performGraphSerialization c1settings [c1argSp] =
        some (SerializationOutcome.produced (some doc)) ∧
      deserializeGraphFrom c1uuid (ParsedYaml.objectRoot doc) = Except.ok G2 ∧
      G2.length = 1 ∧ ∀ x ∈ G2, x.id = "B" ∧ x.args = none := by
  refine ⟨by decide, by decide, by decide, ?_⟩
  refine ⟨_, _, rfl, rfl, by decide, by decide⟩

example : isAlphanumeric "svc 1" = true := by decide
example : isAlphanumeric "svc#1" = false := by decide
example : checkMemoryFormat "128Mi" = true := by decide
example : checkMemoryFormat "128X" = false := by decide
example : checkTargetFormat "qemu/x86_64" = true := by decide
example : checkTargetFormat "qemu/arm" = false := by decide
